import Mathlib

/-!
# Ballot integrity and verification subsystem

A shallow embedding of `server/utils/merkleTree.js`, `server/utils/encryption.js`,
`server/utils/face.js`, `server/utils/arcfaceClient.js`, of the biometric decision
of the voter login in `server/routes/auth.js`, of the cast route in
`server/routes/votes.js` with the middleware `checkVotingStatus`, and of the rate
limiter `sensitiveOperationLimit` in `server/middleware/auth.js`.

JavaScript strings are embedded as `String` (well-formed Unicode text), buffers
as lists of bytes, integers as naturals or integers, binary64 numbers as
`JsNumber` with the rounding of every operation, a method that may throw as a
function into `Except String`.  The primitives of Node's `crypto` module (SHA-256,
AES-256-GCM), the `utf8` codec, `JSON`, the image decoder and the embedding service
are not code of the repository: they are parameters of the embedding.

The cast route is embedded twice: as a function from the database to the database
and the response (`castVote`), and step by step (`stepRequest`), one step for each
`await` on the database, for the claims on failures and on requests in flight at
the same time.  The two agree on a request that runs alone without a failure
(`castVote_fresh`).
-/

/-! # Part I: the embedding -/

/-! ## The Merkle ledger (`server/utils/merkleTree.js`) -/

namespace MerkleTree

/-- One step of an inclusion proof: the object `{ hash, position }` pushed by
`getProof` and read back by `verifyProof`. -/
structure ProofElement where
  hash : String
  position : String
deriving DecidableEq, Repr

/-- The body of the `while` loop of `buildTree`: the `for` loop that walks
`currentLevel` two nodes at a time; a node without a right neighbour is combined
with itself. -/
def nextLevel (hash : String → String) : List String → List String
  | [] => []
  | [left] => [hash (left ++ left)]
  | left :: right :: rest => hash (left ++ right) :: nextLevel hash rest

theorem nextLevel_length (hash : String → String) :
    ∀ (n : Nat) (l : List String), l.length ≤ n → (nextLevel hash l).length = (l.length + 1) / 2
  | _, [], _ => by simp [nextLevel]
  | _, [_], _ => by simp [nextLevel]
  | 0, _ :: _ :: _, h => by simp at h
  | n + 1, a :: b :: rest, h => by
    have ih := nextLevel_length hash n rest (by simp at h; omega)
    simp only [nextLevel, List.length_cons, ih]
    omega

/-- The `while (currentLevel.length > 1)` loop of `buildTree`: the list of levels
from `currentLevel` upwards. -/
def buildLevels (hash : String → String) (currentLevel : List String) : List (List String) :=
  if 1 < currentLevel.length then
    currentLevel :: buildLevels hash (nextLevel hash currentLevel)
  else
    [currentLevel]
termination_by currentLevel.length
decreasing_by
  rw [nextLevel_length hash _ _ (Nat.le_refl _)]
  omega

/-- The method `buildTree`, as a function of `this.leaves`. -/
def buildTree (hash : String → String) (leaves : List String) : List (List String) :=
  if leaves.length = 0 then [] else buildLevels hash leaves

end MerkleTree

/-- An instance of the class `MerkleTree`: its fields `leaves` and `tree`. -/
structure MerkleTree where
  leaves : List String
  tree : List (List String)
deriving DecidableEq, Repr

namespace MerkleTree

/-- The constructor `new MerkleTree(leaves)`. -/
def new (hash : String → String) (leaves : List String) : MerkleTree :=
  { leaves := leaves.map hash, tree := buildTree hash (leaves.map hash) }

/-- The method `getRoot`; `none` is JavaScript `null`. -/
def getRoot (t : MerkleTree) : Option String :=
  if t.tree.length = 0 then none
  else (t.tree.getD (t.tree.length - 1) []).head?

/-- The `for` loop of `getProof` over the levels below the root. -/
def getProofLoop : List (List String) → Nat → List ProofElement
  | [], _ => []
  | currentLevel :: rest, currentIndex =>
    let isLeft : Bool := currentIndex % 2 = 0
    let siblingIndex := if isLeft then currentIndex + 1 else currentIndex - 1
    (if h : siblingIndex < currentLevel.length then
      [{ hash := currentLevel.get ⟨siblingIndex, h⟩,
         position := if isLeft then "right" else "left" }]
    else []) ++ getProofLoop rest (currentIndex / 2)

/-- The method `getProof`; `List.indexOf` returns the length of the list where
JavaScript `indexOf` returns `-1`. -/
def getProof (hash : String → String) (t : MerkleTree) (leaf : String) :
    Except String (List ProofElement) :=
  let leafHash := hash leaf
  let leafIndex := t.leaves.indexOf leafHash
  if leafIndex = t.leaves.length then
    .error "Leaf not found in tree"
  else
    .ok (getProofLoop t.tree.dropLast leafIndex)

/-- The method `verifyProof`. -/
def verifyProof (hash : String → String) (leaf : String) (proof : List ProofElement)
    (root : Option String) : Bool :=
  let currentHash := proof.foldl
    (fun currentHash proofElement =>
      if proofElement.position = "left" then hash (proofElement.hash ++ currentHash)
      else hash (currentHash ++ proofElement.hash))
    (hash leaf)
  decide (some currentHash = root)

/-- The static method `verifyVoteInTree`. -/
def verifyVoteInTree (hash : String → String) (voteHash : String)
    (proof : List ProofElement) (root : Option String) : Bool :=
  verifyProof hash voteHash proof root

/-- The method `addLeaf`: the instance after the call. -/
def addLeaf (hash : String → String) (t : MerkleTree) (leaf : String) : MerkleTree :=
  let leaves := t.leaves ++ [hash leaf]
  { leaves := leaves, tree := buildTree hash leaves }

end MerkleTree

/-! ## The encryption service (`server/utils/encryption.js`) -/

namespace EncryptionService

/-- A Node `Buffer`: a list of bytes. -/
abbrev Bytes := List (Fin 256)

/-- The hexadecimal digit, in lower case, of a value below 16. -/
def hexDigit (n : Fin 16) : Char :=
  if n.val < 10 then Char.ofNat (48 + n.val) else Char.ofNat (87 + n.val)

/-- The value of a hexadecimal digit, in lower or upper case. -/
def hexValue (c : Char) : Option (Fin 16) :=
  if h : 48 ≤ c.toNat ∧ c.toNat ≤ 57 then some ⟨c.toNat - 48, by omega⟩
  else if h : 97 ≤ c.toNat ∧ c.toNat ≤ 102 then some ⟨c.toNat - 87, by omega⟩
  else if h : 65 ≤ c.toNat ∧ c.toNat ≤ 70 then some ⟨c.toNat - 55, by omega⟩
  else none

/-- The byte with the given high and low half. -/
def byteOfNibbles (hi lo : Fin 16) : Fin 256 :=
  ⟨hi.val * 16 + lo.val, by have := hi.isLt; have := lo.isLt; omega⟩

/-- The two hexadecimal digits of a byte. -/
def hexOfByte (b : Fin 256) : List Char :=
  [hexDigit ⟨b.val / 16, by have := b.isLt; omega⟩, hexDigit ⟨b.val % 16, by omega⟩]

/-- Node's `buffer.toString('hex')`. -/
def toHex (b : Bytes) : String := ⟨b.flatMap hexOfByte⟩

/-- Node's hexadecimal decoder on a list of characters: pairs of digits are
decoded until a pair that is not two hexadecimal digits, or the end. -/
def fromHexChars : List Char → Bytes
  | hi :: lo :: rest =>
    match hexValue hi, hexValue lo with
    | some h, some l => byteOfNibbles h l :: fromHexChars rest
    | _, _ => []
  | _ => []

/-- Node's `Buffer.from(text, 'hex')`. -/
def fromHex (text : String) : Bytes := fromHexChars text.data

/-- The primitives of Node that the service calls: `crypto.createHash('sha256')`,
the `utf8` codec of `Buffer`, and AES-256-GCM with a 16-byte tag as run by
`createCipheriv` and `createDecipheriv`, where an error stands for a thrown
exception and carries its message. -/
structure Primitives where
  sha256 : Bytes → Bytes
  utf8Encode : String → Bytes
  utf8Decode : Bytes → String
  gcmEncrypt : (key iv aad plaintext : Bytes) → Except String (Bytes × Bytes)
  gcmDecrypt : (key iv aad ciphertext tag : Bytes) → Except String Bytes

/-- The `JSON` object over a type `J` of JSON values: `JSON.stringify`,
`JSON.parse` (`none` when it throws), the object literal `{ ciphertext, iv, tag }`
and the reading of these three fields, as strings, by destructuring. -/
structure Json (J : Type) where
  stringify : J → String
  parse : String → Option J
  ofEncrypted : String → String → String → J
  toEncrypted : J → Option (String × String × String)

/-- The result of `encrypt`: ciphertext, nonce and tag in hexadecimal. -/
structure EncryptedData where
  ciphertext : String
  iv : String
  tag : String
deriving DecidableEq, Repr

/-- The result of `encryptVote`. -/
structure EncryptedVote where
  encryptedVote : String
  voteHash : String
deriving DecidableEq, Repr

/-- A value passed as a key: a buffer, a string, or a value of another type. -/
inductive Key where
  | buffer (key : Bytes)
  | string (key : String)
  | other
deriving DecidableEq, Repr

/-- The fields `keyLength`, `ivLength` and `tagLength` set by the constructor. -/
def keyLength : Nat := 32

def ivLength : Nat := 12

def tagLength : Nat := 16

/-- The test `key.match(/^[0-9a-fA-F]{64}$/)`. -/
def isHex64 (key : String) : Bool :=
  key.data.length = 64 && key.data.all (fun c => (hexValue c).isSome)

/-- The method `normalizeKey`. -/
def normalizeKey (lib : Primitives) : Key → Except String Bytes
  | .buffer key =>
    if key.length = keyLength then .ok key
    else if key.length > keyLength then .ok (key.take keyLength)
    else .ok (key ++ List.replicate (keyLength - key.length) 0)
  | .string key =>
    if isHex64 key then .ok (fromHex key)
    else .ok (lib.sha256 (lib.utf8Encode key))
  | .other => .error "Invalid key type"

/-- The additional authenticated data `Buffer.from('voting-system', 'utf8')`. -/
def aad (lib : Primitives) : Bytes := lib.utf8Encode "voting-system"

/-- The method `encrypt`; `iv` is the value drawn by `crypto.randomBytes`. -/
def encrypt (lib : Primitives) (iv : Bytes) (text : String) (key : Key) :
    Except String EncryptedData :=
  match normalizeKey lib key with
  | .error message => .error ("Encryption failed: " ++ message)
  | .ok keyBuf =>
    match lib.gcmEncrypt keyBuf iv (aad lib) (lib.utf8Encode text) with
    | .error message => .error ("Encryption failed: " ++ message)
    | .ok (ciphertextBuf, tag) =>
      .ok { ciphertext := toHex ciphertextBuf, iv := toHex iv, tag := toHex tag }

/-- The method `decrypt`. -/
def decrypt (lib : Primitives) (encryptedData : EncryptedData) (key : Key) :
    Except String String :=
  match normalizeKey lib key with
  | .error message => .error ("Decryption failed: " ++ message)
  | .ok keyBuf =>
    match lib.gcmDecrypt keyBuf (fromHex encryptedData.iv) (aad lib)
        (fromHex encryptedData.ciphertext) (fromHex encryptedData.tag) with
    | .error message => .error ("Decryption failed: " ++ message)
    | .ok plaintextBuf => .ok (lib.utf8Decode plaintextBuf)

/-- The method `hash`. -/
def hash (lib : Primitives) (data : String) : String :=
  toHex (lib.sha256 (lib.utf8Encode data))

/-- The method `encryptVote`. -/
def encryptVote {J : Type} (lib : Primitives) (json : Json J) (iv : Bytes) (voteData : J)
    (electionKey : Key) : Except String EncryptedVote :=
  let voteString := json.stringify voteData
  match encrypt lib iv voteString electionKey with
  | .error message => .error message
  | .ok encrypted =>
    let voteHash := hash lib voteString
    .ok { encryptedVote :=
            json.stringify (json.ofEncrypted encrypted.ciphertext encrypted.iv encrypted.tag),
          voteHash := voteHash }

/-- The argument `encryptedVote` of `decryptVote`: a string or another value. -/
inductive StoredVote (J : Type) where
  | string (text : String)
  | value (payload : J)

/-- The method `decryptVote`.  A payload whose fields `ciphertext`, `iv` and `tag`
are not three strings makes `decrypt` throw inside its `try` block. -/
def decryptVote {J : Type} (lib : Primitives) (json : Json J) (encryptedVote : StoredVote J)
    (electionKey : Key) : Except String J :=
  let parsed : Option J :=
    match encryptedVote with
    | .string text => json.parse text
    | .value payload => some payload
  match parsed with
  | none => .error "SyntaxError"
  | some payload =>
    match json.toEncrypted payload with
    | none => .error "Decryption failed: invalid argument"
    | some (ciphertext, iv, tag) =>
      match decrypt lib { ciphertext := ciphertext, iv := iv, tag := tag } electionKey with
      | .error message => .error message
      | .ok decryptedString =>
        match json.parse decryptedString with
        | none => .error "SyntaxError"
        | some voteData => .ok voteData

end EncryptionService

/-! ## The face service (`server/utils/face.js`, `server/utils/arcfaceClient.js`) -/

/-- The truth value JavaScript gives to a string that may be missing (`undefined`
or `null`): a missing string and the empty string are falsy. -/
def truthy : Option String → Bool
  | none => false
  | some s => decide (s ≠ "")

/-- A JavaScript number: a binary64 value.  A finite value is given by the rational
it stands for (the two zeros are not told apart: no comparison of the code tells
them apart); the other values are the two infinities and `NaN`. -/
inductive JsNumber where
  | finite (value : ℚ)
  | infinity (negative : Bool)
  | nan
deriving DecidableEq

namespace JsNumber

/-- Rounding of a rational that is not negative to the nearest integer, a tie
going to the even one. -/
def roundHalfEven (x : ℚ) : Int :=
  let f : Int := ⌊x⌋
  if x - f < 1 / 2 then f
  else if x - f > 1 / 2 then f + 1
  else if f % 2 = 0 then f
  else f + 1

/-- The binary64 value of an exact result: rounding to nearest, ties to even, with
a significand of 53 bits, the least exponent -1022 (below it the spacing stays
`2 ^ (-1074)`), and `Infinity` from `2 ^ 1024` on. -/
def round (q : ℚ) : JsNumber :=
  if q = 0 then .finite 0
  else
    let e : Int := Int.log 2 |q|
    let t : Int := max e (-1022) - 52
    let m : Int := roundHalfEven (|q| / (2 : ℚ) ^ t)
    let r : ℚ := (m : ℚ) * (2 : ℚ) ^ t
    if r ≥ (2 : ℚ) ^ (1024 : Int) then .infinity (decide (q < 0))
    else .finite (if q < 0 then -r else r)

/-- The operator `*` on numbers. -/
def mul : JsNumber → JsNumber → JsNumber
  | .finite a, .finite b => round (a * b)
  | .nan, _ => .nan
  | _, .nan => .nan
  | .infinity s, .finite b => if b = 0 then .nan else .infinity (xor s (decide (b < 0)))
  | .finite a, .infinity s => if a = 0 then .nan else .infinity (xor s (decide (a < 0)))
  | .infinity s1, .infinity s2 => .infinity (xor s1 s2)

/-- The operator `+` on numbers. -/
def add : JsNumber → JsNumber → JsNumber
  | .finite a, .finite b => round (a + b)
  | .nan, _ => .nan
  | _, .nan => .nan
  | .infinity s, .finite _ => .infinity s
  | .finite _, .infinity s => .infinity s
  | .infinity s1, .infinity s2 => if s1 = s2 then .infinity s1 else .nan

/-- The operator `>=` on numbers. -/
def ge : JsNumber → JsNumber → Bool
  | .finite a, .finite b => decide (a ≥ b)
  | .nan, _ => false
  | _, .nan => false
  | .infinity negative, .finite _ => !negative
  | .finite _, .infinity negative => negative
  | .infinity s1, .infinity s2 => !s1 || s2

end JsNumber

/-- The function `cosineSimilarity` of `arcfaceClient.js`.  A value that is not an
array is `none`; the entries of an array are numbers. -/
def cosineSimilarity (vecA vecB : Option (List JsNumber)) : JsNumber :=
  match vecA, vecB with
  | some a, some b =>
    if a.length ≠ b.length then .finite (-1)
    else (List.zipWith (fun x y => JsNumber.mul x y) a b).foldl
      (fun sum p => JsNumber.add sum p) (.finite 0)
  | _, _ => .finite (-1)

namespace FaceService

/-- The module constant `FACE_MODE`, the environment variable `ARC_SIM_THRESHOLD`
(the number `Number(process.env.ARC_SIM_THRESHOLD)`, or `none` when the variable is
not set or is empty), and what the service gets from outside the repository: `pixels` is the raw 8x8 grayscale data that `toBufferFromBase64`
and the `sharp` pipeline give for a face sample, `embedding` the array returned
by `getEmbeddingFromService`, `parseStored` is `JSON.parse` on a stored template
(an error when it throws, `none` for a value that is not an array) and
`stringify` is `JSON.stringify` on an embedding. -/
structure Env where
  faceMode : String
  arcSimThreshold : Option JsNumber
  pixels : String → Except String (List Nat)
  embedding : String → Except String (List JsNumber)
  parseStored : String → Except String (Option (List JsNumber))
  stringify : List JsNumber → String

/-- The module constant `ARC_DEFAULT_THRESHOLD`:
`Number(process.env.ARC_SIM_THRESHOLD || 0.5)`. -/
def arcDefaultThreshold (env : Env) : JsNumber :=
  env.arcSimThreshold.getD (.finite (1 / 2))

/-- The first two loops of `computeAverageHash`: the mean of the pixels and one
bit for each pixel, set when the pixel is greater than the mean. -/
def averageBits (data : List Nat) : List Bool :=
  let sum : Nat := data.foldl (fun (sum d : Nat) => sum + d) 0
  let avg : ℚ := (sum : ℚ) / (data.length : ℚ)
  data.map (fun (d : Nat) => decide ((d : ℚ) > avg))

/-- The call `parseInt(nibble, 2)` on a string of binary digits; `none` is `NaN`,
the result for the empty string. -/
def parseBinary : List Bool → Option Nat
  | [] => none
  | b :: bs => some ((b :: bs).foldl (fun n bit => 2 * n + (if bit then 1 else 0)) 0)

/-- The call `toString(16)` on the result of `parseInt`. -/
def numberToHex : Option Nat → String
  | none => "NaN"
  | some n => ⟨Nat.toDigits 16 n⟩

/-- The method `computeAverageHash`, from the raw pixel data on. -/
def computeAverageHash (data : List Nat) : String :=
  let bits := averageBits data
  (List.range 16).foldl
    (fun hex j => hex ++ numberToHex (parseBinary ((bits.drop (4 * j)).take 4))) ""

/-- The method `generateFaceTemplateHash`. -/
def generateFaceTemplateHash (env : Env) (faceData : String) : Except String String :=
  if env.faceMode = "arcface" then
    match env.embedding faceData with
    | .error message => .error message
    | .ok embedding => .ok (env.stringify embedding)
  else
    match env.pixels faceData with
    | .error message => .error message
    | .ok data => .ok (computeAverageHash data)

/-- The call `parseInt(c, 16)` on a string of one character; `none` is `NaN`. -/
def parseHexDigit (c : Char) : Option Nat :=
  if 48 ≤ c.toNat ∧ c.toNat ≤ 57 then some (c.toNat - 48)
  else if 97 ≤ c.toNat ∧ c.toNat ≤ 102 then some (c.toNat - 87)
  else if 65 ≤ c.toNat ∧ c.toNat ≤ 70 then some (c.toNat - 55)
  else none

/-- The number of matches of `/1/g` in `(a ^ b).toString(2)`, where `NaN` counts
as zero in the exclusive or. -/
def differingBits (a b : Option Nat) : Nat :=
  (Nat.toDigits 2 ((a.getD 0) ^^^ (b.getD 0))).count '1'

/-- The method `hammingDistance`; the result `none` is `Infinity`.  The arguments
are strings of characters of the basic plane, such as hexadecimal codes. -/
def hammingDistance (hexA hexB : Option String) : Option Nat :=
  match hexA, hexB with
  | some a, some b =>
    if a = "" ∨ b = "" ∨ a.length ≠ b.length then none
    else some ((List.zipWith (fun x y => differingBits (parseHexDigit x) (parseHexDigit y))
      a.data b.data).foldl (fun dist d => dist + d) 0)
  | _, _ => none

/-- The comparison `dist <= toleranceBits`, where `dist` may be `Infinity`. -/
def withinTolerance (dist : Option Nat) (toleranceBits : Nat) : Bool :=
  match dist with
  | none => false
  | some d => decide (d ≤ toleranceBits)

/-- The method `verifyFace`.  The stored template is a string or is missing;
`toleranceBits` is `none` when the argument is left out and then has its default
value 16.  An error is a rejected promise. -/
def verifyFace (env : Env) (faceData : String) (storedHash : Option String)
    (toleranceBits : Option Nat) : Except String Bool :=
  match storedHash with
  | none => .ok false
  | some stored =>
    if stored = "" then .ok false
    else if env.faceMode = "arcface" then
      match env.parseStored stored with
      | .error _ => .ok false
      | .ok storedVector =>
        match env.embedding faceData with
        | .error message => .error message
        | .ok embedding =>
          .ok (JsNumber.ge (cosineSimilarity (some embedding) storedVector)
            (arcDefaultThreshold env))
    else
      match generateFaceTemplateHash env faceData with
      | .error message => .error message
      | .ok current =>
        .ok (withinTolerance (hammingDistance (some current) (some stored))
          (toleranceBits.getD 16))

end FaceService

/-! ## The voter login (`server/routes/auth.js`) -/

/-- The services the login decision calls, and whether `voter.save()` succeeds:
`verifyFingerprint` and `verifyFace` return the result of the comparison,
`generateFaceTemplateHash` the new template; an error is a thrown exception. -/
structure LoginServices where
  verifyFingerprint : String → String → Except String Bool
  generateFaceTemplateHash : String → Except String String
  verifyFace : String → String → Except String Bool
  save : Option String → Bool

/-- What the biometric decision of the login leaves: the face template stored
for the voter, and the variables `fingerprintMatched` and `faceMatched`. -/
structure LoginDecision where
  faceTemplateHash : Option String
  fingerprintMatched : Bool
  faceMatched : Bool
deriving DecidableEq, Repr

/-- The biometric decision of `POST /login/voter`, from "Verify biometric" to the
assignment of `biometricValid`.  The arguments are `voter.fingerprintHash`,
`voter.faceTemplateHash` and the two fields of the request body; an error is an
exception that reaches the `catch` block of the route. -/
def loginBiometric (services : LoginServices) (fingerprintHash faceTemplateHash : Option String)
    (fingerprintData faceData : Option String) : Except String LoginDecision :=
  let fingerprintAttempted := truthy fingerprintData
  let faceAttempted := truthy faceData
  let fingerprintResult : Except String Bool :=
    if fingerprintAttempted && truthy fingerprintHash then
      services.verifyFingerprint (fingerprintData.getD "") (fingerprintHash.getD "")
    else .ok false
  match fingerprintResult with
  | .error message => .error message
  | .ok fingerprintMatched =>
    if !fingerprintMatched && faceAttempted then
      if !truthy faceTemplateHash then
        match services.generateFaceTemplateHash (faceData.getD "") with
        | .error _ =>
          .ok { faceTemplateHash := faceTemplateHash, fingerprintMatched := fingerprintMatched,
                faceMatched := false }
        | .ok template =>
          if services.save (some template) then
            .ok { faceTemplateHash := some template, fingerprintMatched := fingerprintMatched,
                  faceMatched := true }
          else
            .ok { faceTemplateHash := faceTemplateHash, fingerprintMatched := fingerprintMatched,
                  faceMatched := false }
      else
        match services.verifyFace (faceData.getD "") (faceTemplateHash.getD "") with
        | .error message => .error message
        | .ok faceMatched =>
          .ok { faceTemplateHash := faceTemplateHash, fingerprintMatched := fingerprintMatched,
                faceMatched := faceMatched }
    else
      .ok { faceTemplateHash := faceTemplateHash, fingerprintMatched := fingerprintMatched,
            faceMatched := false }

/-- The assignment `biometricValid = fingerprintMatched || faceMatched`. -/
def LoginDecision.biometricValid (d : LoginDecision) : Bool :=
  d.fingerprintMatched || d.faceMatched

/-! ## The cast handler (`server/routes/votes.js`, `server/middleware/auth.js`) -/

/-- A document of the `Vote` collection, with the fields the ledger and the
tallies depend on. -/
structure Vote where
  voteId : String
  voterId : String
  electionId : String
  candidateId : String
  boothId : String
  position : String
  encryptedVote : String
  voteHash : String
  merkleProof : List MerkleTree.ProofElement
  isVerified : Bool
deriving DecidableEq, Repr

/-- A document of the `Candidate` collection.  `_id` is the identifier the
database gives the document; it is read by the candidate lookup of the cast
handler only, and the scenarios that do not reach that lookup leave it empty. -/
structure Candidate where
  candidateId : String
  electionId : String
  isActive : Bool
  voteCount : Int
  _id : String := ""
deriving DecidableEq, Repr

/-- A document of the `Election` collection; the three optional fields bind the
election to a ward, a village or a constituency. -/
structure Election where
  _id : String
  electionId : String
  totalVotes : Int
  merkleRoot : Option String
  wardId : Option String := none
  villageId : Option String := none
  constituencyId : Option String := none
deriving DecidableEq, Repr

/-- A document of the `Voter` collection. -/
structure Voter where
  _id : String
  voterId : String
  hasVoted : Bool
  wardId : Option String := none
deriving DecidableEq, Repr

/-- A document of the `Ward` collection. -/
structure Ward where
  _id : String
  villageId : Option String
  constituencyId : Option String
deriving DecidableEq, Repr

/-- The collections the cast handler reads and writes.  `votes` is listed in the
order of the field `timestamp`, which is set when a document is created: for
casts run one after another it is the order of insertion, and it is the order
`Vote.find(...).sort({ timestamp: 1 })` returns. -/
structure Db where
  votes : List Vote
  candidates : List Candidate
  elections : List Election
  voters : List Voter
deriving DecidableEq, Repr

/-- Update of the first document that satisfies a filter (`findOneAndUpdate`,
`findByIdAndUpdate`, and `save` on a document that was found by that filter). -/
def updateOne {α : Type} (p : α → Bool) (f : α → α) : List α → List α
  | [] => []
  | d :: ds => if p d then f d :: ds else d :: updateOne p f ds

/-- The filter `{ voterId, electionId }`, the key of the unique index of the
`Vote` collection. -/
def ballotFilter (voterId electionId : String) (v : Vote) : Bool :=
  v.voterId = voterId && v.electionId = electionId

/-- The filter `{ candidateId, electionId }` of the tally updates. -/
def candidateFilter (candidateId electionId : String) (c : Candidate) : Bool :=
  c.candidateId = candidateId && c.electionId = electionId

/-- What the cast handler reads from the request once the checks that precede the
encryption have passed: `req.user`, `req.params`, `req.body`, the identifier drawn
by `crypto.randomUUID()` for a new document, and the two results of `encryptVote`. -/
structure CastRequest where
  userId : String
  voterId : String
  electionId : String
  candidateId : String
  position : String
  boothId : String
  newVoteId : String
  encryptedVote : String
  voteHash : String
deriving DecidableEq, Repr

/-- The response of the cast handler. -/
inductive CastResponse where
  | created (voteId : String) (merkleProof : List MerkleTree.ProofElement) (isRevote : Bool)
  | failed (status : Nat) (message : String)
deriving DecidableEq, Repr

/-- The conversion `String(value)` of an identifier that may be missing. -/
def jsString : Option String → String
  | none => "undefined"
  | some s => s

/-- The method `toLowerCase`, on the letters `A` to `Z`. -/
def toLowerCase (s : String) : String := ⟨s.data.map Char.toLower⟩

/-- The test `String(process.env.ALLOW_REVOTE).toLowerCase() === 'true'` of
`checkVotingStatus`; the argument is `none` when the variable is not set. -/
def revoteAllowed (ALLOW_REVOTE : Option String) : Bool :=
  decide (toLowerCase (jsString ALLOW_REVOTE) = "true")

/-- The scope check of the cast handler ("Verify voter eligibility by election
scope"): `none` when the handler goes on, the response with status 403 otherwise.
`wards` is the `Ward` collection, read by `findById`. -/
def scopeCheck (wards : List Ward) (user : Voter) (election : Election) : Option CastResponse :=
  if election.wardId.isSome then
    if jsString user.wardId ≠ jsString election.wardId then
      some (.failed 403 "You are not eligible to vote in this ward election")
    else none
  else if election.villageId.isSome then
    let voterWard : Option Ward :=
      match user.wardId with
      | some id => wards.find? (fun w => w._id = id)
      | none => none
    match voterWard with
    | none => some (.failed 403 "You are not eligible to vote in this village election")
    | some ward =>
      if jsString ward.villageId ≠ jsString election.villageId then
        some (.failed 403 "You are not eligible to vote in this village election")
      else none
  else if election.constituencyId.isSome then
    let voterWard : Option Ward :=
      match user.wardId with
      | some id => wards.find? (fun w => w._id = id)
      | none => none
    match voterWard with
    | none => some (.failed 403 "You are not eligible to vote in this constituency election")
    | some ward =>
      if jsString ward.constituencyId ≠ jsString election.constituencyId then
        some (.failed 403 "You are not eligible to vote in this constituency election")
      else none
  else none

/-- The middleware `checkVotingStatus`: the ballot found for the voter in the
election is handed on as `req.existingVote` when re-voting is allowed, and the
request is answered with status 400 otherwise.  `allowRevote` is the value of the
test `String(process.env.ALLOW_REVOTE).toLowerCase() === 'true'`. -/
def checkVotingStatus (allowRevote : Bool) (db : Db) (voterId electionId : String) :
    Except CastResponse (Option Vote) :=
  match db.votes.find? (ballotFilter voterId electionId) with
  | some existingVote =>
    if allowRevote then .ok (some existingVote)
    else .error (.failed 400 "You have already voted in this election")
  | none => .ok none

/-- The cast handler from "Create or update vote record" to "Update election with
new Merkle root": the state it leaves and its response.  A `save` of a new
document that breaks the unique index `{ voterId, electionId }`, and a `getProof`
that throws, end in the `catch` block with status 500, after the writes that
precede them. -/
def castPersist (hash : String → String) (db : Db) (req : CastRequest)
    (existingVote : Option Vote) : Db × CastResponse :=
  let isRevote := existingVote.isSome
  let saved : Option (Db × String) :=
    match existingVote with
    | some existing =>
      let prevCandidateId := existing.candidateId
      let candidates := updateOne (candidateFilter prevCandidateId req.electionId)
        (fun c => { c with voteCount := c.voteCount - 1 }) db.candidates
      let votes := updateOne (ballotFilter req.voterId req.electionId)
        (fun v => { v with
          candidateId := req.candidateId, position := req.position, boothId := req.boothId,
          encryptedVote := req.encryptedVote, voteHash := req.voteHash, isVerified := true })
        db.votes
      some ({ db with candidates := candidates, votes := votes }, existing.voteId)
    | none =>
      if db.votes.any (ballotFilter req.voterId req.electionId) then none
      else
        let vote : Vote :=
          { voteId := req.newVoteId, voterId := req.voterId, electionId := req.electionId,
            candidateId := req.candidateId, boothId := req.boothId, position := req.position,
            encryptedVote := req.encryptedVote, voteHash := req.voteHash, merkleProof := [],
            isVerified := true }
        let voters := updateOne (fun (u : Voter) => u._id = req.userId)
          (fun u => { u with hasVoted := true }) db.voters
        let elections := updateOne (fun (e : Election) => e._id = req.electionId)
          (fun e => { e with totalVotes := e.totalVotes + 1 }) db.elections
        some ({ db with votes := db.votes ++ [vote], voters := voters, elections := elections },
          req.newVoteId)
  match saved with
  | none => (db, .failed 500 "Failed to cast vote")
  | some (db1, voteId) =>
    let db2 := { db1 with
      candidates := updateOne (candidateFilter req.candidateId req.electionId)
        (fun c => { c with voteCount := c.voteCount + 1 }) db1.candidates }
    let allVotes := db2.votes.filter (fun v => v.electionId = req.electionId)
    let voteHashes := allVotes.map (fun v => v.voteHash)
    let merkleTree := MerkleTree.new hash voteHashes
    match MerkleTree.getProof hash merkleTree req.voteHash with
    | .error _ => (db2, .failed 500 "Failed to cast vote")
    | .ok merkleProof =>
      let votes := updateOne (ballotFilter req.voterId req.electionId)
        (fun v => { v with merkleProof := merkleProof }) db2.votes
      let elections := updateOne (fun (e : Election) => e._id = req.electionId)
        (fun e => { e with merkleRoot := merkleTree.getRoot }) db2.elections
      ({ db2 with votes := votes, elections := elections },
        .created voteId merkleProof isRevote)

/-- The cast request from `checkVotingStatus` on, for a request that passes the
other checks of the route. -/
def castVote (hash : String → String) (allowRevote : Bool) (db : Db) (req : CastRequest) :
    Db × CastResponse :=
  match checkVotingStatus allowRevote db req.voterId req.electionId with
  | .error response => (db, response)
  | .ok existingVote => castPersist hash db req existingVote

/-- The route from `checkVotingStatus` to the end of the writes, with the
encryption of the ballot.  `handlerChecks` is the outcome of the checks of the
handler that precede the encryption (required fields, biometric, scope, location,
candidate, booth): `none` when they all pass, the response otherwise. -/
def castRoute {J : Type} (lib : EncryptionService.Primitives) (json : EncryptionService.Json J)
    (hash : String → String) (allowRevote : Bool) (db : Db) (req : CastRequest)
    (handlerChecks : Option CastResponse) (voteData : J) (electionKey : EncryptionService.Key)
    (iv : EncryptionService.Bytes) : Db × CastResponse :=
  match checkVotingStatus allowRevote db req.voterId req.electionId with
  | .error response => (db, response)
  | .ok existingVote =>
    match handlerChecks with
    | some response => (db, response)
    | none =>
      match EncryptionService.encryptVote lib json iv voteData electionKey with
      | .error _ => (db, .failed 500 "Failed to cast vote")
      | .ok encrypted =>
        castPersist hash db
          { req with encryptedVote := encrypted.encryptedVote, voteHash := encrypted.voteHash }
          existingVote

/-- The candidate lookup of the cast handler ("Verify candidate exists and is
active"): by the field `candidateId` first, and when that finds nothing by `_id`,
for a request value that the constructor `ObjectId` of mongoose accepts.
`castObjectId` is that constructor: `none` when it throws. -/
def findCandidate (castObjectId : String → Option String) (candidates : List Candidate)
    (candidateId electionId : String) : Option Candidate :=
  match candidates.find?
      (fun c => c.candidateId = candidateId && c.electionId = electionId && c.isActive) with
  | some candidate => some candidate
  | none =>
    match castObjectId candidateId with
    | none => none
    | some asObjectId =>
      candidates.find? (fun c => c._id = asObjectId && c.electionId = electionId && c.isActive)

/-- The candidate check of the cast handler: `none` when the handler goes on, the
response with status 400 otherwise. -/
def candidateCheck (castObjectId : String → Option String) (candidates : List Candidate)
    (candidateId electionId : String) : Option CastResponse :=
  match findCandidate castObjectId candidates candidateId electionId with
  | none => some (.failed 400 "Invalid candidate")
  | some _ => none

/-- The operations of the tally publication, between the last write of the cast
handler and its response: the two `emit` calls to the election and booth rooms,
the aggregation `Vote.aggregate` of the scope tallies, and the `emit` calls to the
ward, village and constituency rooms.  A field is set when the operation throws. -/
structure PublishFaults where
  emitElection : Bool
  emitBooth : Bool
  aggregate : Bool
  emitWard : Bool
  emitVillage : Bool
  emitConstituency : Bool
deriving DecidableEq, Repr

/-- Whether the tally publication throws.  `io` tells whether `req.app.get('io')`
is set: the publication is skipped when it is not.  An `emit` to a scope room is
made when the election has that binding. -/
def publishThrows (io : Bool) (election : Election) (faults : PublishFaults) : Bool :=
  io && (faults.emitElection || faults.emitBooth || faults.aggregate ||
    (election.wardId.isSome && faults.emitWard) ||
    (election.villageId.isSome && faults.emitVillage) ||
    (election.constituencyId.isSome && faults.emitConstituency))

/-- The end of the cast handler, after its last write: the tally publication and the
response.  The publication is inside the `try` block of the handler, before
`res.status(201)`: when it throws, the `catch` block answers with status 500. -/
def publishAndRespond (io : Bool) (election : Election) (faults : PublishFaults)
    (persisted : Db × CastResponse) : Db × CastResponse :=
  match persisted with
  | (db, .created voteId merkleProof isRevote) =>
    if publishThrows io election faults then (db, .failed 500 "Failed to cast vote")
    else (db, .created voteId merkleProof isRevote)
  | (db, .failed status message) => (db, .failed status message)

/-- The cast request from `checkVotingStatus` to the response, with the tally
publication. -/
def castAndPublish (hash : String → String) (allowRevote : Bool) (db : Db) (req : CastRequest)
    (io : Bool) (election : Election) (faults : PublishFaults) : Db × CastResponse :=
  publishAndRespond io election faults (castVote hash allowRevote db req)

/-! ### The cast request step by step

Every `await` on the database is one step: other requests may run between two
steps of a request, and a step may fail (the operation throws), which ends the
request in the `catch` block. -/

/-- The point a cast request has reached, with the local variables it holds. -/
inductive Progress where
  | atCheck
  | atSave (existingVote : Option Vote)
  | atRevoteSave (existingVote : Vote)
  | atVoterUpdate
  | atTotalVotes
  | atCandidateUpdate (voteId : String) (isRevote : Bool)
  | atFind (voteId : String) (isRevote : Bool)
  | atProofSave (voteId : String) (isRevote : Bool)
      (merkleProof : List MerkleTree.ProofElement) (merkleRoot : Option String)
  | atRootSave (voteId : String) (isRevote : Bool)
      (merkleProof : List MerkleTree.ProofElement) (merkleRoot : Option String)
  | finished (response : CastResponse)
deriving DecidableEq, Repr

/-- One step of a cast request: `checkVotingStatus`, then the operations of the
handler on the database in their order.  When `fails` is set the operation
throws. -/
def stepRequest (hash : String → String) (allowRevote : Bool) (req : CastRequest) (db : Db)
    (progress : Progress) (fails : Bool) : Db × Progress :=
  match progress with
  | .finished response => (db, .finished response)
  | .atCheck =>
    if fails then (db, .finished (.failed 500 "Error checking voting status"))
    else
      match checkVotingStatus allowRevote db req.voterId req.electionId with
      | .error response => (db, .finished response)
      | .ok existingVote => (db, .atSave existingVote)
  | .atSave none =>
    if fails || db.votes.any (ballotFilter req.voterId req.electionId) then
      (db, .finished (.failed 500 "Failed to cast vote"))
    else
      let vote : Vote :=
        { voteId := req.newVoteId, voterId := req.voterId, electionId := req.electionId,
          candidateId := req.candidateId, boothId := req.boothId, position := req.position,
          encryptedVote := req.encryptedVote, voteHash := req.voteHash, merkleProof := [],
          isVerified := true }
      ({ db with votes := db.votes ++ [vote] }, .atVoterUpdate)
  | .atSave (some existing) =>
    if fails then (db, .finished (.failed 500 "Failed to cast vote"))
    else
      let candidates := updateOne (candidateFilter existing.candidateId req.electionId)
        (fun c => { c with voteCount := c.voteCount - 1 }) db.candidates
      ({ db with candidates := candidates }, .atRevoteSave existing)
  | .atRevoteSave existing =>
    if fails then (db, .finished (.failed 500 "Failed to cast vote"))
    else
      let votes := updateOne (ballotFilter req.voterId req.electionId)
        (fun v => { v with
          candidateId := req.candidateId, position := req.position, boothId := req.boothId,
          encryptedVote := req.encryptedVote, voteHash := req.voteHash, isVerified := true })
        db.votes
      ({ db with votes := votes }, .atCandidateUpdate existing.voteId true)
  | .atVoterUpdate =>
    if fails then (db, .finished (.failed 500 "Failed to cast vote"))
    else
      let voters := updateOne (fun (u : Voter) => u._id = req.userId)
        (fun u => { u with hasVoted := true }) db.voters
      ({ db with voters := voters }, .atTotalVotes)
  | .atTotalVotes =>
    if fails then (db, .finished (.failed 500 "Failed to cast vote"))
    else
      let elections := updateOne (fun (e : Election) => e._id = req.electionId)
        (fun e => { e with totalVotes := e.totalVotes + 1 }) db.elections
      ({ db with elections := elections }, .atCandidateUpdate req.newVoteId false)
  | .atCandidateUpdate voteId isRevote =>
    if fails then (db, .finished (.failed 500 "Failed to cast vote"))
    else
      let candidates := updateOne (candidateFilter req.candidateId req.electionId)
        (fun c => { c with voteCount := c.voteCount + 1 }) db.candidates
      ({ db with candidates := candidates }, .atFind voteId isRevote)
  | .atFind voteId isRevote =>
    if fails then (db, .finished (.failed 500 "Failed to cast vote"))
    else
      let allVotes := db.votes.filter (fun v => v.electionId = req.electionId)
      let voteHashes := allVotes.map (fun v => v.voteHash)
      let merkleTree := MerkleTree.new hash voteHashes
      match MerkleTree.getProof hash merkleTree req.voteHash with
      | .error _ => (db, .finished (.failed 500 "Failed to cast vote"))
      | .ok merkleProof => (db, .atProofSave voteId isRevote merkleProof merkleTree.getRoot)
  | .atProofSave voteId isRevote merkleProof merkleRoot =>
    if fails then (db, .finished (.failed 500 "Failed to cast vote"))
    else
      let votes := updateOne (ballotFilter req.voterId req.electionId)
        (fun v => { v with merkleProof := merkleProof }) db.votes
      ({ db with votes := votes }, .atRootSave voteId isRevote merkleProof merkleRoot)
  | .atRootSave voteId isRevote merkleProof merkleRoot =>
    if fails then (db, .finished (.failed 500 "Failed to cast vote"))
    else
      let elections := updateOne (fun (e : Election) => e._id = req.electionId)
        (fun e => { e with merkleRoot := merkleRoot }) db.elections
      ({ db with elections := elections }, .finished (.created voteId merkleProof isRevote))

/-- A cast request run on its own: one step for each entry of `faults`, which
tells whether the step fails. -/
def runRequest (hash : String → String) (allowRevote : Bool) (req : CastRequest)
    (faults : List Bool) (start : Db × Progress) : Db × Progress :=
  faults.foldl (fun state fails => stepRequest hash allowRevote req state.1 state.2 fails) start

/-- A cast request in flight. -/
structure Process where
  req : CastRequest
  progress : Progress
deriving DecidableEq, Repr

/-- The database and the cast requests in flight. -/
structure System where
  db : Db
  processes : List Process
deriving DecidableEq, Repr

/-- One step of the request at position `i`, without a failure of the database;
nothing changes when there is no such request. -/
def System.step (hash : String → String) (allowRevote : Bool) (sys : System) (i : Nat) :
    System :=
  match sys.processes[i]? with
  | none => sys
  | some process =>
    let next := stepRequest hash allowRevote process.req sys.db process.progress false
    { db := next.1, processes := sys.processes.set i { process with progress := next.2 } }

/-- The run of a schedule: the positions of the requests that take the next step,
in their order. -/
def System.run (hash : String → String) (allowRevote : Bool) (schedule : List Nat)
    (sys : System) : System :=
  schedule.foldl (fun s i => s.step hash allowRevote i) sys

/-- The leaves the election's tree is built from: the `voteHash` of the ballots
of the election, in the order of the collection. -/
def ledgerLeaves (db : Db) (electionId : String) : List String :=
  (db.votes.filter (fun v => v.electionId = electionId)).map (fun v => v.voteHash)

/-- The `merkleRoot` stored for an election. -/
def currentRoot (db : Db) (electionId : String) : Option String :=
  (db.elections.find? (fun e => e._id = electionId)).bind (fun e => e.merkleRoot)

/-! ### Requests in flight at the same time -/

/-- A request that has written nothing yet: it is before the check of
`checkVotingStatus`, or it passed the check without a ballot and is before the
`save` of its new ballot. -/
def Progress.isWaiting : Progress → Bool
  | .atCheck => true
  | .atSave none => true
  | _ => false

/-- A request that was answered with an error status. -/
def Progress.isRejected : Progress → Bool
  | .finished (.failed _ _) => true
  | _ => false

/-- The states a race of cast requests for one voter and one election goes
through, from the database `init`, when re-voting is off and no operation fails:
either no request has written and the database is `init`, or one request, at
position `j`, has saved its ballot and the database is the one its own steps made
from `init`, while every other request has written nothing or was rejected. -/
def RaceInvariant (hash : String → String) (init : Db) (sys : System) : Prop :=
  (sys.db = init ∧
    ∀ (i : Nat) (p : Process), sys.processes[i]? = some p → p.progress.isWaiting = true) ∨
  ∃ (j : Nat) (w : Process) (k : Nat), sys.processes[j]? = some w ∧
    runRequest hash false w.req (List.replicate (k + 2) false) (init, .atCheck) =
      (sys.db, w.progress) ∧
    ∀ (i : Nat) (p : Process), i ≠ j → sys.processes[i]? = some p →
      p.progress.isWaiting = true ∨ p.progress.isRejected = true

/-! ### Tallies of an election -/

/-- The `totalVotes` stored for an election, as `findById` reads it. -/
def electionTotal (db : Db) (electionId : String) : Option Int :=
  (db.elections.find? (fun e => e._id = electionId)).map (fun e => e.totalVotes)

/-- The sum of `voteCount` over the candidates of an election. -/
def candidateSum (db : Db) (electionId : String) : Int :=
  ((db.candidates.filter (fun c => c.electionId = electionId)).map (fun c => c.voteCount)).sum

/-! ## The rate limiter (`server/middleware/auth.js`) -/

namespace RateLimit

/-- A value of the map `attempts`: the object `{ count, timestamp }`. -/
structure Attempt where
  count : Nat
  timestamp : Int
deriving DecidableEq, Repr

/-- The map `attempts` of a limiter, in insertion order.  A key is a string or
`undefined`. -/
abbrev Attempts := List (Option String × Attempt)

/-- The key of a request: `req.ip + req.user?.voterId || req.user?.adminId`, which
JavaScript reads as `(req.ip + req.user?.voterId) || req.user?.adminId`. -/
def limiterKey (ip : String) (voterId adminId : Option String) : Option String :=
  let combined := ip ++ jsString voterId
  if combined ≠ "" then some combined else adminId

/-- The loop "Clean old attempts". -/
def clean (attempts : Attempts) (windowStart : Int) : Attempts :=
  attempts.filter (fun entry => ¬ (entry.2.timestamp < windowStart))

/-- The method `Map.get`. -/
def get (attempts : Attempts) (key : Option String) : Option Attempt :=
  (attempts.find? (fun entry => entry.1 = key)).map (fun entry => entry.2)

/-- The method `Map.set`: the value of a key that is present is replaced in place,
a new key is added at the end. -/
def set : Attempts → Option String → Attempt → Attempts
  | [], key, value => [(key, value)]
  | entry :: rest, key, value =>
    if entry.1 = key then (key, value) :: rest else entry :: set rest key value

/-- What the middleware does with a request. -/
inductive Outcome where
  | next
  | tooMany (retryAfter : Int)
deriving DecidableEq, Repr

/-- The middleware returned by `sensitiveOperationLimit(windowMs, max)`, on a
request with key `key` at time `now` (the value of `Date.now()`): the map it leaves
and what it does with the request; `tooMany` is the response with status 429. -/
def sensitiveOperationLimit (windowMs : Int) (max : Nat) (attempts : Attempts)
    (key : Option String) (now : Int) : Attempts × Outcome :=
  let windowStart := now - windowMs
  let cleaned := clean attempts windowStart
  let userAttempts : Attempt := (get cleaned key).getD { count := 0, timestamp := now }
  if userAttempts.count ≥ max then
    (cleaned, .tooMany (Int.ceil (((userAttempts.timestamp + windowMs - now : Int) : ℚ) / 1000)))
  else
    (set cleaned key { count := userAttempts.count + 1, timestamp := now }, .next)

/-- A request as the limiter sees it. -/
structure Request where
  key : Option String
  now : Int
deriving DecidableEq, Repr

/-- The limiter on a sequence of requests, from the map `attempts`: the map it
leaves and the outcome of each request. -/
def run (windowMs : Int) (max : Nat) :
    Attempts → List Request → Attempts × List Outcome
  | attempts, [] => (attempts, [])
  | attempts, request :: rest =>
    let first := sensitiveOperationLimit windowMs max attempts request.key request.now
    let later := run windowMs max first.1 rest
    (later.1, first.2 :: later.2)

/-- The number of requests with key `key` that were passed on to `next()`. -/
def passed (key : Option String) : List Request → List Outcome → Nat
  | request :: requests, outcome :: outcomes =>
    (if request.key = key ∧ outcome = .next then 1 else 0) + passed key requests outcomes
  | _, _ => 0

/-- The invariant of the limiter over a window that starts at `start`, for the
requests of one key: when `count` of them have been passed on, the map holds an
entry for the key, not older than `start`, that counts at least `count` and at most
`max` requests. -/
def Tracks (max : Nat) (key : Option String) (start : Int) (attempts : Attempts)
    (count : Nat) : Prop :=
  count = 0 ∨ ∃ entry, get attempts key = some entry ∧ start ≤ entry.timestamp ∧
    count ≤ entry.count ∧ entry.count ≤ max

end RateLimit

/-! ## Perceptual codes as bit strings -/

namespace FaceService

/-- A code made of hexadecimal digits. -/
def IsHexCode (code : String) : Prop :=
  ∀ c ∈ code.data, (parseHexDigit c).isSome = true

/-- The four bits of a value below 16, most significant bit first. -/
def nibbleBits (n : Nat) : List Bool :=
  [decide (n / 8 % 2 = 1), decide (n / 4 % 2 = 1), decide (n / 2 % 2 = 1), decide (n % 2 = 1)]

/-- The bits of a hexadecimal code: four for each digit. -/
def codeBits (code : String) : List Bool :=
  code.data.flatMap (fun c => nibbleBits ((parseHexDigit c).getD 0))

/-- The Hamming distance of two bit strings of one length: the number of
positions in which they differ. -/
def bitDistance : List Bool → List Bool → Nat
  | x :: xs, y :: ys => (if x = y then 0 else 1) + bitDistance xs ys
  | _, _ => 0

end FaceService

/-! ## Assumptions on the primitives -/

/-- The idealisation of SHA-256 used for the ledger: no two inputs have the same
digest, and a text that starts with a digest starts with that digest only (which
holds for digests of one fixed length, such as 64 hexadecimal characters). -/
structure IdealHash (hash : String → String) : Prop where
  injective : Function.Injective hash
  delimited : ∀ a b p q : String, hash a ++ p = hash b ++ q → hash a = hash b

namespace MerkleTree

/-- The nodes of a level are digests. -/
def Digests (hash : String → String) (xs : List String) : Prop :=
  ∀ x ∈ xs, ∃ s, x = hash s

end MerkleTree

namespace EncryptionService

/-- What the embedding assumes of the primitives: digests have 32 bytes, the `utf8`
codec loses nothing on text, AES-256-GCM accepts a 32-byte key with a 12-byte
nonce, and decryption under the key, nonce and additional data of the encryption
returns the plaintext. -/
structure Primitives.Lawful (lib : Primitives) : Prop where
  sha256_length : ∀ b, (lib.sha256 b).length = 32
  utf8_lossless : ∀ s, lib.utf8Decode (lib.utf8Encode s) = s
  gcm_encrypts : ∀ key iv aad pt, key.length = 32 → iv.length = 12 →
    ∃ ct tag, lib.gcmEncrypt key iv aad pt = .ok (ct, tag)
  gcm_decrypts : ∀ key iv aad pt ct tag, lib.gcmEncrypt key iv aad pt = .ok (ct, tag) →
    lib.gcmDecrypt key iv aad ct tag = .ok pt

/-- AES-256-GCM as an ideal authenticated cipher: what was encrypted under one key
is rejected under every other key. -/
def Primitives.IdealCipher (lib : Primitives) : Prop :=
  ∀ key key2 iv aad pt ct tag, lib.gcmEncrypt key iv aad pt = .ok (ct, tag) → key2 ≠ key →
    ∃ message, lib.gcmDecrypt key2 iv aad ct tag = .error message

/-- What the embedding assumes of `JSON`: the text written for the object
`{ ciphertext, iv, tag }` is parsed to a value with these three fields, and the
text written for a value is parsed to a value for which the same text is written. -/
structure Json.Lawful {J : Type} (json : Json J) : Prop where
  parse_encrypted : ∀ c i t, ∃ j,
    json.parse (json.stringify (json.ofEncrypted c i t)) = some j ∧
      json.toEncrypted j = some (c, i, t)
  parse_stringify : ∀ v, ∃ v2,
    json.parse (json.stringify v) = some v2 ∧ json.stringify v2 = json.stringify v

end EncryptionService

/-! ## A model of the primitives, and the states of the scenarios -/

/-- A self-delimiting code of a list of characters: every character is preceded
by `1` and the code ends with `0`. -/
def modelCode : List Char → List Char
  | [] => ['0']
  | c :: cs => '1' :: c :: modelCode cs

/-- A hash function that satisfies `IdealHash`, used to show the assumptions
consistent. -/
def modelHash (s : String) : String := ⟨modelCode s.data⟩

namespace EncryptionService

/-- The three bytes that stand for a character in the model codec. -/
def modelCharBytes (c : Char) : Bytes :=
  [⟨c.toNat / 65536 % 256, by omega⟩, ⟨c.toNat / 256 % 256, by omega⟩, ⟨c.toNat % 256, by omega⟩]

/-- The decoder of the model codec. -/
def modelBytesChars : Bytes → List Char
  | a :: b :: c :: rest =>
    Char.ofNat (a.val * 65536 + b.val * 256 + c.val) :: modelBytesChars rest
  | _ => []

/-- An instance of the primitives that satisfies the assumptions: a constant
digest, three bytes for a character, and a cipher that leaves the plaintext as it
is and uses the key and the additional data as the tag. -/
def modelPrimitives : Primitives :=
  { sha256 := fun _ => List.replicate 32 0
    utf8Encode := fun s => s.data.flatMap modelCharBytes
    utf8Decode := fun b => ⟨modelBytesChars b⟩
    gcmEncrypt := fun key iv aad plaintext =>
      if key.length = 32 ∧ iv.length = 12 then .ok (plaintext, key ++ aad)
      else .error "Invalid key length"
    gcmDecrypt := fun key _ aad ciphertext tag =>
      if tag = key ++ aad then .ok ciphertext
      else .error "Unsupported state or unable to authenticate data" }

/-- The decoder of the self-delimiting code `modelCode`: the decoded characters
and the rest of the input. -/
def modelDecode : List Char → Option (List Char × List Char)
  | '0' :: rest => some ([], rest)
  | '1' :: c :: rest => (modelDecode rest).map (fun r => (c :: r.1, r.2))
  | _ => none

/-- An instance of `JSON` over triples of strings that satisfies the assumptions. -/
def modelJson : Json (String × String × String) :=
  { stringify := fun v => ⟨modelCode v.1.data ++ modelCode v.2.1.data ++ modelCode v.2.2.data⟩
    parse := fun text =>
      (modelDecode text.data).bind (fun r1 =>
        (modelDecode r1.2).bind (fun r2 =>
          (modelDecode r2.2).bind (fun r3 =>
            if r3.2 = [] then some (⟨r1.1⟩, ⟨r2.1⟩, ⟨r3.1⟩) else none)))
    ofEncrypted := fun c i t => (c, i, t)
    toEncrypted := fun j => some j }

end EncryptionService

/-- A face service in perceptual mode whose image pipeline returns, for every
sample, 32 light pixels followed by 32 dark ones. -/
def modelFaceEnv : FaceService.Env :=
  { faceMode := "ahash"
    arcSimThreshold := none
    pixels := fun _ => .ok (List.replicate 32 200 ++ List.replicate 32 10)
    embedding := fun _ => .ok [.finite 1, .finite 0]
    parseStored := fun _ => .ok (some [.finite 1, .finite 0])
    stringify := fun _ => "[1,0]" }

/-- A face service in embedding mode, with the default threshold, whose embedding
service returns the vector `(2, 0)` for every sample and whose stored templates
all hold the vector `(2, 0)`. -/
def modelArcEnv : FaceService.Env :=
  { faceMode := "arcface"
    arcSimThreshold := none
    pixels := fun _ => .error "unsupported image format"
    embedding := fun _ => .ok [.finite 2, .finite 0]
    parseStored := fun _ => .ok (some [.finite 2, .finite 0])
    stringify := fun _ => "[2,0]" }

/-- Login services for which every fingerprint comparison and every face
comparison succeeds, the template of every sample is `template-1`, and `save`
succeeds. -/
def modelLoginServices : LoginServices :=
  { verifyFingerprint := fun _ _ => .ok true
    generateFaceTemplateHash := fun _ => .ok "template-1"
    verifyFace := fun _ _ => .ok true
    save := fun _ => true }

/-- An election bound to the ward `64b7f0c2a1d2e3f4a5b6c7d8`. -/
def wardElection : Election :=
  { _id := "E", electionId := "ELEC1", totalVotes := 0, merkleRoot := none,
    wardId := some "64b7f0c2a1d2e3f4a5b6c7d8" }

/-- A voter assigned to the ward `64b7f0c2a1d2e3f4a5b6c7d8`. -/
def wardVoter : Voter :=
  { _id := "u1", voterId := "V1", hasVoted := false, wardId := some "64b7f0c2a1d2e3f4a5b6c7d8" }

/-- An election `E` with two candidates, two voters and no ballot. -/
def emptyElection : Db :=
  { votes := [],
    candidates := [{ candidateId := "C1", electionId := "E", isActive := true, voteCount := 0 },
                   { candidateId := "C2", electionId := "E", isActive := true, voteCount := 0 }],
    elections := [{ _id := "E", electionId := "ELEC1", totalVotes := 0, merkleRoot := none }],
    voters := [{ _id := "u1", voterId := "V1", hasVoted := false },
               { _id := "u2", voterId := "V2", hasVoted := false }] }

/-- The first cast of the scenario of C2: voter `V1`, ballot hash `hash "v1"`. -/
def firstCast (hash : String → String) : CastRequest :=
  { userId := "u1", voterId := "V1", electionId := "E", candidateId := "C1",
    position := "President", boothId := "WEB-CLIENT", newVoteId := "vote-1",
    encryptedVote := "enc-1", voteHash := hash "v1" }

/-- The second cast of the scenario of C2: voter `V2`, ballot hash `hash "v2"`. -/
def secondCast (hash : String → String) : CastRequest :=
  { userId := "u2", voterId := "V2", electionId := "E", candidateId := "C1",
    position := "President", boothId := "WEB-CLIENT", newVoteId := "vote-2",
    encryptedVote := "enc-2", voteHash := hash "v2" }

/-- The second cast of the voter `V1`, for the other candidate, with ballot hash
`hash "v3"`. -/
def revoteCast (hash : String → String) : CastRequest :=
  { userId := "u1", voterId := "V1", electionId := "E", candidateId := "C2",
    position := "President", boothId := "WEB-CLIENT", newVoteId := "vote-3",
    encryptedVote := "enc-3", voteHash := hash "v3" }

/-- The state after the first cast of the scenario. -/
def afterFirstCast (hash : String → String) : Db :=
  (castVote hash false emptyElection (firstCast hash)).1

/-- The state after the two casts of the scenario. -/
def afterSecondCast (hash : String → String) : Db :=
  (castVote hash false (afterFirstCast hash) (secondCast hash)).1

/-- Two cast requests of the voter `V1` in the election of the scenario, in flight
at the same time: one for the candidate `C1` and one for the candidate `C2`. -/
def raceRequests (hash : String → String) : List Process :=
  [⟨firstCast hash, .atCheck⟩, ⟨revoteCast hash, .atCheck⟩]

/-- A schedule of the two requests: both pass the check, the second one saves its
ballot, the first one tries to, and the second one runs to its end. -/
def raceSchedule : List Nat := [0, 1, 1, 0, 1, 1, 1, 1, 1, 1]

/-- A model of the constructor `ObjectId` of mongoose on request values: it accepts
the strings of 24 hexadecimal digits and throws on the other strings of the
scenarios. -/
def modelObjectId (s : String) : Option String :=
  if s.length = 24 ∧ s.data.all (fun c => (FaceService.parseHexDigit c).isSome) then
    some (toLowerCase s)
  else none

/-- The election of the scenario, with the database identifiers of its two
candidates. -/
def idElection : Db :=
  { emptyElection with
    candidates :=
      [{ candidateId := "C1", electionId := "E", isActive := true, voteCount := 0,
         _id := "64b7f0c2a1d2e3f4a5b6c7d9" },
       { candidateId := "C2", electionId := "E", isActive := true, voteCount := 0,
         _id := "64b7f0c2a1d2e3f4a5b6c7da" }] }

/-- The first cast of the scenario, naming the candidate `C1` by its database
identifier. -/
def idCast (hash : String → String) : CastRequest :=
  { firstCast hash with candidateId := "64b7f0c2a1d2e3f4a5b6c7d9" }

/-- The election of the scenario, as the middleware `checkElectionActive` hands it
to the cast handler. -/
def scenarioElection : Election :=
  { _id := "E", electionId := "ELEC1", totalVotes := 0, merkleRoot := none }

/-- A tally publication in which the aggregation of the scope tallies throws. -/
def aggregateFails : PublishFaults :=
  { emitElection := false, emitBooth := false, aggregate := true, emitWard := false,
    emitVillage := false, emitConstituency := false }

/-- A tally publication in which nothing throws. -/
def noPublishFault : PublishFaults :=
  { emitElection := false, emitBooth := false, aggregate := false, emitWard := false,
    emitVillage := false, emitConstituency := false }

/-- Five requests to one limiter: four of the voter `V1` from one address, at the
times 0, 10, 20 and 1000, and one of the voter `V2` at the time 5. -/
def limiterRequests : List RateLimit.Request :=
  [{ key := RateLimit.limiterKey "10.0.0.1" (some "V1") none, now := 0 },
   { key := RateLimit.limiterKey "10.0.0.1" (some "V2") none, now := 5 },
   { key := RateLimit.limiterKey "10.0.0.1" (some "V1") none, now := 10 },
   { key := RateLimit.limiterKey "10.0.0.1" (some "V1") none, now := 20 },
   { key := RateLimit.limiterKey "10.0.0.1" (some "V1") none, now := 1000 }]

/-! # Part II: properties -/

/-! ## The model of the hash function -/

theorem modelCode_cancel : ∀ (x y p q : List Char),
    modelCode x ++ p = modelCode y ++ q → x = y
  | [], [], _, _, _ => rfl
  | [], _ :: _, _, _, h => by simp [modelCode] at h
  | _ :: _, [], _, _, h => by simp [modelCode] at h
  | c :: cs, d :: ds, p, q, h => by
    simp only [modelCode, List.cons_append, List.cons.injEq, true_and] at h
    rw [h.1, modelCode_cancel cs ds p q h.2]

theorem modelHash_ideal : IdealHash modelHash := by
  constructor
  · intro a b h
    have h1 : modelCode a.data = modelCode b.data := congrArg String.data h
    have h2 := modelCode_cancel a.data b.data [] [] (by simpa using h1)
    exact String.ext h2
  · intro a b p q h
    have h1 : modelCode a.data ++ p.data = modelCode b.data ++ q.data := by
      have := congrArg String.data h
      simpa [modelHash, String.data_append] using this
    have h2 := modelCode_cancel a.data b.data _ _ h1
    rw [String.ext h2]

theorem String.append_right_inj_iff (a b c : String) : a ++ b = a ++ c ↔ b = c := by
  constructor
  · intro h
    have h1 := congrArg String.data h
    simp only [String.data_append, List.append_cancel_left_eq] at h1
    exact String.ext h1
  · intro h
    rw [h]

namespace MerkleTree

/-! ## The ledger: construction and root -/

theorem buildLevels_eq (hash : String → String) (xs : List String) :
    buildLevels hash xs =
      if 1 < xs.length then xs :: buildLevels hash (nextLevel hash xs) else [xs] := by
  rw [buildLevels]

theorem buildLevels_ne_nil (hash : String → String) (xs : List String) :
    buildLevels hash xs ≠ [] := by
  rw [buildLevels_eq]
  split <;> simp

theorem getRoot_eq_getLast (t : MerkleTree) :
    t.getRoot = t.tree.getLast?.bind List.head? := by
  unfold getRoot
  rcases List.eq_nil_or_concat t.tree with h | ⟨l, a, h⟩
  · simp [h]
  · simp [h, List.getD_eq_getElem?_getD, List.getElem?_append_right]

/-- The root of the levels built over a non-empty list of nodes. -/
theorem getLast_buildLevels (hash : String → String) (xs : List String) :
    (buildLevels hash xs).getLast? =
      if 1 < xs.length then (buildLevels hash (nextLevel hash xs)).getLast? else some xs := by
  rw [buildLevels_eq]
  split
  · rcases h : buildLevels hash (nextLevel hash xs) with _ | ⟨b, l⟩
    · exact absurd h (buildLevels_ne_nil hash _)
    · simp
  · simp

theorem digests_map (hash : String → String) (L : List String) :
    Digests hash (L.map hash) := by
  intro x hx
  obtain ⟨s, -, rfl⟩ := List.mem_map.1 hx
  exact ⟨s, rfl⟩

theorem digests_nextLevel (hash : String → String) :
    ∀ (n : Nat) (xs : List String), xs.length ≤ n → Digests hash (nextLevel hash xs)
  | _, [], _ => by simp [nextLevel, Digests]
  | _, [a], _ => by simp [nextLevel, Digests]
  | 0, _ :: _ :: _, h => by simp at h
  | n + 1, a :: b :: rest, h => by
    have ih := digests_nextLevel hash n rest (by simp at h; omega)
    intro x hx
    simp only [nextLevel, List.mem_cons] at hx
    rcases hx with rfl | hx
    · exact ⟨_, rfl⟩
    · exact ih x hx

theorem nextLevel_injective {hash : String → String} (hh : IdealHash hash) :
    ∀ (n : Nat) (xs ys : List String), xs.length ≤ n → xs.length = ys.length →
      Digests hash xs → Digests hash ys → nextLevel hash xs = nextLevel hash ys → xs = ys
  | _, [], [], _, _, _, _, _ => rfl
  | _, [], _ :: _, _, h, _, _, _ => by simp at h
  | _, _ :: _, [], _, h, _, _, _ => by simp at h
  | _, [a], [b], _, _, dx, dy, h => by
    obtain ⟨s, rfl⟩ := dx a (by simp)
    obtain ⟨t, rfl⟩ := dy b (by simp)
    simp only [nextLevel, List.cons.injEq, and_true] at h
    rw [hh.delimited s t _ _ (hh.injective h)]
  | _, [_], _ :: _ :: _, _, h, _, _, _ => by simp at h
  | _, _ :: _ :: _, [_], _, h, _, _, _ => by simp at h
  | 0, _ :: _ :: _, _ :: _ :: _, hn, _, _, _, _ => by simp at hn
  | n + 1, a :: a2 :: xs, b :: b2 :: ys, hn, hl, dx, dy, h => by
    obtain ⟨s, rfl⟩ := dx a (by simp)
    obtain ⟨t, rfl⟩ := dy b (by simp)
    simp only [nextLevel, List.cons.injEq] at h
    have h1 := hh.injective h.1
    have h2 := hh.delimited s t _ _ h1
    rw [h2, String.append_right_inj_iff] at h1
    have ih := nextLevel_injective hh n xs ys (by simp at hn; omega) (by simpa using hl)
      (fun x hx => dx x (by simp [hx])) (fun x hx => dy x (by simp [hx])) h.2
    rw [h2, h1, ih]

/-- Two levels of the same length, made of digests, that lead to the same root
are equal. -/
theorem buildLevels_root_injective {hash : String → String} (hh : IdealHash hash) :
    ∀ (n : Nat) (xs ys : List String), xs.length ≤ n → xs.length = ys.length →
      Digests hash xs → Digests hash ys →
      (buildLevels hash xs).getLast?.bind List.head? =
        (buildLevels hash ys).getLast?.bind List.head? → xs = ys
  | 0, xs, ys, hn, hl, _, _, _ => by
    have hx : xs = [] := List.eq_nil_of_length_eq_zero (by omega)
    have hy : ys = [] := List.eq_nil_of_length_eq_zero (by omega)
    rw [hx, hy]
  | n + 1, xs, ys, hn, hl, dx, dy, h => by
    rw [getLast_buildLevels hash xs, getLast_buildLevels hash ys] at h
    by_cases h1 : 1 < xs.length
    · have h1y : 1 < ys.length := hl ▸ h1
      rw [if_pos h1, if_pos h1y] at h
      have e := buildLevels_root_injective hh n (nextLevel hash xs) (nextLevel hash ys)
        (by rw [nextLevel_length hash _ _ (Nat.le_refl _)]; omega)
        (by rw [nextLevel_length hash _ _ (Nat.le_refl _),
              nextLevel_length hash _ _ (Nat.le_refl _), hl])
        (digests_nextLevel hash _ _ (Nat.le_refl _))
        (digests_nextLevel hash _ _ (Nat.le_refl _)) h
      exact nextLevel_injective hh _ xs ys (Nat.le_refl _) hl dx dy e
    · have h1y : ¬ 1 < ys.length := hl ▸ h1
      rw [if_neg h1, if_neg h1y] at h
      match xs, ys, hl, h1 with
      | [], [], _, _ => rfl
      | [a], [b], _, _ =>
        simp only [Option.some_bind, List.head?_cons, Option.some.injEq] at h
        rw [h]
      | _ :: _ :: _, _, _, h1 => simp at h1

end MerkleTree

namespace MerkleTree

theorem getRoot_new (hash : String → String) (L : List String) (hne : L ≠ []) :
    (new hash L).getRoot = (buildLevels hash (L.map hash)).getLast?.bind List.head? := by
  rw [getRoot_eq_getLast]
  have : (L.map hash).length ≠ 0 := by
    simpa using hne
  simp only [new, buildTree, if_neg this]

/-- C1 (code defect). For the three leaves `a`, `b`, `c` and a collision-free hash,
`getProof` returns a proof for the leaf `c`, and `verifyProof` rejects that proof
against the root of the same tree: `buildTree` pairs the unpaired node of an odd
level with itself, while `getProof` records no step for it. -/
theorem verifyProof_getProof_unpaired_leaf (hash : String → String)
    (hinj : Function.Injective hash) :
    ∃ proof, getProof hash (new hash ["a", "b", "c"]) "c" = .ok proof ∧
      verifyProof hash "c" proof (new hash ["a", "b", "c"]).getRoot = false := by
  have hlen : "c" ≠ hash "c" ++ hash "c" := by
    intro h
    have h1 := congrArg String.length h
    simp only [String.length_append] at h1
    have h2 : "c".length = 1 := by decide
    omega
  refine ⟨[{ hash := hash (hash "a" ++ hash "b"), position := "left" }], ?_, ?_⟩
  · simp [new, getProof, getProofLoop, buildTree, buildLevels, nextLevel, List.indexOf_cons,
      hinj.eq_iff]
  · simp [new, getRoot, verifyProof, buildTree, buildLevels, nextLevel, hinj.eq_iff,
      String.append_right_inj_iff, hlen]

/-- The failure of C1 at the model hash function. -/
theorem verifyProof_getProof_unpaired_leaf_witness :
    Function.Injective modelHash ∧
    ∃ proof, getProof modelHash (new modelHash ["a", "b", "c"]) "c" = .ok proof ∧
      verifyProof modelHash "c" proof (new modelHash ["a", "b", "c"]).getRoot = false :=
  ⟨modelHash_ideal.injective,
    verifyProof_getProof_unpaired_leaf modelHash modelHash_ideal.injective⟩

/-- C3 (counterexample). Omitting the last leaf of `a, b, c, c` leaves the root
unchanged, for every hash function and so for a collision-free one: the unpaired
node `c` of the shorter list is paired with itself. -/
theorem getRoot_eq_after_omission :
    IdealHash modelHash ∧
    List.eraseIdx ["a", "b", "c", "c"] 3 = ["a", "b", "c"] ∧
    ∀ hash : String → String,
      (new hash ["a", "b", "c", "c"]).getRoot = (new hash ["a", "b", "c"]).getRoot := by
  refine ⟨modelHash_ideal, by decide, ?_⟩
  intro hash
  simp [new, getRoot, buildTree, buildLevels, nextLevel]

/-- C3 (amended). For a collision-free hash with self-delimiting digests, two
different lists of leaf values of the same length, in particular a list and a
reordering of it that changes it, have different roots. -/
theorem getRoot_ne_of_same_length (hash : String → String) (hh : IdealHash hash)
    (L L' : List String) (hlen : L.length = L'.length) (hne : L ≠ L') :
    (new hash L).getRoot ≠ (new hash L').getRoot := by
  have hL : L ≠ [] := by
    rintro rfl
    exact hne (List.eq_nil_of_length_eq_zero hlen.symm).symm
  have hL' : L' ≠ [] := by
    rintro rfl
    exact hne (List.eq_nil_of_length_eq_zero hlen)
  rw [getRoot_new hash L hL, getRoot_new hash L' hL']
  intro h
  have e := buildLevels_root_injective hh _ (L.map hash) (L'.map hash) (Nat.le_refl _)
    (by simp [hlen]) (digests_map hash L) (digests_map hash L') h
  exact hne (List.map_injective_iff.2 hh.injective e)

/-- The amended C3 at the model hash function and the reordering `b, a` of `a, b`. -/
theorem getRoot_ne_of_same_length_witness :
    IdealHash modelHash ∧ ["a", "b"].length = ["b", "a"].length ∧ ["a", "b"] ≠ ["b", "a"] ∧
    (new modelHash ["a", "b"]).getRoot ≠ (new modelHash ["b", "a"]).getRoot :=
  ⟨modelHash_ideal, by decide, by decide,
    getRoot_ne_of_same_length modelHash modelHash_ideal ["a", "b"] ["b", "a"]
      (by decide) (by decide)⟩

end MerkleTree

/-! ## The cast handler and the ledger -/

theorem digest_ne_empty {hash : String → String} (hh : IdealHash hash) (x : String) :
    hash x ≠ "" := by
  intro h
  have h1 : hash x ++ hash (x ++ "a") = hash (x ++ "a") ++ "" := by
    rw [h]
    simp
  have h2 := hh.injective (hh.delimited _ _ _ _ h1)
  have h3 := congrArg String.length h2
  simp only [String.length_append] at h3
  have h4 : "a".length = 1 := by decide
  omega

theorem updateOne_split {α : Type} (p : α → Bool) (f : α → α) :
    ∀ (pre : List α) (x : α) (post : List α), (∀ a ∈ pre, p a = false) → p x = true →
      updateOne p f (pre ++ x :: post) = pre ++ f x :: post
  | [], x, post, _, hx => by simp [updateOne, hx]
  | a :: pre, x, post, hpre, hx => by
    have ha : p a = false := hpre a (by simp)
    have ih := updateOne_split p f pre x post (fun b hb => hpre b (by simp [hb])) hx
    simp [updateOne, ha, ih]

theorem getProof_isOk (hash : String → String) (L : List String) (x : String) (hx : x ∈ L) :
    ∃ proof, MerkleTree.getProof hash (MerkleTree.new hash L) x = .ok proof := by
  have hmem : hash x ∈ L.map hash := List.mem_map_of_mem hash hx
  have hlt := List.indexOf_lt_length.2 hmem
  refine ⟨MerkleTree.getProofLoop (MerkleTree.new hash L).tree.dropLast
    (List.indexOf (hash x) (L.map hash)), ?_⟩
  unfold MerkleTree.getProof
  simp only [MerkleTree.new]
  rw [if_neg (Nat.ne_of_lt hlt)]

/-- C2 (code defect). Two voters cast one after the other in an election without
ballots; both casts succeed.  Afterwards the proof stored with the first ballot
is rejected against the election's current `merkleRoot`, and only the ballot cast
last is accepted: the handler stores a proof for the ballot it handles and leaves
the proofs of the earlier ballots as they were when it moves the root. -/
theorem stored_proof_stale_after_next_cast (hash : String → String) (hh : IdealHash hash) :
    (castVote hash false emptyElection (firstCast hash)).2 = .created "vote-1" [] false ∧
    (castVote hash false (afterFirstCast hash) (secondCast hash)).2 =
      .created "vote-2" [{ hash := hash (hash "v1"), position := "left" }] false ∧
    (afterSecondCast hash).votes.map (fun ballot =>
      MerkleTree.verifyVoteInTree hash ballot.voteHash ballot.merkleProof
        (currentRoot (afterSecondCast hash) "E")) = [false, true] := by
  have hinj := hh.injective
  have hne : ¬ hash "v1" = hash (hash "v1") ++ hash (hash "v2") := by
    intro h
    have h1 : hash "v1" ++ "" = hash (hash "v1") ++ hash (hash "v2") := by simpa using h
    have h2 := hh.delimited _ _ _ _ h1
    rw [← h2] at h
    have h3 : hash "v1" ++ "" = hash "v1" ++ hash (hash "v2") := by simpa using h
    rw [String.append_right_inj_iff] at h3
    exact digest_ne_empty hh _ h3.symm
  refine ⟨?_, ?_, ?_⟩
  · simp [castVote, castPersist, checkVotingStatus, emptyElection, firstCast, updateOne,
      ballotFilter, candidateFilter, MerkleTree.new, MerkleTree.getProof,
      MerkleTree.getProofLoop, MerkleTree.buildTree, MerkleTree.buildLevels,
      MerkleTree.nextLevel, List.indexOf_cons, MerkleTree.getRoot]
  · simp [afterFirstCast, castVote, castPersist, checkVotingStatus, emptyElection, firstCast,
      secondCast, updateOne, ballotFilter, candidateFilter, MerkleTree.new, MerkleTree.getProof,
      MerkleTree.getProofLoop, MerkleTree.buildTree, MerkleTree.buildLevels,
      MerkleTree.nextLevel, List.indexOf_cons, MerkleTree.getRoot, hinj.eq_iff]
  · simp [afterSecondCast, afterFirstCast, castVote, castPersist, checkVotingStatus,
      emptyElection, firstCast, secondCast, updateOne, ballotFilter, candidateFilter,
      MerkleTree.new, MerkleTree.getProof, MerkleTree.getProofLoop, MerkleTree.buildTree,
      MerkleTree.buildLevels, MerkleTree.nextLevel, List.indexOf_cons, MerkleTree.getRoot,
      MerkleTree.verifyVoteInTree, MerkleTree.verifyProof, currentRoot, hinj.eq_iff, hne]

/-- The failure of C2 at the model hash function. -/
theorem stored_proof_stale_after_next_cast_witness :
    IdealHash modelHash ∧
    (afterSecondCast modelHash).votes.map (fun ballot =>
      MerkleTree.verifyVoteInTree modelHash ballot.voteHash ballot.merkleProof
        (currentRoot (afterSecondCast modelHash) "E")) = [false, true] :=
  ⟨modelHash_ideal, (stored_proof_stale_after_next_cast modelHash modelHash_ideal).2.2⟩

/-- C4 (counterexample). With re-vote enabled, the voter `V1` casts a second
time: the cast succeeds as a re-vote, and the election's list of leaves, which
held the hash of the first ballot, now holds the hash of the second one only, not
both. -/
theorem revote_drops_previous_leaf :
    (castVote modelHash true (afterFirstCast modelHash) (revoteCast modelHash)).2 =
      .created "vote-1" [] true ∧
    ledgerLeaves (afterFirstCast modelHash) "E" = [modelHash "v1"] ∧
    ledgerLeaves (castVote modelHash true (afterFirstCast modelHash) (revoteCast modelHash)).1 "E" =
      [modelHash "v3"] ∧
    [modelHash "v3"] ≠ [modelHash "v1"] ++ [modelHash "v3"] := by
  refine ⟨?_, ?_, ?_, by simp⟩
  · simp [afterFirstCast, castVote, castPersist, checkVotingStatus, emptyElection, firstCast,
      revoteCast, updateOne, ballotFilter, candidateFilter, MerkleTree.new, MerkleTree.getProof,
      MerkleTree.getProofLoop, MerkleTree.buildTree, MerkleTree.buildLevels,
      MerkleTree.nextLevel, List.indexOf_cons, MerkleTree.getRoot]
  · simp [ledgerLeaves, afterFirstCast, castVote, castPersist, checkVotingStatus, emptyElection,
      firstCast, updateOne, ballotFilter, candidateFilter, MerkleTree.new, MerkleTree.getProof,
      MerkleTree.getProofLoop, MerkleTree.buildTree, MerkleTree.buildLevels,
      MerkleTree.nextLevel, List.indexOf_cons, MerkleTree.getRoot]
  · simp [ledgerLeaves, afterFirstCast, castVote, castPersist, checkVotingStatus, emptyElection,
      firstCast, revoteCast, updateOne, ballotFilter, candidateFilter, MerkleTree.new,
      MerkleTree.getProof, MerkleTree.getProofLoop, MerkleTree.buildTree,
      MerkleTree.buildLevels, MerkleTree.nextLevel, List.indexOf_cons, MerkleTree.getRoot]

/-- C4 (amended). With re-vote enabled, a cast by a voter who has a ballot in the
election succeeds as a re-vote, and the election's list of leaves keeps its
length: it is the previous list with the leaf of the voter's ballot replaced, in
place, by the new `voteHash`; the leaves before and after it are unchanged. -/
theorem revote_replaces_leaf_in_place (hash : String → String) (db : Db) (req : CastRequest)
    (existing : Vote)
    (hfind : db.votes.find? (ballotFilter req.voterId req.electionId) = some existing) :
    ∃ proof pre post,
      (castVote hash true db req).2 = .created existing.voteId proof true ∧
      ledgerLeaves db req.electionId = pre ++ existing.voteHash :: post ∧
      ledgerLeaves (castVote hash true db req).1 req.electionId =
        pre ++ req.voteHash :: post := by
  obtain ⟨hp, as, bs, hsplit, has⟩ := List.find?_eq_some.1 hfind
  have has' : ∀ a ∈ as, ballotFilter req.voterId req.electionId a = false := by
    intro a ha
    simpa using has a ha
  have hel : existing.electionId = req.electionId := by
    simp only [ballotFilter, Bool.and_eq_true, decide_eq_true_eq] at hp
    exact hp.2
  let upd : Vote → Vote := fun v => { v with
    candidateId := req.candidateId, position := req.position, boothId := req.boothId,
    encryptedVote := req.encryptedVote, voteHash := req.voteHash, isVerified := true }
  have hupd : updateOne (ballotFilter req.voterId req.electionId) upd db.votes =
      as ++ upd existing :: bs := by
    rw [hsplit]
    exact updateOne_split _ _ as existing bs has' hp
  have hpu : ballotFilter req.voterId req.electionId (upd existing) = true := hp
  have hmem : req.voteHash ∈ ((as ++ upd existing :: bs).filter
      (fun v => decide (v.electionId = req.electionId))).map (fun v => v.voteHash) := by
    refine List.mem_map.2 ⟨upd existing, ?_, rfl⟩
    simp [upd, hel]
  obtain ⟨proof, hproof⟩ := getProof_isOk hash _ _ hmem
  refine ⟨proof, (as.filter (fun v => decide (v.electionId = req.electionId))).map
      (fun v => v.voteHash), (bs.filter (fun v => decide (v.electionId = req.electionId))).map
      (fun v => v.voteHash), ?_, ?_, ?_⟩
  · simp only [castVote, checkVotingStatus, hfind, if_true, castPersist, hupd, hproof,
      Option.isSome_some]
  · simp [ledgerLeaves, hsplit, List.filter_cons, hel]
  · simp only [castVote, checkVotingStatus, hfind, if_true, castPersist, hupd, hproof,
      ledgerLeaves]
    rw [updateOne_split _ _ as (upd existing) bs has' hpu]
    simp [List.filter_cons, hel, upd]

/-- The amended C4 at the re-vote of the voter `V1` after the first cast. -/
theorem revote_replaces_leaf_in_place_witness :
    ∃ existing,
      (afterFirstCast modelHash).votes.find? (ballotFilter "V1" "E") = some existing ∧
      ∃ proof pre post,
        (castVote modelHash true (afterFirstCast modelHash) (revoteCast modelHash)).2 =
          .created existing.voteId proof true ∧
        ledgerLeaves (afterFirstCast modelHash) "E" = pre ++ existing.voteHash :: post ∧
        ledgerLeaves (castVote modelHash true (afterFirstCast modelHash)
          (revoteCast modelHash)).1 "E" = pre ++ modelHash "v3" :: post := by
  have h : (afterFirstCast modelHash).votes.find? (ballotFilter "V1" "E") =
      some { voteId := "vote-1", voterId := "V1", electionId := "E", candidateId := "C1",
             boothId := "WEB-CLIENT", position := "President", encryptedVote := "enc-1",
             voteHash := modelHash "v1", merkleProof := [], isVerified := true } := by
    simp [afterFirstCast, castVote, castPersist, checkVotingStatus, emptyElection, firstCast,
      updateOne, ballotFilter, candidateFilter, MerkleTree.new, MerkleTree.getProof,
      MerkleTree.getProofLoop, MerkleTree.buildTree, MerkleTree.buildLevels,
      MerkleTree.nextLevel, List.indexOf_cons, MerkleTree.getRoot]
  exact ⟨_, h, revote_replaces_leaf_in_place modelHash (afterFirstCast modelHash)
    (revoteCast modelHash) _ h⟩

namespace EncryptionService

/-! ## The encryption service: codec and key -/

theorem hexValue_hexDigit : ∀ n : Fin 16, hexValue (hexDigit n) = some n := by decide

theorem fromHexChars_hexOfByte (b : Fin 256) (rest : List Char) :
    fromHexChars (hexOfByte b ++ rest) = b :: fromHexChars rest := by
  have hb : byteOfNibbles ⟨b.val / 16, by have := b.isLt; omega⟩ ⟨b.val % 16, by omega⟩ = b := by
    apply Fin.ext
    simp only [byteOfNibbles]
    omega
  simp [hexOfByte, fromHexChars, hexValue_hexDigit, hb]

theorem fromHexChars_flatMap (bs : Bytes) : fromHexChars (bs.flatMap hexOfByte) = bs := by
  induction bs with
  | nil => simp [fromHexChars]
  | cons b bs ih => rw [List.flatMap_cons, fromHexChars_hexOfByte, ih]

/-- Decoding the hexadecimal text of a buffer gives the buffer back. -/
theorem fromHex_toHex (bs : Bytes) : fromHex (toHex bs) = bs := by
  simp only [fromHex, toHex, fromHexChars_flatMap]

theorem fromHexChars_length : ∀ (n : Nat) (cs : List Char), cs.length = 2 * n →
    cs.all (fun c => (hexValue c).isSome) = true → (fromHexChars cs).length = n
  | 0, cs, h, _ => by
    have : cs = [] := List.eq_nil_of_length_eq_zero (by omega)
    simp [this, fromHexChars]
  | n + 1, [], h, _ => by simp at h
  | n + 1, [_], h, _ => by simp at h; omega
  | n + 1, hi :: lo :: rest, h, hall => by
    simp only [List.all_cons, Bool.and_eq_true] at hall
    obtain ⟨h1, h2, h3⟩ := hall
    obtain ⟨a, ha⟩ := Option.isSome_iff_exists.1 h1
    obtain ⟨b, hb⟩ := Option.isSome_iff_exists.1 h2
    have ih := fromHexChars_length n rest (by simp at h; omega) h3
    simp [fromHexChars, ha, hb, ih]

/-- The normalised key has 32 bytes. -/
theorem normalizeKey_length (lib : Primitives) (hsha : ∀ b, (lib.sha256 b).length = 32)
    (key : Key) (out : Bytes) (h : normalizeKey lib key = .ok out) : out.length = 32 := by
  cases key with
  | buffer b =>
    simp only [normalizeKey, keyLength] at h
    split at h
    · cases h; assumption
    · split at h
      · cases h
        simp only [List.length_take]
        omega
      · cases h
        simp only [List.length_append, List.length_replicate]
        omega
  | string s =>
    simp only [normalizeKey] at h
    split at h
    · cases h
      rename_i hx
      simp only [isHex64, Bool.and_eq_true, decide_eq_true_eq] at hx
      exact fromHexChars_length 32 s.data hx.1 hx.2
    · cases h
      exact hsha _
  | other => simp [normalizeKey] at h

theorem normalizeKey_isOk (lib : Primitives) (key : Key) (hkey : key ≠ .other) :
    ∃ keyBuf, normalizeKey lib key = .ok keyBuf := by
  cases key with
  | buffer b =>
    simp only [normalizeKey]
    split
    · exact ⟨_, rfl⟩
    · split <;> exact ⟨_, rfl⟩
  | string s =>
    simp only [normalizeKey]
    split <;> exact ⟨_, rfl⟩
  | other => exact absurd rfl hkey

/-- What is encrypted under a key is decrypted under every key with the same
normalised key. -/
theorem decrypt_encrypt_of_normalizeKey (lib : Primitives) (hl : lib.Lawful)
    (text : String) (key key2 : Key) (keyBuf iv : Bytes)
    (hk : normalizeKey lib key = .ok keyBuf) (hk2 : normalizeKey lib key2 = .ok keyBuf)
    (hiv : iv.length = 12) :
    ∃ encrypted, encrypt lib iv text key = .ok encrypted ∧
      decrypt lib encrypted key2 = .ok text := by
  have hlen := normalizeKey_length lib hl.sha256_length key keyBuf hk
  obtain ⟨ct, tag, henc⟩ := hl.gcm_encrypts keyBuf iv (aad lib) (lib.utf8Encode text) hlen hiv
  have hdec := hl.gcm_decrypts _ _ _ _ _ _ henc
  refine ⟨{ ciphertext := toHex ct, iv := toHex iv, tag := toHex tag }, ?_, ?_⟩
  · simp only [encrypt, hk, henc]
  · simp only [decrypt, hk2, fromHex_toHex, hdec, hl.utf8_lossless]

end EncryptionService

namespace EncryptionService

/-! ## The model of the primitives satisfies the assumptions -/

theorem char_toNat_lt (c : Char) : c.toNat < 1114112 := by
  have h := c.valid
  simp only [UInt32.isValidChar, Nat.isValidChar] at h
  have : c.toNat = c.val.toNat := rfl
  omega

theorem modelBytesChars_flatMap (cs : List Char) :
    modelBytesChars (cs.flatMap modelCharBytes) = cs := by
  induction cs with
  | nil => simp [modelBytesChars]
  | cons c cs ih =>
    have hc := char_toNat_lt c
    have hn : c.toNat / 65536 % 256 * 65536 + c.toNat / 256 % 256 * 256 + c.toNat % 256
        = c.toNat := by omega
    rw [List.flatMap_cons]
    simp only [modelCharBytes, List.cons_append, List.nil_append, modelBytesChars, hn,
      Char.ofNat_toNat]
    exact congrArg (List.cons c) ih

theorem modelPrimitives_lawful : modelPrimitives.Lawful := by
  constructor
  · intro b
    simp [modelPrimitives]
  · intro s
    simp [modelPrimitives, modelBytesChars_flatMap]
  · intro key iv aad pt hk hiv
    exact ⟨pt, key ++ aad, by simp [modelPrimitives, hk, hiv]⟩
  · intro key iv aad pt ct tag h
    simp only [modelPrimitives] at h
    split at h
    · cases h
      simp [modelPrimitives]
    · cases h

theorem modelPrimitives_idealCipher : modelPrimitives.IdealCipher := by
  intro key key2 iv aad pt ct tag h hne
  simp only [modelPrimitives] at h
  split at h
  · cases h
    refine ⟨"Unsupported state or unable to authenticate data", ?_⟩
    have h2 : ¬ key ++ aad = key2 ++ aad := by
      intro e
      exact hne (List.append_cancel_right e).symm
    simp [modelPrimitives, h2]
  · cases h

theorem modelDecode_modelCode : ∀ (x rest : List Char),
    modelDecode (modelCode x ++ rest) = some (x, rest)
  | [], rest => by simp [modelCode, modelDecode]
  | c :: cs, rest => by
    simp [modelCode, modelDecode, modelDecode_modelCode cs rest]

theorem modelJson_lawful : modelJson.Lawful := by
  have key : ∀ v : String × String × String, modelJson.parse (modelJson.stringify v) = some v := by
    intro v
    have h3 := modelDecode_modelCode v.2.2.data []
    rw [List.append_nil] at h3
    simp [modelJson, List.append_assoc, modelDecode_modelCode, h3]
  constructor
  · intro c i t
    exact ⟨(c, i, t), key _, rfl⟩
  · intro v
    exact ⟨v, key v, rfl⟩

/-! ## The encryption service: claims -/

/-- C5. Whatever the 12-byte nonce drawn by `encrypt`, for every text and every
key that is a buffer or a string, `encrypt` returns a result and `decrypt` of that
result under the same key returns the text. -/
theorem cipher_round_trip (lib : Primitives) (hl : lib.Lawful) (text : String) (key : Key)
    (iv : Bytes) (hkey : key ≠ .other) (hiv : iv.length = ivLength) :
    ∃ encrypted, encrypt lib iv text key = .ok encrypted ∧
      decrypt lib encrypted key = .ok text := by
  obtain ⟨keyBuf, hk⟩ := normalizeKey_isOk lib key hkey
  exact decrypt_encrypt_of_normalizeKey lib hl text key key keyBuf iv hk hk hiv

/-- C5 at the model primitives, a string key and a nonce of twelve zero bytes. -/
theorem cipher_round_trip_witness :
    ∃ encrypted,
      encrypt modelPrimitives (List.replicate 12 0) "ballot" (.string "default-election-key") =
        .ok encrypted ∧
      decrypt modelPrimitives encrypted (.string "default-election-key") = .ok "ballot" :=
  cipher_round_trip modelPrimitives modelPrimitives_lawful "ballot"
    (.string "default-election-key") (List.replicate 12 0) (by simp) (by simp [ivLength])

/-- C6 (counterexample). A buffer of 33 bytes and the buffer of its first 32 bytes
are two different keys, and what is encrypted under the first is decrypted under
the second, for all lawful primitives and so for an ideal cipher: `normalizeKey`
cuts the longer buffer to the shorter one. -/
theorem decrypt_accepts_other_key :
    Key.buffer (List.replicate 33 1) ≠ Key.buffer (List.replicate 32 1) ∧
    modelPrimitives.Lawful ∧ modelPrimitives.IdealCipher ∧
    ∀ lib : Primitives, lib.Lawful → ∀ (text : String) (iv : Bytes), iv.length = 12 →
      ∃ encrypted, encrypt lib iv text (.buffer (List.replicate 33 1)) = .ok encrypted ∧
        decrypt lib encrypted (.buffer (List.replicate 32 1)) = .ok text := by
  refine ⟨by decide, modelPrimitives_lawful, modelPrimitives_idealCipher, ?_⟩
  intro lib hl text iv hiv
  exact decrypt_encrypt_of_normalizeKey lib hl text _ _ (List.replicate 32 1) iv
    rfl rfl hiv

/-- C6 (amended). With AES-256-GCM an ideal authenticated cipher, for every text
and every two keys, buffers or strings, whose normalised keys differ, `encrypt`
under the first key returns a result and `decrypt` of that result under the
second key raises an error. -/
theorem decrypt_rejects_other_normalized_key (lib : Primitives) (hl : lib.Lawful)
    (hideal : lib.IdealCipher) (text : String) (key key2 : Key) (iv : Bytes)
    (hkey : key ≠ .other) (hkey2 : key2 ≠ .other)
    (hne : normalizeKey lib key ≠ normalizeKey lib key2) (hiv : iv.length = ivLength) :
    ∃ encrypted, encrypt lib iv text key = .ok encrypted ∧
      ∃ message, decrypt lib encrypted key2 = .error message := by
  obtain ⟨keyBuf, hk⟩ := normalizeKey_isOk lib key hkey
  obtain ⟨keyBuf2, hk2⟩ := normalizeKey_isOk lib key2 hkey2
  have hlen := normalizeKey_length lib hl.sha256_length key keyBuf hk
  obtain ⟨ct, tag, henc⟩ := hl.gcm_encrypts keyBuf iv (aad lib) (lib.utf8Encode text) hlen hiv
  have hbuf : keyBuf2 ≠ keyBuf := by
    intro e
    rw [hk, hk2, e] at hne
    exact hne rfl
  obtain ⟨message, hdec⟩ := hideal _ keyBuf2 _ _ _ _ _ henc hbuf
  refine ⟨{ ciphertext := toHex ct, iv := toHex iv, tag := toHex tag }, ?_, ?_⟩
  · simp only [encrypt, hk, henc]
  · exact ⟨"Decryption failed: " ++ message, by simp only [decrypt, hk2, fromHex_toHex, hdec]⟩

/-- The amended C6 at the model primitives and the one-byte keys `01` and `02`. -/
theorem decrypt_rejects_other_normalized_key_witness :
    ∃ encrypted,
      encrypt modelPrimitives (List.replicate 12 0) "ballot" (.buffer [1]) = .ok encrypted ∧
      ∃ message, decrypt modelPrimitives encrypted (.buffer [2]) = .error message :=
  decrypt_rejects_other_normalized_key modelPrimitives modelPrimitives_lawful
    modelPrimitives_idealCipher "ballot" (.buffer [1]) (.buffer [2]) (List.replicate 12 0)
    (by simp) (by simp) (by simp [normalizeKey, keyLength]) (by simp [ivLength])

end EncryptionService

namespace EncryptionService

theorem encryptVote_eq {J : Type} (lib : Primitives) (json : Json J) (iv : Bytes) (voteData : J)
    (key : Key) (encrypted : EncryptedData)
    (h : encrypt lib iv (json.stringify voteData) key = .ok encrypted) :
    encryptVote lib json iv voteData key =
      .ok { encryptedVote :=
              json.stringify (json.ofEncrypted encrypted.ciphertext encrypted.iv encrypted.tag),
            voteHash := toHex (lib.sha256 (lib.utf8Encode (json.stringify voteData))) } := by
  simp only [encryptVote, h, hash]

theorem encrypt_iv (lib : Primitives) (iv : Bytes) (text : String) (key : Key)
    (encrypted : EncryptedData) (h : encrypt lib iv text key = .ok encrypted) :
    encrypted.iv = toHex iv := by
  unfold encrypt at h
  split at h
  · cases h
  · split at h
    · cases h
    · cases h
      rfl

/-- C7. When the decipher rejects the nonce, ciphertext and tag of an encrypted
record under the normalised key, `decrypt` raises an error that carries the
decipher's message, and so does `decryptVote` on every argument, a string or a
value, that holds this record: no payload is returned. -/
theorem decrypt_error_surfaces {J : Type} (lib : Primitives) (json : Json J)
    (encryptedData : EncryptedData) (key : Key) (keyBuf : Bytes) (message : String)
    (hkey : normalizeKey lib key = .ok keyBuf)
    (hreject : lib.gcmDecrypt keyBuf (fromHex encryptedData.iv) (aad lib)
      (fromHex encryptedData.ciphertext) (fromHex encryptedData.tag) = .error message) :
    decrypt lib encryptedData key = .error ("Decryption failed: " ++ message) ∧
    ∀ (encryptedVote : StoredVote J) (payload : J),
      (encryptedVote = .value payload ∨
        ∃ text, encryptedVote = .string text ∧ json.parse text = some payload) →
      json.toEncrypted payload =
        some (encryptedData.ciphertext, encryptedData.iv, encryptedData.tag) →
      decryptVote lib json encryptedVote key = .error ("Decryption failed: " ++ message) := by
  have hd : decrypt lib encryptedData key = .error ("Decryption failed: " ++ message) := by
    simp only [decrypt, hkey, hreject]
  refine ⟨hd, ?_⟩
  intro encryptedVote payload hstored hfields
  rcases hstored with rfl | ⟨text, rfl, hparse⟩
  · simp only [decryptVote, hfields, hd]
  · simp only [decryptVote, hparse, hfields, hd]

/-- C7 at the model primitives: a record whose tag is not the one of the key. -/
theorem decrypt_error_surfaces_witness :
    decrypt modelPrimitives { ciphertext := "00", iv := "", tag := "ff" } (.buffer [1]) =
      .error ("Decryption failed: " ++ "Unsupported state or unable to authenticate data") ∧
    ∀ (encryptedVote : StoredVote (String × String × String))
      (payload : String × String × String),
      (encryptedVote = .value payload ∨
        ∃ text, encryptedVote = .string text ∧ modelJson.parse text = some payload) →
      modelJson.toEncrypted payload = some ("00", "", "ff") →
      decryptVote modelPrimitives modelJson encryptedVote (.buffer [1]) =
        .error ("Decryption failed: " ++ "Unsupported state or unable to authenticate data") :=
  decrypt_error_surfaces modelPrimitives modelJson { ciphertext := "00", iv := "", tag := "ff" }
    (.buffer [1]) (1 :: List.replicate 31 0)
    "Unsupported state or unable to authenticate data" rfl rfl

/-- C8 (counterexample). The one-byte buffer `01` is not replaced by a digest: for
every choice of the primitives it is padded with zero bytes, and so is the buffer
`01 00`, which gets the same normalised key; the two results are the digests of
the two keys for no SHA-256 that tells these keys apart. -/
theorem normalizeKey_short_buffer_padded :
    (∀ lib : Primitives, normalizeKey lib (.buffer [1]) = .ok (1 :: List.replicate 31 0)) ∧
    (∀ lib : Primitives, normalizeKey lib (.buffer [1, 0]) = .ok (1 :: List.replicate 31 0)) ∧
    (∀ lib : Primitives, lib.sha256 [1] ≠ lib.sha256 [1, 0] →
      ¬ (normalizeKey lib (.buffer [1]) = .ok (lib.sha256 [1]) ∧
         normalizeKey lib (.buffer [1, 0]) = .ok (lib.sha256 [1, 0]))) ∧
    modelPrimitives.Lawful ∧
    normalizeKey modelPrimitives (.buffer [1]) ≠ .ok (modelPrimitives.sha256 [1]) := by
  refine ⟨fun _ => rfl, fun _ => rfl, ?_, modelPrimitives_lawful, ?_⟩
  · intro lib hne h
    have h1 : normalizeKey lib (.buffer [1]) = normalizeKey lib (.buffer [1, 0]) := rfl
    rw [h.1, h.2] at h1
    exact hne (Except.ok.inj h1)
  · simp [normalizeKey, keyLength, modelPrimitives]

/-- C8 (amended). A buffer of 32 bytes is returned unchanged; a longer buffer is
cut to its first 32 bytes and a shorter one is padded with zero bytes; a string of
64 hexadecimal digits is decoded to the bytes it denotes; every other string is
replaced by the SHA-256 digest of its `utf8` encoding.  The result has 32 bytes in
every case. -/
theorem normalizeKey_cases (lib : Primitives) (hsha : ∀ b, (lib.sha256 b).length = 32) :
    (∀ b : Bytes, b.length = 32 → normalizeKey lib (.buffer b) = .ok b) ∧
    (∀ b : Bytes, 32 < b.length → normalizeKey lib (.buffer b) = .ok (b.take 32)) ∧
    (∀ b : Bytes, b.length < 32 →
      normalizeKey lib (.buffer b) = .ok (b ++ List.replicate (32 - b.length) 0)) ∧
    (∀ s : String, isHex64 s = true → normalizeKey lib (.string s) = .ok (fromHex s)) ∧
    (∀ s : String, isHex64 s = false →
      normalizeKey lib (.string s) = .ok (lib.sha256 (lib.utf8Encode s))) ∧
    (∀ key : Key, key ≠ .other → ∃ out, normalizeKey lib key = .ok out ∧ out.length = 32) := by
  refine ⟨?_, ?_, ?_, ?_, ?_, ?_⟩
  · intro b hb
    simp [normalizeKey, keyLength, hb]
  · intro b hb
    have h1 : ¬ b.length = 32 := by omega
    simp [normalizeKey, keyLength, h1, hb]
  · intro b hb
    have h1 : ¬ b.length = 32 := by omega
    have h2 : ¬ 32 < b.length := by omega
    simp [normalizeKey, keyLength, h1, h2]
  · intro s hs
    simp [normalizeKey, hs]
  · intro s hs
    simp [normalizeKey, hs]
  · intro key hkey
    obtain ⟨out, hout⟩ := normalizeKey_isOk lib key hkey
    exact ⟨out, hout, normalizeKey_length lib hsha key out hout⟩

/-- The amended C8 at the model primitives. -/
theorem normalizeKey_cases_witness :
    (∀ b : Bytes, (modelPrimitives.sha256 b).length = 32) ∧
    ∀ key : Key, key ≠ .other →
      ∃ out, normalizeKey modelPrimitives key = .ok out ∧ out.length = 32 :=
  ⟨modelPrimitives_lawful.sha256_length,
    (normalizeKey_cases modelPrimitives modelPrimitives_lawful.sha256_length).2.2.2.2.2⟩

/-- C9. For every vote payload, every two keys, buffers or strings, and every two
12-byte nonces, `encryptVote` returns a result in both cases, and in both the
`voteHash` is the hexadecimal SHA-256 digest of the `utf8` encoding of
`JSON.stringify` of the payload; the `encryptedVote` texts of the two results
differ when the nonces differ. -/
theorem encryptVote_voteHash {J : Type} (lib : Primitives) (json : Json J) (hl : lib.Lawful)
    (hj : json.Lawful) (voteData : J) (key key2 : Key) (iv iv2 : Bytes) (hkey : key ≠ .other)
    (hkey2 : key2 ≠ .other) (hiv : iv.length = ivLength) (hiv2 : iv2.length = ivLength) :
    ∃ r r2, encryptVote lib json iv voteData key = .ok r ∧
      encryptVote lib json iv2 voteData key2 = .ok r2 ∧
      r.voteHash = toHex (lib.sha256 (lib.utf8Encode (json.stringify voteData))) ∧
      r2.voteHash = r.voteHash ∧
      (iv ≠ iv2 → r.encryptedVote ≠ r2.encryptedVote) := by
  obtain ⟨keyBuf, hk⟩ := normalizeKey_isOk lib key hkey
  obtain ⟨keyBuf2, hk2⟩ := normalizeKey_isOk lib key2 hkey2
  obtain ⟨e, he, -⟩ := decrypt_encrypt_of_normalizeKey lib hl (json.stringify voteData)
    key key keyBuf iv hk hk hiv
  obtain ⟨e2, he2, -⟩ := decrypt_encrypt_of_normalizeKey lib hl (json.stringify voteData)
    key2 key2 keyBuf2 iv2 hk2 hk2 hiv2
  refine ⟨_, _, encryptVote_eq lib json iv voteData key e he,
    encryptVote_eq lib json iv2 voteData key2 e2 he2, rfl, rfl, ?_⟩
  intro hne htext
  obtain ⟨j, hparse, hfields⟩ := hj.parse_encrypted e.ciphertext e.iv e.tag
  obtain ⟨j2, hparse2, hfields2⟩ := hj.parse_encrypted e2.ciphertext e2.iv e2.tag
  simp only at htext
  rw [htext, hparse2] at hparse
  cases hparse
  rw [hfields2] at hfields
  have hivs : e2.iv = e.iv := by
    injection hfields with h
    exact (Prod.mk.inj (Prod.mk.inj h).2).1
  rw [encrypt_iv lib iv _ key e he, encrypt_iv lib iv2 _ key2 e2 he2] at hivs
  have := congrArg fromHex hivs
  rw [fromHex_toHex, fromHex_toHex] at this
  exact hne this.symm

/-- C9 at the model primitives, with two keys and two nonces. -/
theorem encryptVote_voteHash_witness :
    ∃ r r2,
      encryptVote modelPrimitives modelJson (List.replicate 12 0) ("V1", "E", "C1")
        (.string "default-election-key") = .ok r ∧
      encryptVote modelPrimitives modelJson (List.replicate 12 7) ("V1", "E", "C1")
        (.buffer [1]) = .ok r2 ∧
      r.voteHash = toHex (modelPrimitives.sha256
        (modelPrimitives.utf8Encode (modelJson.stringify ("V1", "E", "C1")))) ∧
      r2.voteHash = r.voteHash ∧
      ((List.replicate 12 0 : Bytes) ≠ List.replicate 12 7 →
        r.encryptedVote ≠ r2.encryptedVote) :=
  encryptVote_voteHash modelPrimitives modelJson modelPrimitives_lawful modelJson_lawful
    ("V1", "E", "C1") (.string "default-election-key") (.buffer [1]) (List.replicate 12 0)
    (List.replicate 12 7) (by simp) (by simp) (by simp [ivLength]) (by simp [ivLength])

/-- C10. For every vote payload, every key that is a buffer or a string and every
12-byte nonce, `encryptVote` returns a result, `decryptVote` of its `encryptedVote`
under the same key returns a payload, and the hash of `JSON.stringify` of that
payload is the `voteHash` of the result. -/
theorem decryptVote_rehash {J : Type} (lib : Primitives) (json : Json J) (hl : lib.Lawful)
    (hj : json.Lawful) (voteData : J) (key : Key) (iv : Bytes) (hkey : key ≠ .other)
    (hiv : iv.length = ivLength) :
    ∃ r decrypted, encryptVote lib json iv voteData key = .ok r ∧
      decryptVote lib json (.string r.encryptedVote) key = .ok decrypted ∧
      hash lib (json.stringify decrypted) = r.voteHash := by
  obtain ⟨keyBuf, hk⟩ := normalizeKey_isOk lib key hkey
  obtain ⟨e, he, hd⟩ := decrypt_encrypt_of_normalizeKey lib hl (json.stringify voteData)
    key key keyBuf iv hk hk hiv
  obtain ⟨j, hparse, hfields⟩ := hj.parse_encrypted e.ciphertext e.iv e.tag
  obtain ⟨v2, hv2, hs⟩ := hj.parse_stringify voteData
  refine ⟨_, v2, encryptVote_eq lib json iv voteData key e he, ?_, ?_⟩
  · simp only [decryptVote, hparse, hfields, hd, hv2]
  · simp only [hash, hs]

/-- C10 at the model primitives and the model of `JSON`. -/
theorem decryptVote_rehash_witness :
    ∃ r decrypted,
      encryptVote modelPrimitives modelJson (List.replicate 12 0) ("V1", "E", "C1")
        (.string "default-election-key") = .ok r ∧
      decryptVote modelPrimitives modelJson (.string r.encryptedVote)
        (.string "default-election-key") = .ok decrypted ∧
      hash modelPrimitives (modelJson.stringify decrypted) = r.voteHash :=
  decryptVote_rehash modelPrimitives modelJson modelPrimitives_lawful modelJson_lawful
    ("V1", "E", "C1") (.string "default-election-key") (List.replicate 12 0)
    (by simp) (by simp [ivLength])

end EncryptionService

/-! ## The face service: perceptual mode -/

namespace FaceService

theorem foldl_add_eq_sum (l : List Nat) (n : Nat) :
    l.foldl (fun dist d => dist + d) n = n + l.sum := by
  induction l generalizing n with
  | nil => simp
  | cons a l ih => simp [ih, Nat.add_assoc]

theorem differingBits_eq_bitDistance : ∀ x y : Fin 16,
    differingBits (some x.val) (some y.val) = bitDistance (nibbleBits x.val) (nibbleBits y.val) := by
  decide

theorem parseHexDigit_lt (c : Char) (n : Nat) (h : parseHexDigit c = some n) : n < 16 := by
  unfold parseHexDigit at h
  split at h
  · cases h; omega
  · split at h
    · cases h; omega
    · split at h
      · cases h; omega
      · cases h

theorem bitDistance_append : ∀ (x1 y1 x2 y2 : List Bool), x1.length = y1.length →
    bitDistance (x1 ++ x2) (y1 ++ y2) = bitDistance x1 y1 + bitDistance x2 y2
  | [], [], _, _, _ => by simp [bitDistance]
  | [], _ :: _, _, _, h => by simp at h
  | _ :: _, [], _, _, h => by simp at h
  | a :: x1, b :: y1, x2, y2, h => by
    have ih := bitDistance_append x1 y1 x2 y2 (by simpa using h)
    show (if a = b then 0 else 1) + bitDistance (x1 ++ x2) (y1 ++ y2) =
      ((if a = b then 0 else 1) + bitDistance x1 y1) + bitDistance x2 y2
    rw [ih]
    omega

/-- On two lists of hexadecimal digits of one length, the sum computed by the loop
of `hammingDistance` is the Hamming distance of the bits of the two codes. -/
theorem hamming_sum_eq : ∀ (a b : List Char), a.length = b.length →
    (∀ c ∈ a, (parseHexDigit c).isSome = true) → (∀ c ∈ b, (parseHexDigit c).isSome = true) →
    (List.zipWith (fun x y => differingBits (parseHexDigit x) (parseHexDigit y)) a b).sum =
      bitDistance (a.flatMap (fun c => nibbleBits ((parseHexDigit c).getD 0)))
        (b.flatMap (fun c => nibbleBits ((parseHexDigit c).getD 0)))
  | [], [], _, _, _ => by simp [bitDistance]
  | [], _ :: _, h, _, _ => by simp at h
  | _ :: _, [], h, _, _ => by simp at h
  | x :: a, y :: b, h, ha, hb => by
    have ih := hamming_sum_eq a b (by simpa using h) (fun c hc => ha c (by simp [hc]))
      (fun c hc => hb c (by simp [hc]))
    obtain ⟨n, hn⟩ := Option.isSome_iff_exists.1 (ha x (by simp))
    obtain ⟨m, hm⟩ := Option.isSome_iff_exists.1 (hb y (by simp))
    have h1 := differingBits_eq_bitDistance ⟨n, parseHexDigit_lt x n hn⟩
      ⟨m, parseHexDigit_lt y m hm⟩
    simp only at h1
    rw [List.flatMap_cons, List.flatMap_cons, bitDistance_append _ _ _ _ (by simp [nibbleBits]),
      List.zipWith_cons_cons, List.sum_cons, ih, hn, hm, h1]
    rfl

/-- On two non-empty hexadecimal codes of one length, `hammingDistance` returns the
Hamming distance of their bits. -/
theorem hammingDistance_eq_bitDistance (a b : String) (ha : IsHexCode a) (hb : IsHexCode b)
    (hlen : a.length = b.length) (hne : a ≠ "") :
    hammingDistance (some a) (some b) = some (bitDistance (codeBits a) (codeBits b)) := by
  have hbne : b ≠ "" := by
    intro hb0
    apply hne
    rw [hb0] at hlen
    exact String.ext (List.eq_nil_of_length_eq_zero hlen)
  have hcond : ¬ (a = "" ∨ b = "" ∨ a.length ≠ b.length) := by
    simp [hne, hbne, hlen]
  simp only [hammingDistance, if_neg hcond, foldl_add_eq_sum, Nat.zero_add, codeBits]
  rw [hamming_sum_eq a.data b.data hlen ha hb]

theorem nibble_hex : ∀ b0 b1 b2 b3 : Bool,
    (numberToHex (parseBinary [b0, b1, b2, b3])).data.length = 1 ∧
    (numberToHex (parseBinary [b0, b1, b2, b3])).data.all
      (fun c => (parseHexDigit c).isSome) = true := by
  decide

theorem nibble_of_length (bits : List Bool) (j : Nat) (h : 4 * j + 4 ≤ bits.length) :
    ∃ b0 b1 b2 b3, (bits.drop (4 * j)).take 4 = [b0, b1, b2, b3] := by
  have hl : ((bits.drop (4 * j)).take 4).length = 4 := by
    simp only [List.length_take, List.length_drop]
    omega
  match hm : (bits.drop (4 * j)).take 4, hl with
  | [b0, b1, b2, b3], _ => exact ⟨b0, b1, b2, b3, rfl⟩

/-- The loop that writes the hexadecimal digits, for a list of positions inside
the bits: it appends one hexadecimal digit for each position. -/
theorem hex_loop (bits : List Bool) : ∀ (js : List Nat) (acc : String),
    (∀ j ∈ js, 4 * j + 4 ≤ bits.length) → IsHexCode acc →
    IsHexCode (js.foldl
      (fun hex j => hex ++ numberToHex (parseBinary ((bits.drop (4 * j)).take 4))) acc) ∧
    (js.foldl
      (fun hex j => hex ++ numberToHex (parseBinary ((bits.drop (4 * j)).take 4))) acc).length
      = acc.length + js.length
  | [], acc, _, hacc => by simp [hacc]
  | j :: js, acc, hjs, hacc => by
    obtain ⟨b0, b1, b2, b3, hn⟩ := nibble_of_length bits j (hjs j (by simp))
    obtain ⟨h1, h2⟩ := nibble_hex b0 b1 b2 b3
    have hacc2 : IsHexCode (acc ++ numberToHex (parseBinary ((bits.drop (4 * j)).take 4))) := by
      intro c hc
      rw [String.data_append, List.mem_append] at hc
      rcases hc with hc | hc
      · exact hacc c hc
      · rw [hn] at hc
        exact List.all_eq_true.1 h2 c hc
    obtain ⟨ih1, ih2⟩ := hex_loop bits js _ (fun i hi => hjs i (by simp [hi])) hacc2
    refine ⟨ih1, ?_⟩
    rw [List.foldl_cons, ih2, String.length_append, hn]
    have : (numberToHex (parseBinary [b0, b1, b2, b3])).length = 1 := h1
    rw [this, List.length_cons]
    omega

/-- For 64 pixels, `computeAverageHash` returns 16 hexadecimal digits. -/
theorem computeAverageHash_hex (data : List Nat) (h : data.length = 64) :
    IsHexCode (computeAverageHash data) ∧ (computeAverageHash data).length = 16 := by
  have hb : (averageBits data).length = 64 := by simp [averageBits, h]
  have := hex_loop (averageBits data) (List.range 16) ""
    (by intro j hj; rw [List.mem_range] at hj; omega) (by intro c hc; simp at hc)
  simpa [computeAverageHash] using this

end FaceService

namespace FaceService

theorem verifyFace_perceptual (env : Env) (faceData stored : String) (data : List Nat)
    (toleranceBits : Option Nat) (hmode : env.faceMode ≠ "arcface")
    (hpix : env.pixels faceData = .ok data) (hne : stored ≠ "") :
    verifyFace env faceData (some stored) toleranceBits =
      .ok (withinTolerance (hammingDistance (some (computeAverageHash data)) (some stored))
        (toleranceBits.getD 16)) := by
  simp only [verifyFace, if_neg hne, if_neg hmode, generateFaceTemplateHash, hpix]

theorem modelFaceEnv_code :
    computeAverageHash (List.replicate 32 200 ++ List.replicate 32 10) = "ffffffff00000000" := by
  have hb : averageBits (List.replicate 32 200 ++ List.replicate 32 10) =
      List.replicate 32 true ++ List.replicate 32 false := by
    simp only [averageBits]
    norm_num [List.replicate]
  unfold computeAverageHash
  rw [hb]
  decide

/-- C11. In perceptual mode, for the code computed from the 64 pixels of the
presented sample and every stored hexadecimal code of the same length, `verifyFace`
accepts when the Hamming distance of the two codes is `toleranceBits` and rejects
when it is `toleranceBits + 1`; when the argument is left out, `toleranceBits` is
16. -/
theorem verifyFace_tolerance_boundary (env : Env) (faceData stored : String) (data : List Nat)
    (toleranceBits : Option Nat) (hmode : env.faceMode ≠ "arcface")
    (hpix : env.pixels faceData = .ok data) (hdata : data.length = 64)
    (hstored : IsHexCode stored) (hlen : stored.length = (computeAverageHash data).length) :
    (bitDistance (codeBits (computeAverageHash data)) (codeBits stored) = toleranceBits.getD 16 →
      verifyFace env faceData (some stored) toleranceBits = .ok true) ∧
    (bitDistance (codeBits (computeAverageHash data)) (codeBits stored)
        = toleranceBits.getD 16 + 1 →
      verifyFace env faceData (some stored) toleranceBits = .ok false) := by
  obtain ⟨hhex, h16⟩ := computeAverageHash_hex data hdata
  have hcne : computeAverageHash data ≠ "" := by
    intro h0
    rw [h0] at h16
    exact absurd h16 (by decide)
  have hsne : stored ≠ "" := by
    intro h0
    rw [h0, h16] at hlen
    exact absurd hlen (by decide)
  rw [verifyFace_perceptual env faceData stored data toleranceBits hmode hpix hsne,
    hammingDistance_eq_bitDistance _ _ hhex hstored hlen.symm hcne]
  refine ⟨?_, ?_⟩
  · intro h
    simp [withinTolerance, h]
  · intro h
    simp [withinTolerance, h]

/-- C11 at a sample whose code is `ffffffff00000000`: with the default tolerance a
stored code at distance 16 is accepted and one at distance 17 is rejected. -/
theorem verifyFace_tolerance_boundary_witness :
    verifyFace modelFaceEnv "sample" (some "0000ffff00000000") none = .ok true ∧
    verifyFace modelFaceEnv "sample" (some "0000ffff10000000") none = .ok false := by
  have hs1 : IsHexCode "0000ffff00000000" := by
    unfold IsHexCode
    decide
  have hs2 : IsHexCode "0000ffff10000000" := by
    unfold IsHexCode
    decide
  have hd : (List.replicate 32 200 ++ List.replicate 32 10 : List Nat).length = 64 := by decide
  constructor
  · refine (verifyFace_tolerance_boundary modelFaceEnv "sample" "0000ffff00000000" _ none
      (by decide) rfl hd hs1 ?_).1 ?_
    · rw [modelFaceEnv_code]
      decide
    · rw [modelFaceEnv_code]
      decide
  · refine (verifyFace_tolerance_boundary modelFaceEnv "sample" "0000ffff10000000" _ none
      (by decide) rfl hd hs2 ?_).2 ?_
    · rw [modelFaceEnv_code]
      decide
    · rw [modelFaceEnv_code]
      decide

end FaceService

/-! ## Numbers: rounding -/

namespace JsNumber

theorem roundHalfEven_intCast (z : Int) : roundHalfEven (z : ℚ) = z := by
  simp [roundHalfEven]

/-- A whole number below `2 ^ 53` in absolute value is a binary64 value: rounding
leaves it as it is. -/
theorem round_intCast (k : Int) (hk : |k| < 2 ^ 53) : round (k : ℚ) = .finite (k : ℚ) := by
  by_cases h0 : k = 0
  · simp [round, h0]
  have hq0 : (k : ℚ) ≠ 0 := by exact_mod_cast h0
  have habs : |(k : ℚ)| = ((|k| : Int) : ℚ) := by simp
  have hpos : (0 : ℚ) < |(k : ℚ)| := abs_pos.2 hq0
  have h1 : (1 : ℚ) ≤ |(k : ℚ)| := by
    rw [habs]
    have : (1 : Int) ≤ |k| := Int.one_le_abs h0
    exact_mod_cast this
  have hlt : |(k : ℚ)| < (2 : ℚ) ^ (53 : Int) := by
    rw [habs]
    have h2 : (2 : ℚ) ^ (53 : Int) = ((2 ^ 53 : Int) : ℚ) := by norm_num
    rw [h2]
    exact_mod_cast hk
  have he0 : (0 : Int) ≤ Int.log 2 |(k : ℚ)| := by
    rw [← Int.zpow_le_iff_le_log (by decide) hpos]
    simpa using h1
  have he53 : Int.log 2 |(k : ℚ)| < 53 := by
    rw [← Int.lt_zpow_iff_log_lt (by decide) hpos]
    simpa using hlt
  obtain ⟨s, hs⟩ : ∃ s : Nat, max (Int.log 2 |(k : ℚ)|) (-1022) - 52 = -(s : Int) := by
    refine ⟨(52 - Int.log 2 |(k : ℚ)|).toNat, ?_⟩
    rw [Int.toNat_of_nonneg (by omega), max_eq_left (by omega)]
    omega
  have hdiv : |(k : ℚ)| / (2 : ℚ) ^ (-(s : Int)) = ((|k| * 2 ^ s : Int) : ℚ) := by
    rw [habs, zpow_neg, div_inv_eq_mul, zpow_natCast]
    push_cast
    rfl
  have hback : ((|k| * 2 ^ s : Int) : ℚ) * (2 : ℚ) ^ (-(s : Int)) = |(k : ℚ)| := by
    rw [habs, zpow_neg]
    push_cast
    rw [zpow_natCast, mul_assoc, mul_inv_cancel₀ (by positivity), mul_one]
  have hsmall : ¬ |(k : ℚ)| ≥ (2 : ℚ) ^ (1024 : Int) := by
    have : (2 : ℚ) ^ (53 : Int) < (2 : ℚ) ^ (1024 : Int) := by norm_num
    intro h
    linarith
  simp only [round, hq0, if_false, hs, hdiv, roundHalfEven_intCast, hback, hsmall]
  congr 1
  split
  · rename_i hneg
    rw [abs_of_neg hneg, neg_neg]
  · rename_i hneg
    rw [abs_of_nonneg (not_lt.1 hneg)]

theorem mul_intCast (x y : Int) (h : |x * y| < 2 ^ 53) :
    mul (.finite (x : ℚ)) (.finite (y : ℚ)) = .finite ((x * y : Int) : ℚ) := by
  have := round_intCast (x * y) h
  simpa [mul] using this

theorem add_intCast (x y : Int) (h : |x + y| < 2 ^ 53) :
    add (.finite (x : ℚ)) (.finite (y : ℚ)) = .finite ((x + y : Int) : ℚ) := by
  have := round_intCast (x + y) h
  simpa [add] using this

theorem zipWith_abs_sum_nonneg : ∀ (xs ys : List Int),
    0 ≤ (List.zipWith (fun x y => |x * y|) xs ys).sum
  | [], _ => by simp
  | _ :: _, [] => by simp
  | x :: xs, y :: ys => by
    have ih := zipWith_abs_sum_nonneg xs ys
    have hxy : 0 ≤ |x * y| := abs_nonneg _
    simp only [List.zipWith_cons_cons, List.sum_cons]
    omega

/-- The loop of `cosineSimilarity` on whole numbers, from a whole number `acc`: no
step rounds as long as the sum of the absolute values stays below `2 ^ 53`. -/
theorem foldl_intCast : ∀ (xs ys : List Int) (acc : Int),
    |acc| + (List.zipWith (fun x y => |x * y|) xs ys).sum < 2 ^ 53 →
    (List.zipWith (fun x y => mul x y) (xs.map (fun (x : Int) => JsNumber.finite (x : ℚ)))
        (ys.map (fun (y : Int) => JsNumber.finite (y : ℚ)))).foldl
      (fun sum p => add sum p) (.finite (acc : ℚ)) =
      .finite ((acc + (List.zipWith (fun x y => x * y) xs ys).sum : Int) : ℚ)
  | [], _, acc, _ => by simp
  | _ :: _, [], acc, _ => by simp
  | x :: xs, y :: ys, acc, h => by
    have hrest := zipWith_abs_sum_nonneg xs ys
    simp only [List.zipWith_cons_cons, List.sum_cons] at h
    have hacc : 0 ≤ |acc| := abs_nonneg _
    have hxy : 0 ≤ |x * y| := abs_nonneg _
    have hstep : |acc + x * y| ≤ |acc| + |x * y| := abs_add _ _
    have ih := foldl_intCast xs ys (acc + x * y) (by omega)
    simp only [List.map_cons, List.zipWith_cons_cons, List.foldl_cons, List.sum_cons]
    rw [mul_intCast x y (by omega), add_intCast acc (x * y) (by omega), ih]
    congr 2
    omega

/-- The rounding of a rational whose binary exponent is known. -/
theorem round_of_exponent (q : ℚ) (e m : Int) (hq : q ≠ 0) (hlo : (2 : ℚ) ^ e ≤ |q|)
    (hhi : |q| < (2 : ℚ) ^ (e + 1))
    (hm : roundHalfEven (|q| / (2 : ℚ) ^ (max e (-1022) - 52)) = m)
    (hfinite : (m : ℚ) * (2 : ℚ) ^ (max e (-1022) - 52) < (2 : ℚ) ^ (1024 : Int)) :
    round q = .finite (if q < 0 then -((m : ℚ) * (2 : ℚ) ^ (max e (-1022) - 52))
      else (m : ℚ) * (2 : ℚ) ^ (max e (-1022) - 52)) := by
  have hpos : (0 : ℚ) < |q| := abs_pos.2 hq
  have hlog : Int.log 2 |q| = e := by
    have h1 : e ≤ Int.log 2 |q| := by
      rw [← Int.zpow_le_iff_le_log (by decide) hpos]
      simpa using hlo
    have h2 : Int.log 2 |q| < e + 1 := by
      rw [← Int.lt_zpow_iff_log_lt (by decide) hpos]
      simpa using hhi
    omega
  simp only [round, hq, if_false, hlog, hm, ge_iff_le, not_le.2 hfinite]

theorem roundHalfEven_of_floor (x : ℚ) (f : Int) (hf : ⌊x⌋ = f) :
    roundHalfEven x =
      if x - f < 1 / 2 then f else if x - f > 1 / 2 then f + 1
      else if f % 2 = 0 then f else f + 1 := by
  simp only [roundHalfEven, hf]

/-- The product of 0.75 and 0.6666666666666666 is half way between 0.5 and the
binary64 value below it, and is rounded to 0.5. -/
theorem mul_rounds_to_half :
    mul (.finite (3 / 4)) (.finite (6004799503160661 / 9007199254740992)) = .finite (1 / 2) := by
  have hfloor : ⌊|((3 : ℚ) / 4 * (6004799503160661 / 9007199254740992))| /
      (2 : ℚ) ^ (max (-2 : Int) (-1022) - 52)⌋ = 9007199254740991 := by
    rw [Int.floor_eq_iff]
    norm_num [abs_of_pos]
  have hm := roundHalfEven_of_floor _ _ hfloor
  have hval : roundHalfEven (|((3 : ℚ) / 4 * (6004799503160661 / 9007199254740992))| /
      (2 : ℚ) ^ (max (-2 : Int) (-1022) - 52)) = 9007199254740992 := by
    rw [hm]
    norm_num [abs_of_pos]
  have h := round_of_exponent ((3 : ℚ) / 4 * (6004799503160661 / 9007199254740992)) (-2)
    9007199254740992 (by norm_num) (by norm_num [abs_of_pos]) (by norm_num [abs_of_pos])
    hval (by norm_num)
  simp only [mul, h]
  norm_num

end JsNumber

/-! ## The face service: embedding mode -/

/-- The value 0.5 is a binary64 value. -/
theorem JsNumber.round_half : JsNumber.round (1 / 2) = .finite (1 / 2) := by
  have hval : JsNumber.roundHalfEven (|((1 : ℚ) / 2)| / (2 : ℚ) ^ (max (-1 : Int) (-1022) - 52)) =
      4503599627370496 := by
    have h := JsNumber.roundHalfEven_intCast 4503599627370496
    have he : |((1 : ℚ) / 2)| / (2 : ℚ) ^ (max (-1 : Int) (-1022) - 52) =
        ((4503599627370496 : Int) : ℚ) := by
      norm_num [abs_of_pos]
    rw [he]
    exact h
  have h := JsNumber.round_of_exponent ((1 : ℚ) / 2) (-1) 4503599627370496 (by norm_num)
    (by norm_num [abs_of_pos]) (by norm_num [abs_of_pos]) hval (by norm_num)
  rw [h]
  norm_num

/-- On two arrays of whole numbers of one length, `cosineSimilarity` returns their
dot product when the sum of the absolute values of the products is below
`2 ^ 53`: no step of the loop rounds. -/
theorem cosineSimilarity_intCast (xs ys : List Int) (hlen : xs.length = ys.length)
    (h : (List.zipWith (fun x y => |x * y|) xs ys).sum < 2 ^ 53) :
    cosineSimilarity (some (xs.map (fun (x : Int) => JsNumber.finite (x : ℚ))))
        (some (ys.map (fun (y : Int) => JsNumber.finite (y : ℚ)))) =
      .finite (((List.zipWith (fun x y => x * y) xs ys).sum : Int) : ℚ) := by
  have hfold := JsNumber.foldl_intCast xs ys 0 (by simpa using h)
  simp only [cosineSimilarity, List.length_map, hlen, ne_eq, not_true_eq_false, if_false]
  simpa using hfold

/-- The sum of `cosineSimilarity` is rounded: for the arrays `[0.75]` and
`[0.6666666666666666]` it returns 0.5, while the product of the two values is
below 0.5. -/
theorem cosineSimilarity_rounds :
    cosineSimilarity (some [.finite (3 / 4)])
      (some [.finite (6004799503160661 / 9007199254740992)]) = .finite (1 / 2) ∧
    (3 / 4 : ℚ) * (6004799503160661 / 9007199254740992) < 1 / 2 := by
  refine ⟨?_, by norm_num⟩
  simp only [cosineSimilarity, List.length_cons, List.length_nil, ne_eq, not_true_eq_false,
    if_false, List.zipWith_cons_cons, List.zipWith_nil_right, List.foldl_cons, List.foldl_nil,
    JsNumber.mul_rounds_to_half]
  simp only [JsNumber.add, zero_add, JsNumber.round_half]

theorem verifyFace_embedding (env : FaceService.Env) (faceData stored : String)
    (a : List JsNumber) (storedVector : Option (List JsNumber)) (toleranceBits : Option Nat)
    (hmode : env.faceMode = "arcface") (hne : stored ≠ "")
    (hparse : env.parseStored stored = .ok storedVector)
    (hemb : env.embedding faceData = .ok a) :
    FaceService.verifyFace env faceData (some stored) toleranceBits =
      .ok (JsNumber.ge (cosineSimilarity (some a) storedVector)
        (FaceService.arcDefaultThreshold env)) := by
  simp only [FaceService.verifyFace, if_neg hne, hmode, if_true, hparse, hemb]

/-- C12 (counterexample). For the vector `(2, 0)` taken twice, `cosineSimilarity`
returns 4, which is above 1, and scaling the first argument from `(1, 0)` to
`(2, 0)` changes the result from 2 to 4: the function returns the sum of the
products of the entries and does not divide by the norms. -/
theorem cosineSimilarity_not_normalized :
    cosineSimilarity (some [.finite 2, .finite 0]) (some [.finite 2, .finite 0]) = .finite 4 ∧
    (1 : ℚ) < 4 ∧
    cosineSimilarity (some [.finite 1, .finite 0]) (some [.finite 2, .finite 0]) = .finite 2 ∧
    List.map (fun x => JsNumber.mul (.finite 2) x) [.finite 1, .finite 0] =
      [.finite 2, .finite 0] := by
  have h1 := cosineSimilarity_intCast [2, 0] [2, 0] rfl (by norm_num)
  have h2 := cosineSimilarity_intCast [1, 0] [2, 0] rfl (by norm_num)
  have h3 := JsNumber.mul_intCast 2 1 (by norm_num)
  have h4 := JsNumber.mul_intCast 2 0 (by norm_num)
  refine ⟨by simpa using h1, by norm_num, by simpa using h2, ?_⟩
  simp only [List.map_cons, List.map_nil]
  have h3b : JsNumber.mul (.finite 2) (.finite 1) = .finite 2 := by simpa using h3
  have h4b : JsNumber.mul (.finite 2) (.finite 0) = .finite 0 := by simpa using h4
  rw [h3b, h4b]

/-- C12 (amended). For two arrays of numbers of one length, `cosineSimilarity`
returns their dot product as binary64 arithmetic computes it, without a division
by the norms: every product is rounded, and the products are added from the left,
from 0, every sum being rounded.  It is the exact dot product on whole numbers
when the sum of the absolute values of the products is below `2 ^ 53`.  In
embedding mode `verifyFace` accepts exactly when the value returned for the
presented embedding and the stored one is at least the threshold, which is 0.5
when `ARC_SIM_THRESHOLD` is not set. -/
theorem cosineSimilarity_dot_product (a b : List JsNumber) (hlen : a.length = b.length) :
    cosineSimilarity (some a) (some b) =
      (List.zipWith (fun x y => JsNumber.mul x y) a b).foldl
        (fun sum p => JsNumber.add sum p) (.finite 0) ∧
    (∀ (xs ys : List Int), a = xs.map (fun (x : Int) => JsNumber.finite (x : ℚ)) →
      b = ys.map (fun (y : Int) => JsNumber.finite (y : ℚ)) →
      (List.zipWith (fun x y => |x * y|) xs ys).sum < 2 ^ 53 →
      cosineSimilarity (some a) (some b) =
        .finite (((List.zipWith (fun x y => x * y) xs ys).sum : Int) : ℚ)) ∧
    (∀ (env : FaceService.Env) (faceData stored : String) (toleranceBits : Option Nat),
      env.faceMode = "arcface" → stored ≠ "" → env.parseStored stored = .ok (some b) →
      env.embedding faceData = .ok a →
      FaceService.verifyFace env faceData (some stored) toleranceBits =
        .ok (JsNumber.ge (cosineSimilarity (some a) (some b))
          (env.arcSimThreshold.getD (.finite (1 / 2))))) := by
  refine ⟨?_, ?_, ?_⟩
  · simp only [cosineSimilarity, hlen, ne_eq, not_true_eq_false, if_false]
  · intro xs ys ha hb hsum
    have hl : xs.length = ys.length := by
      rw [ha, hb] at hlen
      simpa using hlen
    rw [ha, hb]
    exact cosineSimilarity_intCast xs ys hl hsum
  · intro env faceData stored toleranceBits hmode hne hparse hemb
    rw [verifyFace_embedding env faceData stored a (some b) toleranceBits hmode hne hparse hemb]
    rfl

/-- The amended C12 at the vectors `(2, 0)` and `(2, 0)` and the model service in
embedding mode: the sample is accepted, the dot product 4 being above 0.5. -/
theorem cosineSimilarity_dot_product_witness :
    cosineSimilarity (some [.finite 2, .finite 0]) (some [.finite 2, .finite 0]) = .finite 4 ∧
    FaceService.verifyFace modelArcEnv "sample" (some "[2,0]") none = .ok true := by
  have h := cosineSimilarity_dot_product [.finite 2, .finite 0] [.finite 2, .finite 0] rfl
  have hdot : cosineSimilarity (some [.finite 2, .finite 0]) (some [.finite 2, .finite 0]) =
      .finite 4 := by
    have h2 := h.2.1 [2, 0] [2, 0] (by simp) (by simp) (by norm_num)
    simpa using h2
  refine ⟨hdot, ?_⟩
  rw [h.2.2 modelArcEnv "sample" "[2,0]" none rfl (by decide) rfl rfl, hdot]
  simp [modelArcEnv, JsNumber.ge]
  norm_num

/-! ## The voter login -/

/-- C13 (code defect). A voter without a face template logs in with a face sample
and no fingerprint: the sample is stored as the voter's template and the login
counts as biometrically valid, although no factor has succeeded.  In general,
whenever the decision stores a new template, the fingerprint has not matched:
enrollment sits in the branch taken when `fingerprintMatched` is false. -/
theorem enrollment_without_other_factor :
    loginBiometric modelLoginServices none none none (some "face sample") =
      .ok { faceTemplateHash := some "template-1", fingerprintMatched := false,
            faceMatched := true } ∧
    (∀ (services : LoginServices) (fingerprintHash faceTemplateHash : Option String)
      (fingerprintData faceData : Option String) (d : LoginDecision),
      loginBiometric services fingerprintHash faceTemplateHash fingerprintData faceData = .ok d →
      d.faceTemplateHash ≠ faceTemplateHash →
      d.fingerprintMatched = false ∧ d.biometricValid = true) := by
  constructor
  · rfl
  · intro services fingerprintHash faceTemplateHash fingerprintData faceData d h hne
    unfold loginBiometric at h
    simp only at h
    split at h
    · cases h
    · rename_i fm hfm
      split at h
      · rename_i hcond
        simp only [Bool.and_eq_true, Bool.not_eq_true'] at hcond
        split at h
        · split at h
          · cases h
            exact absurd rfl hne
          · split at h
            · cases h
              exact ⟨hcond.1, by simp [LoginDecision.biometricValid]⟩
            · cases h
              exact absurd rfl hne
        · split at h
          · cases h
          · cases h
            exact absurd rfl hne
      · cases h
        exact absurd rfl hne

/-! ## The cast handler: scope of the election -/

theorem jsString_eq_iff (x : Option String) (id : String) (hid : id.length = 24) :
    jsString x = id ↔ x = some id := by
  cases x with
  | none =>
    simp only [jsString]
    constructor
    · intro h
      rw [← h] at hid
      exact absurd hid (by decide)
    · intro h
      cases h
  | some s => simp [jsString]

/-- C14 (counterexample). An election is bound to a ward and the voter is assigned
to the ward with the same identifier, but the `Ward` collection holds no such
ward: the scope check passes, since under a ward binding it compares the two
identifiers and does not look the ward up. -/
theorem scopeCheck_passes_without_ward :
    wardElection.wardId = some "64b7f0c2a1d2e3f4a5b6c7d8" ∧
    ([] : List Ward).find? (fun w => w._id = "64b7f0c2a1d2e3f4a5b6c7d8") = none ∧
    scopeCheck [] wardVoter wardElection = none := by
  refine ⟨rfl, rfl, ?_⟩
  decide

/-- C14 (amended). The scope check looks at the first binding of the election
among ward, village and constituency.  Under a ward binding it passes exactly when
the voter's ward identifier is the election's; under a village (constituency)
binding exactly when the voter has a ward, the ward exists and its village
(constituency) is the election's.  Every rejection has status 403.  A voter with
no ward is rejected under each binding, and a voter whose ward does not exist is
rejected under a village or constituency binding.  The identifiers of the
bindings are object identifiers, of 24 characters. -/
theorem scopeCheck_spec (wards : List Ward) (user : Voter) (election : Election)
    (hid : ∀ id, election.wardId = some id ∨ election.villageId = some id ∨
      election.constituencyId = some id → id.length = 24) :
    (∀ w, election.wardId = some w →
      (scopeCheck wards user election = none ↔ user.wardId = some w)) ∧
    (∀ v, election.wardId = none → election.villageId = some v →
      (scopeCheck wards user election = none ↔
        ∃ id ward, user.wardId = some id ∧ wards.find? (fun x => x._id = id) = some ward ∧
          ward.villageId = some v)) ∧
    (∀ c, election.wardId = none → election.villageId = none →
      election.constituencyId = some c →
      (scopeCheck wards user election = none ↔
        ∃ id ward, user.wardId = some id ∧ wards.find? (fun x => x._id = id) = some ward ∧
          ward.constituencyId = some c)) ∧
    (∀ response, scopeCheck wards user election = some response →
      ∃ message, response = .failed 403 message) ∧
    (election.wardId.isSome ∨ election.villageId.isSome ∨ election.constituencyId.isSome →
      user.wardId = none → ∃ message, scopeCheck wards user election = some (.failed 403 message)) ∧
    (election.wardId = none →
      election.villageId.isSome ∨ election.constituencyId.isSome →
      (∀ id, user.wardId = some id → wards.find? (fun x => x._id = id) = none) →
      ∃ message, scopeCheck wards user election = some (.failed 403 message)) := by
  have hA : ∀ w, election.wardId = some w →
      (scopeCheck wards user election = none ↔ user.wardId = some w) := by
    intro w hw
    have h24 := hid w (Or.inl hw)
    rw [← jsString_eq_iff user.wardId w h24]
    by_cases h : jsString user.wardId = w
    · simp [scopeCheck, hw, h, jsString]
    · simp only [scopeCheck, hw, Option.isSome_some, if_true]
      have h2 : jsString user.wardId ≠ jsString (some w) := h
      simp [h2, h]
  have hB : ∀ v, election.wardId = none → election.villageId = some v →
      (scopeCheck wards user election = none ↔
        ∃ id ward, user.wardId = some id ∧ wards.find? (fun x => x._id = id) = some ward ∧
          ward.villageId = some v) := by
    intro v hw hv
    have h24 := hid v (Or.inr (Or.inl hv))
    cases hu : user.wardId with
    | none => simp [scopeCheck, hw, hv, hu]
    | some id =>
      cases hf : wards.find? (fun x => decide (x._id = id)) with
      | none => simp [scopeCheck, hw, hv, hu, hf]
      | some ward =>
        have hj := jsString_eq_iff ward.villageId v h24
        by_cases h : jsString ward.villageId = v
        · have h2 : jsString ward.villageId = jsString (some v) := h
          simp [scopeCheck, hw, hv, hu, hf, h2, hj.1 h]
        · have h2 : jsString ward.villageId ≠ jsString (some v) := h
          have h3 : ¬ ward.villageId = some v := fun e => h (hj.2 e)
          simp [scopeCheck, hw, hv, hu, hf, h2, h3]
  have hC : ∀ c, election.wardId = none → election.villageId = none →
      election.constituencyId = some c →
      (scopeCheck wards user election = none ↔
        ∃ id ward, user.wardId = some id ∧ wards.find? (fun x => x._id = id) = some ward ∧
          ward.constituencyId = some c) := by
    intro c hw hv hc
    have h24 := hid c (Or.inr (Or.inr hc))
    cases hu : user.wardId with
    | none => simp [scopeCheck, hw, hv, hc, hu]
    | some id =>
      cases hf : wards.find? (fun x => decide (x._id = id)) with
      | none => simp [scopeCheck, hw, hv, hc, hu, hf]
      | some ward =>
        have hj := jsString_eq_iff ward.constituencyId c h24
        by_cases h : jsString ward.constituencyId = c
        · have h2 : jsString ward.constituencyId = jsString (some c) := h
          simp [scopeCheck, hw, hv, hc, hu, hf, h2, hj.1 h]
        · have h2 : jsString ward.constituencyId ≠ jsString (some c) := h
          have h3 : ¬ ward.constituencyId = some c := fun e => h (hj.2 e)
          simp [scopeCheck, hw, hv, hc, hu, hf, h2, h3]
  have hD : ∀ response, scopeCheck wards user election = some response →
      ∃ message, response = .failed 403 message := by
    intro response h
    unfold scopeCheck at h
    split at h
    · split at h
      · cases h; exact ⟨_, rfl⟩
      · cases h
    · split at h
      · simp only at h
        split at h
        · cases h; exact ⟨_, rfl⟩
        · split at h
          · cases h; exact ⟨_, rfl⟩
          · cases h
      · split at h
        · simp only at h
          split at h
          · cases h; exact ⟨_, rfl⟩
          · split at h
            · cases h; exact ⟨_, rfl⟩
            · cases h
        · cases h
  have hreject : scopeCheck wards user election ≠ none →
      ∃ message, scopeCheck wards user election = some (.failed 403 message) := by
    intro h
    cases hs : scopeCheck wards user election with
    | none => exact absurd hs h
    | some response =>
      obtain ⟨message, rfl⟩ := hD response hs
      exact ⟨message, rfl⟩
  refine ⟨hA, hB, hC, hD, ?_, ?_⟩
  · intro hbound hnone
    apply hreject
    intro hpass
    cases hw : election.wardId with
    | some w =>
      have := (hA w hw).1 hpass
      rw [hnone] at this
      cases this
    | none =>
      cases hv : election.villageId with
      | some v =>
        obtain ⟨id, _, h1, _⟩ := (hB v hw hv).1 hpass
        rw [hnone] at h1
        cases h1
      | none =>
        cases hc : election.constituencyId with
        | some c =>
          obtain ⟨id, _, h1, _⟩ := (hC c hw hv hc).1 hpass
          rw [hnone] at h1
          cases h1
        | none => simp [hw, hv, hc] at hbound
  · intro hw hbound hmissing
    apply hreject
    intro hpass
    cases hv : election.villageId with
    | some v =>
      obtain ⟨id, ward, h1, h2, _⟩ := (hB v hw hv).1 hpass
      rw [hmissing id h1] at h2
      cases h2
    | none =>
      cases hc : election.constituencyId with
      | some c =>
        obtain ⟨id, ward, h1, h2, _⟩ := (hC c hw hv hc).1 hpass
        rw [hmissing id h1] at h2
        cases h2
      | none => simp [hv, hc] at hbound

/-- The amended C14 at the election bound to a ward and the voter of that ward. -/
theorem scopeCheck_spec_witness :
    (∀ id, wardElection.wardId = some id ∨ wardElection.villageId = some id ∨
      wardElection.constituencyId = some id → id.length = 24) ∧
    (scopeCheck [] wardVoter wardElection = none ↔
      wardVoter.wardId = some "64b7f0c2a1d2e3f4a5b6c7d8") := by
  have hid : ∀ id, wardElection.wardId = some id ∨ wardElection.villageId = some id ∨
      wardElection.constituencyId = some id → id.length = 24 := by
    intro id h
    simp only [wardElection, Option.some.injEq, reduceCtorEq, or_false] at h
    rw [← h]
    decide
  exact ⟨hid, (scopeCheck_spec [] wardVoter wardElection hid).1 _ rfl⟩

/-! ## The cast handler: tallies -/

theorem updateOne_eq_map {α κ : Type} (key : α → κ) (p : α → Bool) (f : α → α) (k : κ)
    (hp : ∀ x, p x = true → key x = k) :
    ∀ (l : List α), (l.map key).Nodup →
      updateOne p f l = l.map (fun x => if p x then f x else x)
  | [], _ => rfl
  | d :: ds, hnd => by
    rw [List.map_cons, List.nodup_cons] at hnd
    by_cases hd : p d = true
    · have hrest : ∀ x ∈ ds, p x = false := by
        intro x hx
        by_contra hpx
        have hpx2 : p x = true := by simpa using hpx
        apply hnd.1
        rw [hp d hd, ← hp x hpx2]
        exact List.mem_map_of_mem key hx
      have hmap : ds.map (fun x => if p x then f x else x) = ds := by
        conv_rhs => rw [← List.map_id ds]
        apply List.map_congr_left
        intro x hx
        simp [hrest x hx]
      simp only [updateOne, hd, if_true, List.map_cons, hmap]
    · have hd2 : p d = false := by simpa using hd
      simp [updateOne, hd2, updateOne_eq_map key p f k hp ds hnd.2]

theorem updateOne_map_of_invariant {α β : Type} (p : α → Bool) (f : α → α) (g : α → β)
    (hg : ∀ x, g (f x) = g x) : ∀ (l : List α), (updateOne p f l).map g = l.map g
  | [] => rfl
  | d :: ds => by
    by_cases hd : p d = true
    · simp [updateOne, hd, hg]
    · have hd2 : p d = false := by simpa using hd
      simp [updateOne, hd2, updateOne_map_of_invariant p f g hg ds]

theorem updateOne_filter_length {α : Type} (p q : α → Bool) (f : α → α)
    (hq : ∀ x, q (f x) = q x) :
    ∀ (l : List α), ((updateOne p f l).filter q).length = (l.filter q).length
  | [] => rfl
  | d :: ds => by
    by_cases hd : p d = true
    · by_cases hqd : q d = true <;> simp [updateOne, hd, List.filter_cons, hq, hqd]
    · have hd2 : p d = false := by simpa using hd
      simp only [updateOne, hd2, Bool.false_eq_true, if_false, List.filter_cons]
      split <;> simp [updateOne_filter_length p q f hq ds]

/-- The result of a re-vote: the state and the response of `castVote` when the
voter has a ballot in the election and re-voting is allowed. -/
theorem castVote_revote (hash : String → String) (db : Db) (req : CastRequest) (existing : Vote)
    (hfind : db.votes.find? (ballotFilter req.voterId req.electionId) = some existing) :
    ∃ (proof : List MerkleTree.ProofElement) (root : Option String),
      castVote hash true db req =
        ({ db with
            candidates := updateOne (candidateFilter req.candidateId req.electionId)
              (fun c => { c with voteCount := c.voteCount + 1 })
              (updateOne (candidateFilter existing.candidateId req.electionId)
                (fun c => { c with voteCount := c.voteCount - 1 }) db.candidates),
            votes := updateOne (ballotFilter req.voterId req.electionId)
              (fun v => { v with merkleProof := proof })
              (updateOne (ballotFilter req.voterId req.electionId)
                (fun v => { v with
                  candidateId := req.candidateId, position := req.position,
                  boothId := req.boothId, encryptedVote := req.encryptedVote,
                  voteHash := req.voteHash, isVerified := true }) db.votes),
            elections := updateOne (fun (e : Election) => e._id = req.electionId)
              (fun e => { e with merkleRoot := root }) db.elections },
          .created existing.voteId proof true) := by
  obtain ⟨hp, as, bs, hsplit, has⟩ := List.find?_eq_some.1 hfind
  have has2 : ∀ a ∈ as, ballotFilter req.voterId req.electionId a = false := by
    intro a ha
    simpa using has a ha
  have hel : existing.electionId = req.electionId := by
    simp only [ballotFilter, Bool.and_eq_true, decide_eq_true_eq] at hp
    exact hp.2
  let upd : Vote → Vote := fun v => { v with
    candidateId := req.candidateId, position := req.position, boothId := req.boothId,
    encryptedVote := req.encryptedVote, voteHash := req.voteHash, isVerified := true }
  have hupd : updateOne (ballotFilter req.voterId req.electionId) upd db.votes =
      as ++ upd existing :: bs := by
    rw [hsplit]
    exact updateOne_split _ _ as existing bs has2 hp
  have hmem : req.voteHash ∈ ((as ++ upd existing :: bs).filter
      (fun v => decide (v.electionId = req.electionId))).map (fun v => v.voteHash) := by
    refine List.mem_map.2 ⟨upd existing, ?_, rfl⟩
    simp [upd, hel]
  obtain ⟨proof, hproof⟩ := getProof_isOk hash _ _ hmem
  rw [← hupd] at hproof
  refine ⟨proof, (MerkleTree.new hash
    (((updateOne (ballotFilter req.voterId req.electionId) upd db.votes).filter
      (fun v => decide (v.electionId = req.electionId))).map (fun v => v.voteHash))).getRoot, ?_⟩
  simp only [castVote, checkVotingStatus, hfind, if_true, castPersist, hproof,
    Option.isSome_some, upd]

/-- C15. With re-vote enabled, a voter whose ballot names the candidate `C1` casts
for another candidate `C2` in the same election: the cast succeeds as a re-vote,
the `totalVotes` of every election is unchanged, the count of `C1` in the election
is lower by 1, the count of `C2` is higher by 1, every other candidate document is
unchanged, and one ballot exists for the voter in the election.  Candidates are
told apart by `candidateId` and ballots by voter and election, as the unique
indexes of the two collections make sure. -/
theorem revote_neutrality (hash : String → String) (db : Db) (req : CastRequest)
    (existing : Vote)
    (hfind : db.votes.find? (ballotFilter req.voterId req.electionId) = some existing)
    (hne : req.candidateId ≠ existing.candidateId)
    (hcandidates : (db.candidates.map (fun c => c.candidateId)).Nodup)
    (hballots : (db.votes.filter (ballotFilter req.voterId req.electionId)).length = 1) :
    (∃ proof, (castVote hash true db req).2 = .created existing.voteId proof true) ∧
    (castVote hash true db req).1.elections.map (fun e => (e._id, e.totalVotes)) =
      db.elections.map (fun e => (e._id, e.totalVotes)) ∧
    (castVote hash true db req).1.candidates = db.candidates.map (fun c =>
      if candidateFilter existing.candidateId req.electionId c then
        { c with voteCount := c.voteCount - 1 }
      else if candidateFilter req.candidateId req.electionId c then
        { c with voteCount := c.voteCount + 1 }
      else c) ∧
    ((castVote hash true db req).1.votes.filter
      (ballotFilter req.voterId req.electionId)).length = 1 ∧
    (∀ v ∈ (castVote hash true db req).1.votes.filter (ballotFilter req.voterId req.electionId),
      v.candidateId = req.candidateId) := by
  obtain ⟨proof, root, h⟩ := castVote_revote hash db req existing hfind
  rw [h]
  refine ⟨⟨proof, rfl⟩, ?_, ?_, ?_, ?_⟩
  · exact updateOne_map_of_invariant (fun (e : Election) => decide (e._id = req.electionId))
      (fun e => { e with merkleRoot := root }) (fun e => (e._id, e.totalVotes))
      (fun _ => rfl) db.elections
  · simp only
    have h1 := updateOne_eq_map (fun (c : Candidate) => c.candidateId)
      (candidateFilter existing.candidateId req.electionId)
      (fun c => { c with voteCount := c.voteCount - 1 }) existing.candidateId
      (by intro x hx; simp only [candidateFilter, Bool.and_eq_true, decide_eq_true_eq] at hx
          exact hx.1) db.candidates hcandidates
    rw [h1]
    have hnd2 : ((db.candidates.map (fun c =>
        if candidateFilter existing.candidateId req.electionId c = true then
          { c with voteCount := c.voteCount - 1 } else c)).map
        (fun c => c.candidateId)).Nodup := by
      rw [List.map_map]
      have : ((fun (c : Candidate) => c.candidateId) ∘ fun c =>
          if candidateFilter existing.candidateId req.electionId c = true then
            { c with voteCount := c.voteCount - 1 } else c) = fun c => c.candidateId := by
        funext c
        simp only [Function.comp]
        split <;> rfl
      rw [this]
      exact hcandidates
    have h2 := updateOne_eq_map (fun (c : Candidate) => c.candidateId)
      (candidateFilter req.candidateId req.electionId)
      (fun c => { c with voteCount := c.voteCount + 1 }) req.candidateId
      (by intro x hx; simp only [candidateFilter, Bool.and_eq_true, decide_eq_true_eq] at hx
          exact hx.1) _ hnd2
    rw [h2, List.map_map]
    apply List.map_congr_left
    intro c _
    simp only [Function.comp]
    by_cases hc1 : candidateFilter existing.candidateId req.electionId c = true
    · have hc2 : candidateFilter req.candidateId req.electionId
          { c with voteCount := c.voteCount - 1 } = false := by
        simp only [candidateFilter, Bool.and_eq_true, decide_eq_true_eq] at hc1
        simp only [candidateFilter, hc1.1, Bool.and_eq_false_imp, decide_eq_true_eq]
        intro e
        exact absurd e.symm hne
      simp [hc1, hc2]
    · simp [hc1]
  · simp only
    rw [updateOne_filter_length (ballotFilter req.voterId req.electionId)
        (ballotFilter req.voterId req.electionId)
        (fun v => { v with merkleProof := proof }) (fun _ => rfl),
      updateOne_filter_length (ballotFilter req.voterId req.electionId)
        (ballotFilter req.voterId req.electionId)
        (fun v => { v with
          candidateId := req.candidateId, position := req.position, boothId := req.boothId,
          encryptedVote := req.encryptedVote, voteHash := req.voteHash, isVerified := true })
        (fun _ => rfl)]
    exact hballots
  · simp only
    intro v hv
    obtain ⟨hp, as, bs, hsplit, has⟩ := List.find?_eq_some.1 hfind
    have has2 : ∀ a ∈ as, ballotFilter req.voterId req.electionId a = false := by
      intro a ha
      simpa using has a ha
    have hbs : ∀ b ∈ bs, ballotFilter req.voterId req.electionId b = false := by
      intro b hb
      by_contra hpb
      have hpb2 : ballotFilter req.voterId req.electionId b = true := by simpa using hpb
      rw [hsplit] at hballots
      have hfa : as.filter (ballotFilter req.voterId req.electionId) = [] := by
        rw [List.filter_eq_nil_iff]
        intro a ha
        simp [has2 a ha]
      have hlen : 1 ≤ (bs.filter (ballotFilter req.voterId req.electionId)).length := by
        apply List.length_pos_of_mem
        exact List.mem_filter.2 ⟨hb, hpb2⟩
      simp only [List.filter_append, hfa, List.nil_append, List.filter_cons, hp, if_true,
        List.length_cons] at hballots
      omega
    have hpu : ballotFilter req.voterId req.electionId { existing with
        candidateId := req.candidateId, position := req.position, boothId := req.boothId,
        encryptedVote := req.encryptedVote, voteHash := req.voteHash, isVerified := true }
        = true := hp
    have hpu2 : ballotFilter req.voterId req.electionId { existing with
        candidateId := req.candidateId, position := req.position, boothId := req.boothId,
        encryptedVote := req.encryptedVote, voteHash := req.voteHash, isVerified := true,
        merkleProof := proof } = true := hp
    rw [hsplit, updateOne_split (ballotFilter req.voterId req.electionId)
        (fun v => { v with
          candidateId := req.candidateId, position := req.position, boothId := req.boothId,
          encryptedVote := req.encryptedVote, voteHash := req.voteHash, isVerified := true })
        as existing bs has2 hp,
      updateOne_split (ballotFilter req.voterId req.electionId)
        (fun v => { v with merkleProof := proof }) as _ bs has2 hpu] at hv
    simp only [List.filter_append, List.filter_cons, List.mem_append, List.mem_filter] at hv
    rcases hv with ⟨ha, hpa⟩ | hv
    · rw [has2 v ha] at hpa
      cases hpa
    · rw [if_pos hpu2] at hv
      simp only [List.mem_cons, List.mem_filter] at hv
      rcases hv with rfl | ⟨hb, hpb⟩
      · rfl
      · rw [hbs v hb] at hpb
        cases hpb

theorem afterFirstCast_votes (hash : String → String) :
    (afterFirstCast hash).votes =
      [{ voteId := "vote-1", voterId := "V1", electionId := "E", candidateId := "C1",
         boothId := "WEB-CLIENT", position := "President", encryptedVote := "enc-1",
         voteHash := hash "v1", merkleProof := [], isVerified := true }] := by
  simp [afterFirstCast, castVote, castPersist, checkVotingStatus, emptyElection, firstCast,
    updateOne, ballotFilter, candidateFilter, MerkleTree.new, MerkleTree.getProof,
    MerkleTree.getProofLoop, MerkleTree.buildTree, MerkleTree.buildLevels,
    MerkleTree.nextLevel, List.indexOf_cons, MerkleTree.getRoot]

theorem afterFirstCast_candidates (hash : String → String) :
    (afterFirstCast hash).candidates =
      [{ candidateId := "C1", electionId := "E", isActive := true, voteCount := 1 },
       { candidateId := "C2", electionId := "E", isActive := true, voteCount := 0 }] := by
  simp [afterFirstCast, castVote, castPersist, checkVotingStatus, emptyElection, firstCast,
    updateOne, ballotFilter, candidateFilter, MerkleTree.new, MerkleTree.getProof,
    MerkleTree.getProofLoop, MerkleTree.buildTree, MerkleTree.buildLevels,
    MerkleTree.nextLevel, List.indexOf_cons, MerkleTree.getRoot]

/-- C15 at the re-vote of the voter `V1`, from the candidate `C1` to the candidate
`C2`, after the first cast: the counts go from 1 and 0 to 0 and 1. -/
theorem revote_neutrality_witness :
    (castVote modelHash true (afterFirstCast modelHash) (revoteCast modelHash)).1.elections.map
        (fun e => (e._id, e.totalVotes)) =
      (afterFirstCast modelHash).elections.map (fun e => (e._id, e.totalVotes)) ∧
    (castVote modelHash true (afterFirstCast modelHash) (revoteCast modelHash)).1.candidates =
      [{ candidateId := "C1", electionId := "E", isActive := true, voteCount := 0 },
       { candidateId := "C2", electionId := "E", isActive := true, voteCount := 1 }] ∧
    ((castVote modelHash true (afterFirstCast modelHash) (revoteCast modelHash)).1.votes.filter
      (ballotFilter "V1" "E")).length = 1 := by
  have h := revote_neutrality modelHash (afterFirstCast modelHash) (revoteCast modelHash)
    { voteId := "vote-1", voterId := "V1", electionId := "E", candidateId := "C1",
      boothId := "WEB-CLIENT", position := "President", encryptedVote := "enc-1",
      voteHash := modelHash "v1", merkleProof := [], isVerified := true }
    (by rw [afterFirstCast_votes]; rfl) (by decide)
    (by rw [afterFirstCast_candidates]; decide)
    (by rw [afterFirstCast_votes]; rfl)
  refine ⟨h.2.1, ?_, h.2.2.2.1⟩
  rw [h.2.2.1, afterFirstCast_candidates]
  rfl

theorem revoteAllowed_values :
    revoteAllowed none = false ∧ revoteAllowed (some "false") = false ∧
    revoteAllowed (some "true") = true ∧ revoteAllowed (some "TRUE") = true := by
  decide

/-- C16. With re-vote disabled, that is when the test of `ALLOW_REVOTE` is false, a
cast request of a voter who has a ballot in the election is answered by
`checkVotingStatus` with status 400, and the database is left as it was: ballots,
candidate counts, `totalVotes` and `merkleRoot`.  The answer is given before the
handler and its encryption run: it is the same whatever the checks of the handler
and the encryption would have returned. -/
theorem duplicate_cast_rejected {J : Type} (lib : EncryptionService.Primitives)
    (json : EncryptionService.Json J) (hash : String → String) (ALLOW_REVOTE : Option String)
    (db : Db) (req : CastRequest) (existing : Vote) (handlerChecks : Option CastResponse)
    (voteData : J) (electionKey : EncryptionService.Key) (iv : EncryptionService.Bytes)
    (hoff : revoteAllowed ALLOW_REVOTE = false)
    (hfind : db.votes.find? (ballotFilter req.voterId req.electionId) = some existing) :
    checkVotingStatus (revoteAllowed ALLOW_REVOTE) db req.voterId req.electionId =
      .error (.failed 400 "You have already voted in this election") ∧
    castRoute lib json hash (revoteAllowed ALLOW_REVOTE) db req handlerChecks voteData
      electionKey iv = (db, .failed 400 "You have already voted in this election") ∧
    castVote hash (revoteAllowed ALLOW_REVOTE) db req =
      (db, .failed 400 "You have already voted in this election") := by
  have hc : checkVotingStatus (revoteAllowed ALLOW_REVOTE) db req.voterId req.electionId =
      .error (.failed 400 "You have already voted in this election") := by
    simp [checkVotingStatus, hfind, hoff]
  refine ⟨hc, ?_, ?_⟩
  · simp only [castRoute, hc]
  · simp only [castVote, hc]

/-- C16 at a second cast of the voter `V1` when `ALLOW_REVOTE` is not set. -/
theorem duplicate_cast_rejected_witness :
    castRoute EncryptionService.modelPrimitives EncryptionService.modelJson modelHash
      (revoteAllowed none) (afterFirstCast modelHash) (revoteCast modelHash) none
      ("V1", "E", "C2") (.string "default-election-key") (List.replicate 12 0) =
      (afterFirstCast modelHash, .failed 400 "You have already voted in this election") :=
  (duplicate_cast_rejected EncryptionService.modelPrimitives EncryptionService.modelJson
    modelHash none (afterFirstCast modelHash) (revoteCast modelHash)
    { voteId := "vote-1", voterId := "V1", electionId := "E", candidateId := "C1",
      boothId := "WEB-CLIENT", position := "President", encryptedVote := "enc-1",
      voteHash := modelHash "v1", merkleProof := [], isVerified := true }
    none ("V1", "E", "C2") (.string "default-election-key") (List.replicate 12 0)
    (by decide) (by rw [afterFirstCast_votes]; rfl)).2.1

/-! ## The Merkle ledger: determinism and tamper detection -/

namespace MerkleTree

/-- C18. Two instances built from the same ordered list of leaf values have the
same leaves, the same levels and the same root, and calling `buildTree` again on
an instance returns the levels it holds. -/
theorem ledger_deterministic (hash : String → String) (L1 L2 : List String) (h : L1 = L2) :
    (new hash L1).leaves = (new hash L2).leaves ∧
    (new hash L1).tree = (new hash L2).tree ∧
    (new hash L1).getRoot = (new hash L2).getRoot ∧
    buildTree hash (new hash L1).leaves = (new hash L1).tree ∧
    getRoot { new hash L1 with tree := buildTree hash (new hash L1).leaves } =
      (new hash L1).getRoot := by
  subst h
  exact ⟨rfl, rfl, rfl, rfl, rfl⟩

/-- C18 at the list `a, b, c`. -/
theorem ledger_deterministic_witness :
    (new modelHash ["a", "b", "c"]).tree = (new modelHash ["a", "b", "c"]).tree ∧
    buildTree modelHash (new modelHash ["a", "b", "c"]).leaves =
      (new modelHash ["a", "b", "c"]).tree :=
  ⟨(ledger_deterministic modelHash ["a", "b", "c"] ["a", "b", "c"] rfl).2.1,
    (ledger_deterministic modelHash ["a", "b", "c"] ["a", "b", "c"] rfl).2.2.2.1⟩

/-- One step of the loop of `verifyProof`. -/
theorem proofStep_injective {hash : String → String} (hinj : Function.Injective hash)
    (e : ProofElement) (x y : String)
    (h : (if e.position = "left" then hash (e.hash ++ x) else hash (x ++ e.hash)) =
      (if e.position = "left" then hash (e.hash ++ y) else hash (y ++ e.hash))) : x = y := by
  split at h
  · exact (String.append_right_inj_iff _ _ _).1 (hinj h)
  · have h1 := congrArg String.data (hinj h)
    simp only [String.data_append] at h1
    exact String.ext (List.append_cancel_right h1)

theorem proofLoop_injective {hash : String → String} (hinj : Function.Injective hash) :
    ∀ (proof : List ProofElement) (x y : String),
      proof.foldl (fun currentHash proofElement =>
        if proofElement.position = "left" then hash (proofElement.hash ++ currentHash)
        else hash (currentHash ++ proofElement.hash)) x =
      proof.foldl (fun currentHash proofElement =>
        if proofElement.position = "left" then hash (proofElement.hash ++ currentHash)
        else hash (currentHash ++ proofElement.hash)) y → x = y
  | [], _, _, h => h
  | e :: rest, x, y, h => by
    rw [List.foldl_cons, List.foldl_cons] at h
    exact proofStep_injective hinj e x y (proofLoop_injective hinj rest _ _ h)

/-- C19. For a collision-free hash, when `verifyProof` accepts a leaf, a proof and
a root, it rejects after a change of the leaf value alone, of the hash of one
proof step alone, or of the root alone. -/
theorem verifyProof_detects_tampering (hash : String → String) (hinj : Function.Injective hash)
    (leaf : String) (proof : List ProofElement) (root : Option String)
    (h : verifyProof hash leaf proof root = true) :
    (∀ leaf2, leaf2 ≠ leaf → verifyProof hash leaf2 proof root = false) ∧
    (∀ (before after : List ProofElement) (e : ProofElement) (hash2 : String),
      proof = before ++ e :: after → hash2 ≠ e.hash →
      verifyProof hash leaf (before ++ { e with hash := hash2 } :: after) root = false) ∧
    (∀ root2, root2 ≠ root → verifyProof hash leaf proof root2 = false) := by
  simp only [verifyProof, decide_eq_true_eq] at h
  refine ⟨?_, ?_, ?_⟩
  · intro leaf2 hne
    simp only [verifyProof, decide_eq_false_iff_not]
    intro h2
    rw [← h] at h2
    exact hne (hinj (proofLoop_injective hinj proof _ _ (Option.some.inj h2)))
  · intro before after e hash2 hsplit hne
    simp only [verifyProof, decide_eq_false_iff_not]
    intro h2
    rw [← h, hsplit] at h2
    have h3 := Option.some.inj h2
    rw [List.foldl_append, List.foldl_append, List.foldl_cons, List.foldl_cons] at h3
    have h4 := proofLoop_injective hinj after _ _ h3
    simp only at h4
    split at h4
    · have h5 := congrArg String.data (hinj h4)
      simp only [String.data_append] at h5
      exact hne (String.ext (List.append_cancel_right h5))
    · exact hne ((String.append_right_inj_iff _ _ _).1 (hinj h4))
  · intro root2 hne
    simp only [verifyProof, decide_eq_false_iff_not]
    intro h2
    exact hne (h2.symm.trans h)

/-- C19 at the tree of the leaves `a` and `b` and the proof of the leaf `a`. -/
theorem verifyProof_detects_tampering_witness :
    Function.Injective modelHash ∧
    verifyProof modelHash "a" [{ hash := modelHash "b", position := "right" }]
      (some (modelHash (modelHash "a" ++ modelHash "b"))) = true ∧
    verifyProof modelHash "c" [{ hash := modelHash "b", position := "right" }]
      (some (modelHash (modelHash "a" ++ modelHash "b"))) = false :=
  have hv : verifyProof modelHash "a" [{ hash := modelHash "b", position := "right" }]
      (some (modelHash (modelHash "a" ++ modelHash "b"))) = true := by
    simp [verifyProof]
  ⟨modelHash_ideal.injective, hv,
    (verifyProof_detects_tampering modelHash modelHash_ideal.injective "a" _ _ hv).1 "c"
      (by decide)⟩

end MerkleTree

/-! ## The cast handler step by step -/

theorem runRequest_append (hash : String → String) (allowRevote : Bool) (req : CastRequest)
    (xs ys : List Bool) (start : Db × Progress) :
    runRequest hash allowRevote req (xs ++ ys) start =
      runRequest hash allowRevote req ys (runRequest hash allowRevote req xs start) := by
  simp [runRequest, List.foldl_append]

theorem runRequest_cons (hash : String → String) (allowRevote : Bool) (req : CastRequest)
    (x : Bool) (xs : List Bool) (start : Db × Progress) :
    runRequest hash allowRevote req (x :: xs) start =
      runRequest hash allowRevote req xs (stepRequest hash allowRevote req start.1 start.2 x) :=
  rfl

theorem runRequest_finished (hash : String → String) (allowRevote : Bool) (req : CastRequest)
    (db : Db) (response : CastResponse) : ∀ (faults : List Bool),
      runRequest hash allowRevote req faults (db, .finished response) =
        (db, .finished response)
  | [] => rfl
  | x :: xs => by
    rw [runRequest_cons]
    exact runRequest_finished hash allowRevote req db response xs

/-- A step whose operation throws leaves the database as it is and ends the
request with status 500. -/
theorem stepRequest_fails (hash : String → String) (allowRevote : Bool) (req : CastRequest)
    (db : Db) (progress : Progress) :
    stepRequest hash allowRevote req db progress true =
      (db, match progress with
        | .finished response => .finished response
        | .atCheck => .finished (.failed 500 "Error checking voting status")
        | _ => .finished (.failed 500 "Failed to cast vote")) := by
  cases progress with
  | atSave existingVote => cases existingVote <;> simp [stepRequest]
  | _ => simp [stepRequest]

/-- The check of `checkVotingStatus` writes nothing. -/
theorem stepRequest_atCheck_db (hash : String → String) (allowRevote : Bool) (req : CastRequest)
    (db : Db) (fails : Bool) :
    (stepRequest hash allowRevote req db .atCheck fails).1 = db := by
  cases fails
  · simp only [stepRequest, Bool.false_eq_true, if_false]
    split <;> rfl
  · simp [stepRequest]

/-- C20 (the claim fails). The first cast in the election of the scenario, when the
update of the candidate's `voteCount` throws: the request is answered with status
500, and the ballot it saved, the `hasVoted` flag it set and the `totalVotes` it
raised stay, with the candidate counts and the `merkleRoot` as they were. -/
theorem failed_cast_leaves_ballot :
    runRequest modelHash false (firstCast modelHash) [false, false, false, false, true]
        (emptyElection, .atCheck) =
      ({ votes := [{ voteId := "vote-1", voterId := "V1", electionId := "E",
                     candidateId := "C1", boothId := "WEB-CLIENT", position := "President",
                     encryptedVote := "enc-1", voteHash := modelHash "v1", merkleProof := [],
                     isVerified := true }],
         candidates := emptyElection.candidates,
         elections := [{ _id := "E", electionId := "ELEC1", totalVotes := 1,
                         merkleRoot := none }],
         voters := [{ _id := "u1", voterId := "V1", hasVoted := true },
                    { _id := "u2", voterId := "V2", hasVoted := false }] },
       .finished (.failed 500 "Failed to cast vote")) ∧
    (runRequest modelHash false (firstCast modelHash) [false, false, false, false, true]
        (emptyElection, .atCheck)).1 ≠ emptyElection := by
  have h : runRequest modelHash false (firstCast modelHash) [false, false, false, false, true]
        (emptyElection, .atCheck) =
      ({ votes := [{ voteId := "vote-1", voterId := "V1", electionId := "E",
                     candidateId := "C1", boothId := "WEB-CLIENT", position := "President",
                     encryptedVote := "enc-1", voteHash := modelHash "v1", merkleProof := [],
                     isVerified := true }],
         candidates := emptyElection.candidates,
         elections := [{ _id := "E", electionId := "ELEC1", totalVotes := 1,
                         merkleRoot := none }],
         voters := [{ _id := "u1", voterId := "V1", hasVoted := true },
                    { _id := "u2", voterId := "V2", hasVoted := false }] },
       .finished (.failed 500 "Failed to cast vote")) := by
    simp [runRequest, stepRequest, checkVotingStatus, emptyElection, firstCast, updateOne,
      ballotFilter]
  refine ⟨h, ?_⟩
  rw [h]
  intro hdb
  have hv := congrArg (fun d => d.votes.length) hdb
  simp [emptyElection] at hv

/-- C20 (amended). When the operation of step `k` of a cast request throws, the
request ends with status 500 and the database is left as the steps before step `k`
made it: no write is undone.  It is the database of before the request when the
failing step is the check of `checkVotingStatus` or the first write of the handler
(the `save` of the new ballot, or for a re-vote the decrement of the count of the
previous candidate). -/
theorem failure_keeps_earlier_writes (hash : String → String) (allowRevote : Bool)
    (req : CastRequest) (db : Db) (k : Nat) (rest : List Bool) :
    runRequest hash allowRevote req (List.replicate k false ++ true :: rest) (db, .atCheck) =
      ((runRequest hash allowRevote req (List.replicate k false) (db, .atCheck)).1,
        match (runRequest hash allowRevote req (List.replicate k false) (db, .atCheck)).2 with
        | .finished response => .finished response
        | .atCheck => .finished (.failed 500 "Error checking voting status")
        | _ => .finished (.failed 500 "Failed to cast vote")) ∧
    (k ≤ 1 →
      (runRequest hash allowRevote req (List.replicate k false ++ true :: rest)
        (db, .atCheck)).1 = db) := by
  have hmain : runRequest hash allowRevote req (List.replicate k false ++ true :: rest)
      (db, .atCheck) =
      ((runRequest hash allowRevote req (List.replicate k false) (db, .atCheck)).1,
        match (runRequest hash allowRevote req (List.replicate k false) (db, .atCheck)).2 with
        | .finished response => .finished response
        | .atCheck => .finished (.failed 500 "Error checking voting status")
        | _ => .finished (.failed 500 "Failed to cast vote")) := by
    rw [runRequest_append, runRequest_cons, stepRequest_fails]
    generalize (runRequest hash allowRevote req (List.replicate k false) (db, .atCheck)) = s
    obtain ⟨d, p⟩ := s
    cases p <;> exact runRequest_finished _ _ _ _ _ _
  refine ⟨hmain, ?_⟩
  intro hk
  rw [hmain]
  interval_cases k
  · rfl
  · exact stepRequest_atCheck_db hash allowRevote req db false

/-! ## Cast requests that race for one voter and one election -/

theorem find_none_of_any_false {α : Type} (q : α → Bool) (l : List α) (h : l.any q = false) :
    l.find? q = none := by
  rw [List.find?_eq_none]
  intro x hx hq
  have : l.any q = true := List.any_eq_true.2 ⟨x, hx, hq⟩
  rw [h] at this
  exact Bool.false_ne_true this

theorem find_some_of_any {α : Type} (q : α → Bool) (l : List α) (h : l.any q = true) :
    ∃ x, l.find? q = some x := by
  obtain ⟨x, hx, hq⟩ := List.any_eq_true.1 h
  cases hf : l.find? q with
  | some y => exact ⟨y, rfl⟩
  | none =>
    rw [List.find?_eq_none] at hf
    exact absurd hq (hf x hx)

theorem updateOne_any {α : Type} (p q : α → Bool) (f : α → α) (hq : ∀ x, q (f x) = q x) :
    ∀ (l : List α), (updateOne p f l).any q = l.any q
  | [] => rfl
  | d :: ds => by
    by_cases hd : p d = true
    · simp [updateOne, hd, hq]
    · have hd2 : p d = false := by simpa using hd
      simp [updateOne, hd2, updateOne_any p q f hq ds]

/-- No step of a cast request removes the ballot of a voter in an election. -/
theorem stepRequest_keeps_ballot (hash : String → String) (allowRevote : Bool)
    (req : CastRequest) (db : Db) (progress : Progress) (fails : Bool)
    (voterId electionId : String)
    (h : db.votes.any (ballotFilter voterId electionId) = true) :
    (stepRequest hash allowRevote req db progress fails).1.votes.any
      (ballotFilter voterId electionId) = true := by
  cases progress with
  | atCheck =>
    simp only [stepRequest]
    split
    · exact h
    · split <;> exact h
  | atSave existingVote =>
    cases existingVote with
    | none =>
      simp only [stepRequest]
      split
      · exact h
      · simp only [List.any_append, h, Bool.true_or]
    | some existing =>
      simp only [stepRequest]
      split <;> exact h
  | atRevoteSave existing =>
    simp only [stepRequest]
    split
    · exact h
    · refine Eq.trans (updateOne_any _ _ _ ?_ db.votes) h
      intro x
      rfl
  | atVoterUpdate =>
    simp only [stepRequest]
    split <;> exact h
  | atTotalVotes =>
    simp only [stepRequest]
    split <;> exact h
  | atCandidateUpdate voteId isRevote =>
    simp only [stepRequest]
    split <;> exact h
  | atFind voteId isRevote =>
    simp only [stepRequest]
    split
    · exact h
    · split <;> exact h
  | atProofSave voteId isRevote merkleProof merkleRoot =>
    simp only [stepRequest]
    split
    · exact h
    · refine Eq.trans (updateOne_any _ _ _ ?_ db.votes) h
      intro x
      rfl
  | atRootSave voteId isRevote merkleProof merkleRoot =>
    simp only [stepRequest]
    split <;> exact h
  | finished response => exact h

/-- The check of a request whose voter has no ballot in the election. -/
theorem stepRequest_check_fresh (hash : String → String) (allowRevote : Bool)
    (req : CastRequest) (db : Db)
    (h : db.votes.any (ballotFilter req.voterId req.electionId) = false) :
    stepRequest hash allowRevote req db .atCheck false = (db, .atSave none) := by
  simp [stepRequest, checkVotingStatus, find_none_of_any_false _ _ h]

/-- The `save` of the new ballot of a request whose voter has no ballot in the
election. -/
theorem stepRequest_save_fresh (hash : String → String) (allowRevote : Bool)
    (req : CastRequest) (db : Db)
    (h : db.votes.any (ballotFilter req.voterId req.electionId) = false) :
    stepRequest hash allowRevote req db (.atSave none) false =
      ({ db with votes := db.votes ++
          [{ voteId := req.newVoteId, voterId := req.voterId, electionId := req.electionId,
             candidateId := req.candidateId, boothId := req.boothId,
             position := req.position, encryptedVote := req.encryptedVote,
             voteHash := req.voteHash, merkleProof := [], isVerified := true }] },
        .atVoterUpdate) := by
  simp [stepRequest, h]

/-- With re-voting off, a request that has written nothing is rejected without a
write once the voter has a ballot in the election: with status 400 at the check,
and by the unique index at the `save`. -/
theorem stepRequest_rejected (hash : String → String) (req : CastRequest) (db : Db)
    (progress : Progress)
    (h : db.votes.any (ballotFilter req.voterId req.electionId) = true)
    (hp : progress.isWaiting = true ∨ progress.isRejected = true) :
    (stepRequest hash false req db progress false).1 = db ∧
    (stepRequest hash false req db progress false).2.isRejected = true := by
  cases progress with
  | atCheck =>
    obtain ⟨x, hx⟩ := find_some_of_any _ _ h
    simp [stepRequest, checkVotingStatus, hx, Progress.isRejected]
  | atSave existingVote =>
    cases existingVote with
    | none => simp [stepRequest, h, Progress.isRejected]
    | some existing => simp [Progress.isWaiting, Progress.isRejected] at hp
  | finished response =>
    cases response with
    | created a b c => simp [Progress.isWaiting, Progress.isRejected] at hp
    | failed s m => simp [stepRequest, Progress.isRejected]
  | _ => simp [Progress.isWaiting, Progress.isRejected] at hp

theorem runRequest_succ (hash : String → String) (allowRevote : Bool) (req : CastRequest)
    (n : Nat) (start : Db × Progress) :
    runRequest hash allowRevote req (List.replicate (n + 1) false) start =
      stepRequest hash allowRevote req
        (runRequest hash allowRevote req (List.replicate n false) start).1
        (runRequest hash allowRevote req (List.replicate n false) start).2 false := by
  rw [List.replicate_succ', runRequest_append]
  rfl

/-- After its first two steps a request whose voter had no ballot in the election
has saved one, and the ballot stays. -/
theorem runRequest_has_ballot (hash : String → String) (req : CastRequest) (init : Db)
    (h : init.votes.any (ballotFilter req.voterId req.electionId) = false) :
    ∀ k, (runRequest hash false req (List.replicate (k + 2) false) (init, .atCheck)).1.votes.any
      (ballotFilter req.voterId req.electionId) = true
  | 0 => by
    show (stepRequest hash false req
      (stepRequest hash false req init .atCheck false).1
      (stepRequest hash false req init .atCheck false).2 false).1.votes.any _ = true
    rw [stepRequest_check_fresh hash false req init h, stepRequest_save_fresh hash false req init h]
    simp [ballotFilter]
  | k + 1 => by
    rw [runRequest_succ]
    exact stepRequest_keeps_ballot _ _ _ _ _ _ _ _ (runRequest_has_ballot hash req init h k)

theorem System.step_eq (hash : String → String) (allowRevote : Bool) (sys : System) (i : Nat)
    (p : Process) (h : sys.processes[i]? = some p) :
    sys.step hash allowRevote i =
      { db := (stepRequest hash allowRevote p.req sys.db p.progress false).1,
        processes := sys.processes.set i
          { req := p.req,
            progress := (stepRequest hash allowRevote p.req sys.db p.progress false).2 } } := by
  simp [System.step, h]

/-- A step changes the progress of a request and leaves the request as it is. -/
theorem System.step_req (hash : String → String) (allowRevote : Bool) (sys : System)
    (i j : Nat) :
    ((sys.step hash allowRevote i).processes[j]?).map (fun p => p.req) =
      (sys.processes[j]?).map (fun p => p.req) := by
  cases hi : sys.processes[i]? with
  | none => simp [System.step, hi]
  | some p =>
    rw [System.step_eq hash allowRevote sys i p hi]
    by_cases hij : i = j
    · subst hij
      have hlt : i < sys.processes.length := (List.getElem?_eq_some_iff.1 hi).1
      simp only [List.getElem?_set_self hlt, hi, Option.map_some']
    · simp only [List.getElem?_set_ne hij]

theorem System.run_req (hash : String → String) (allowRevote : Bool) (j : Nat) :
    ∀ (schedule : List Nat) (sys : System),
      ((System.run hash allowRevote schedule sys).processes[j]?).map (fun p => p.req) =
        (sys.processes[j]?).map (fun p => p.req)
  | [], _ => rfl
  | i :: rest, sys => by
    show ((System.run hash allowRevote rest (sys.step hash allowRevote i)).processes[j]?).map
      (fun p => p.req) = _
    rw [System.run_req hash allowRevote j rest, System.step_req]

/-- The invariant of the race is kept by every step. -/
theorem RaceInvariant.step (hash : String → String) (init : Db) (sys : System)
    (voterId electionId : String)
    (hreq : ∀ (i : Nat) (p : Process), sys.processes[i]? = some p →
      p.req.voterId = voterId ∧ p.req.electionId = electionId)
    (hfresh : init.votes.any (ballotFilter voterId electionId) = false)
    (hinv : RaceInvariant hash init sys) (i : Nat) :
    RaceInvariant hash init (sys.step hash false i) := by
  cases hi : sys.processes[i]? with
  | none =>
    have hsame : sys.step hash false i = sys := by simp [System.step, hi]
    rw [hsame]
    exact hinv
  | some p =>
    rw [System.step_eq hash false sys i p hi]
    have hlt : i < sys.processes.length := (List.getElem?_eq_some_iff.1 hi).1
    obtain ⟨hpv, hpe⟩ := hreq i p hi
    have hfreshp : init.votes.any (ballotFilter p.req.voterId p.req.electionId) = false := by
      rw [hpv, hpe]
      exact hfresh
    rcases hinv with ⟨hdb, hall⟩ | ⟨j, w, k, hj, hrun, hothers⟩
    · -- no request has written yet
      have hp := hall i p hi
      obtain ⟨preq, pprogress⟩ := p
      cases pprogress with
      | atCheck =>
        left
        simp only at hfreshp
        rw [hdb, stepRequest_check_fresh hash false preq init hfreshp]
        refine ⟨rfl, ?_⟩
        intro i2 p2 h2
        by_cases hii : i = i2
        · subst hii
          rw [List.getElem?_set_self hlt] at h2
          rw [← Option.some.inj h2]
          rfl
        · rw [List.getElem?_set_ne hii] at h2
          exact hall i2 p2 h2
      | atSave existingVote =>
        cases existingVote with
        | some existing => simp [Progress.isWaiting] at hp
        | none =>
          right
          simp only at hfreshp
          rw [hdb, stepRequest_save_fresh hash false preq init hfreshp]
          refine ⟨i, _, 0, List.getElem?_set_self hlt, ?_, ?_⟩
          · show stepRequest hash false preq
              (stepRequest hash false preq init .atCheck false).1
              (stepRequest hash false preq init .atCheck false).2 false = _
            rw [stepRequest_check_fresh hash false preq init hfreshp,
              stepRequest_save_fresh hash false preq init hfreshp]
          · intro i2 p2 hne h2
            rw [List.getElem?_set_ne (Ne.symm hne)] at h2
            exact Or.inl (hall i2 p2 h2)
      | _ => simp [Progress.isWaiting] at hp
    · -- the request at position `j` has saved its ballot
      right
      obtain ⟨hwv, hwe⟩ := hreq j w hj
      have hfreshw : init.votes.any (ballotFilter w.req.voterId w.req.electionId) = false := by
        rw [hwv, hwe]
        exact hfresh
      have hballot : sys.db.votes.any (ballotFilter voterId electionId) = true := by
        have h := runRequest_has_ballot hash w.req init hfreshw k
        rw [hrun, hwv, hwe] at h
        exact h
      by_cases hij : i = j
      · subst hij
        have hpw : p = w := Option.some.inj (hi.symm.trans hj)
        subst hpw
        refine ⟨i, _, k + 1, List.getElem?_set_self hlt, ?_, ?_⟩
        · rw [runRequest_succ, hrun]
        · intro i2 p2 hne h2
          rw [List.getElem?_set_ne (Ne.symm hne)] at h2
          exact hothers i2 p2 hne h2
      · have hp := hothers i p hij hi
        have hballotp : sys.db.votes.any (ballotFilter p.req.voterId p.req.electionId) = true := by
          rw [hpv, hpe]
          exact hballot
        obtain ⟨hsame, hrej⟩ := stepRequest_rejected hash p.req sys.db p.progress hballotp hp
        refine ⟨j, w, k, ?_, ?_, ?_⟩
        · rw [List.getElem?_set_ne hij]
          exact hj
        · rw [hsame]
          exact hrun
        · intro i2 p2 hne h2
          by_cases hii : i = i2
          · subst hii
            rw [List.getElem?_set_self hlt] at h2
            rw [← Option.some.inj h2]
            exact Or.inr hrej
          · rw [List.getElem?_set_ne hii] at h2
            exact hothers i2 p2 hne h2

/-- The invariant of the race holds after every schedule. -/
theorem RaceInvariant.run (hash : String → String) (init : Db) (voterId electionId : String)
    (hfresh : init.votes.any (ballotFilter voterId electionId) = false) :
    ∀ (schedule : List Nat) (sys : System),
      (∀ (i : Nat) (p : Process), sys.processes[i]? = some p →
        p.req.voterId = voterId ∧ p.req.electionId = electionId) →
      RaceInvariant hash init sys →
      RaceInvariant hash init (System.run hash false schedule sys)
  | [], _, _, hinv => hinv
  | i :: rest, sys, hreq, hinv => by
    show RaceInvariant hash init (System.run hash false rest (sys.step hash false i))
    refine RaceInvariant.run hash init voterId electionId hfresh rest _ ?_
      (RaceInvariant.step hash init sys voterId electionId hreq hfresh hinv i)
    intro i2 p2 h2
    have hr := System.step_req hash false sys i i2
    rw [h2] at hr
    cases h3 : sys.processes[i2]? with
    | none => rw [h3] at hr; simp at hr
    | some p3 =>
      rw [h3] at hr
      simp only [Option.map_some', Option.some.injEq] at hr
      rw [hr]
      exact hreq i2 p3 h3

theorem exists_split_of_mem {α : Type} (q : α → Bool) (l : List α)
    (h : ∃ x ∈ l, q x = true) :
    ∃ l1 x l2, l = l1 ++ x :: l2 ∧ (∀ a ∈ l1, q a = false) ∧ q x = true := by
  obtain ⟨x, hx, hq⟩ := h
  obtain ⟨y, hy⟩ := find_some_of_any q l (List.any_eq_true.2 ⟨x, hx, hq⟩)
  obtain ⟨hp, l1, l2, hsplit, hl1⟩ := List.find?_eq_some.1 hy
  refine ⟨l1, y, l2, hsplit, ?_, hp⟩
  intro a ha
  simpa using hl1 a ha

/-- The result of the cast of a voter without a ballot in the election: the ballot
is added at the end of the collection, the flag `hasVoted` is set, `totalVotes` and
the count of the candidate are raised, the proof and the root are stored. -/
theorem castVote_fresh (hash : String → String) (allowRevote : Bool) (db : Db)
    (req : CastRequest)
    (hfresh : db.votes.any (ballotFilter req.voterId req.electionId) = false) :
    ∃ (proof : List MerkleTree.ProofElement) (root : Option String),
      castVote hash allowRevote db req =
        ({ votes := updateOne (ballotFilter req.voterId req.electionId)
              (fun v => { v with merkleProof := proof })
              (db.votes ++
                [{ voteId := req.newVoteId, voterId := req.voterId,
                   electionId := req.electionId, candidateId := req.candidateId,
                   boothId := req.boothId, position := req.position,
                   encryptedVote := req.encryptedVote, voteHash := req.voteHash,
                   merkleProof := [], isVerified := true }]),
           candidates := updateOne (candidateFilter req.candidateId req.electionId)
              (fun c => { c with voteCount := c.voteCount + 1 }) db.candidates,
           elections := updateOne (fun (e : Election) => e._id = req.electionId)
              (fun e => { e with merkleRoot := root })
              (updateOne (fun (e : Election) => e._id = req.electionId)
                (fun e => { e with totalVotes := e.totalVotes + 1 }) db.elections),
           voters := updateOne (fun (u : Voter) => u._id = req.userId)
              (fun u => { u with hasVoted := true }) db.voters },
          .created req.newVoteId proof false) ∧
      runRequest hash allowRevote req (List.replicate 8 false) (db, .atCheck) =
        ((castVote hash allowRevote db req).1, .finished (castVote hash allowRevote db req).2) := by
  have hfind := find_none_of_any_false _ _ hfresh
  have hmem : req.voteHash ∈ ((db.votes ++
      [({ voteId := req.newVoteId, voterId := req.voterId,
          electionId := req.electionId, candidateId := req.candidateId,
          boothId := req.boothId, position := req.position,
          encryptedVote := req.encryptedVote, voteHash := req.voteHash,
          merkleProof := [], isVerified := true } : Vote)]).filter
      (fun v => decide (v.electionId = req.electionId))).map (fun v => v.voteHash) := by
    apply List.mem_map.2
    exact ⟨_, List.mem_filter.2 ⟨List.mem_append_right _ (List.mem_singleton.2 rfl), by simp⟩,
      rfl⟩
  obtain ⟨proof, hproof⟩ := getProof_isOk hash _ _ hmem
  have hcast : castVote hash allowRevote db req =
        ({ votes := updateOne (ballotFilter req.voterId req.electionId)
              (fun v => { v with merkleProof := proof })
              (db.votes ++
                [{ voteId := req.newVoteId, voterId := req.voterId,
                   electionId := req.electionId, candidateId := req.candidateId,
                   boothId := req.boothId, position := req.position,
                   encryptedVote := req.encryptedVote, voteHash := req.voteHash,
                   merkleProof := [], isVerified := true }]),
           candidates := updateOne (candidateFilter req.candidateId req.electionId)
              (fun c => { c with voteCount := c.voteCount + 1 }) db.candidates,
           elections := updateOne (fun (e : Election) => e._id = req.electionId)
              (fun e => { e with merkleRoot := (MerkleTree.new hash (((db.votes ++
                [({ voteId := req.newVoteId, voterId := req.voterId,
                    electionId := req.electionId, candidateId := req.candidateId,
                    boothId := req.boothId, position := req.position,
                    encryptedVote := req.encryptedVote, voteHash := req.voteHash,
                    merkleProof := [], isVerified := true } : Vote)]).filter
                (fun v => decide (v.electionId = req.electionId))).map
                  (fun v => v.voteHash))).getRoot })
              (updateOne (fun (e : Election) => e._id = req.electionId)
                (fun e => { e with totalVotes := e.totalVotes + 1 }) db.elections),
           voters := updateOne (fun (u : Voter) => u._id = req.userId)
              (fun u => { u with hasVoted := true }) db.voters },
          .created req.newVoteId proof false) := by
    simp only [castVote, checkVotingStatus, hfind, castPersist, hfresh, Bool.false_eq_true,
      if_false, hproof, Option.isSome_none]
  refine ⟨proof, _, hcast, ?_⟩
  rw [hcast]
  simp only [runRequest, List.replicate, List.foldl_cons, List.foldl_nil, stepRequest,
    checkVotingStatus, hfind, hfresh, Bool.false_eq_true, if_false, Bool.or_self, hproof]

/-- A request that has finished on its own finished within its eight steps: the
state it finished in is the one `castVote` returns. -/
theorem runRequest_finished_eq_castVote (hash : String → String) (req : CastRequest)
    (init db : Db) (response : CastResponse) (n : Nat)
    (hfresh : init.votes.any (ballotFilter req.voterId req.electionId) = false)
    (hrun : runRequest hash false req (List.replicate n false) (init, .atCheck) =
      (db, .finished response)) :
    castVote hash false init req = (db, response) := by
  obtain ⟨proof, root, _, htie⟩ := castVote_fresh hash false init req hfresh
  have hpair : ((castVote hash false init req).1, Progress.finished (castVote hash false init req).2)
      = (db, Progress.finished response) := by
    rcases Nat.le_total n 8 with hle | hge
    · obtain ⟨m, hm⟩ := Nat.exists_eq_add_of_le hle
      rw [← htie, hm, List.replicate_add, runRequest_append, hrun, runRequest_finished]
    · obtain ⟨m, hm⟩ := Nat.exists_eq_add_of_le hge
      rw [hm, List.replicate_add, runRequest_append, htie, runRequest_finished] at hrun
      exact hrun
  have h1 := congrArg Prod.fst hpair
  have h2 := congrArg Prod.snd hpair
  simp only [Progress.finished.injEq] at h1 h2
  exact Prod.ext h1 h2

/-- C17. Cast requests for one voter and one election run at the same time, with
re-voting off: the steps of the requests are taken in any order, one step being
the check of `checkVotingStatus` or one operation of the handler on the database,
and no operation fails other than by the unique index of the ballots.  The voter
has no ballot in the election before, and the election and the candidate of every
request exist.  Once all requests are answered, the database is the one a single
cast of one of the requests makes: one ballot exists for the voter in the
election, one election document has changed, by `totalVotes` higher by 1 and the
new `merkleRoot`, and one candidate document has changed, by `voteCount` higher
by 1.  That request is answered with status 201 and every other one with an error
status. -/
theorem one_ballot_after_race (hash : String → String) (init : Db) (voterId electionId : String)
    (processes : List Process) (schedule : List Nat)
    (hN : processes ≠ [])
    (hstart : ∀ p ∈ processes,
      p.progress = .atCheck ∧ p.req.voterId = voterId ∧ p.req.electionId = electionId)
    (hfresh : init.votes.any (ballotFilter voterId electionId) = false)
    (helection : ∃ el ∈ init.elections, el._id = electionId)
    (hcandidate : ∀ p ∈ processes,
      ∃ c ∈ init.candidates, candidateFilter p.req.candidateId electionId c = true)
    (hdone : ∀ p ∈ (System.run hash false schedule ⟨init, processes⟩).processes,
      ∃ response, p.progress = .finished response) :
    ∃ w ∈ processes,
      (System.run hash false schedule ⟨init, processes⟩).db = (castVote hash false init w.req).1 ∧
      ((System.run hash false schedule ⟨init, processes⟩).db.votes.filter
        (ballotFilter voterId electionId)).length = 1 ∧
      (∃ l1 el l2 root, init.elections = l1 ++ el :: l2 ∧ el._id = electionId ∧
        (System.run hash false schedule ⟨init, processes⟩).db.elections =
          l1 ++ { el with totalVotes := el.totalVotes + 1, merkleRoot := root } :: l2) ∧
      (∃ l1 c l2, init.candidates = l1 ++ c :: l2 ∧ c.candidateId = w.req.candidateId ∧
        (System.run hash false schedule ⟨init, processes⟩).db.candidates =
          l1 ++ { c with voteCount := c.voteCount + 1 } :: l2) ∧
      (∃ j proof, (System.run hash false schedule ⟨init, processes⟩).processes[j]? =
          some ⟨w.req, .finished (.created w.req.newVoteId proof false)⟩ ∧
        ∀ (i : Nat) (p : Process), i ≠ j →
          (System.run hash false schedule ⟨init, processes⟩).processes[i]? = some p →
          p.progress.isRejected = true) := by
  have hreq : ∀ (i : Nat) (p : Process), (System.mk init processes).processes[i]? = some p →
      p.req.voterId = voterId ∧ p.req.electionId = electionId := by
    intro i p hp
    exact (hstart p (List.getElem?_mem hp)).2
  have hinit : RaceInvariant hash init ⟨init, processes⟩ := by
    left
    refine ⟨rfl, ?_⟩
    intro i p hp
    rw [(hstart p (List.getElem?_mem hp)).1]
    rfl
  have hinv := RaceInvariant.run hash init voterId electionId hfresh schedule _ hreq hinit
  generalize hfinal : System.run hash false schedule ⟨init, processes⟩ = final at hinv hdone ⊢
  have hreqs : ∀ (j : Nat), (final.processes[j]?).map (fun (p : Process) => p.req) =
      (processes[j]?).map (fun (p : Process) => p.req) := by
    intro j
    rw [← hfinal]
    exact System.run_req hash false j schedule ⟨init, processes⟩
  rcases hinv with ⟨_, hall⟩ | ⟨j, w2, k, hj, hrun, hothers⟩
  · -- some request exists, and it cannot be both waiting and answered
    exfalso
    obtain ⟨p0, rest, hp0⟩ := List.exists_cons_of_ne_nil hN
    have h0 := hreqs 0
    rw [hp0] at h0
    cases hf : final.processes[0]? with
    | none => rw [hf] at h0; simp at h0
    | some q =>
      obtain ⟨response, hresp⟩ := hdone q (List.getElem?_mem hf)
      have hw := hall 0 q hf
      rw [hresp] at hw
      simp [Progress.isWaiting] at hw
  · obtain ⟨response, hresp⟩ := hdone w2 (List.getElem?_mem hj)
    have hj0 := hreqs j
    rw [hj] at hj0
    cases hp0 : processes[j]? with
    | none => rw [hp0] at hj0; simp at hj0
    | some w =>
      rw [hp0] at hj0
      simp only [Option.map_some', Option.some.injEq] at hj0
      have hwmem : w ∈ processes := List.getElem?_mem hp0
      obtain ⟨_, hwv, hwe⟩ := hstart w hwmem
      have hfreshw : init.votes.any (ballotFilter w.req.voterId w.req.electionId) = false := by
        rw [hwv, hwe]
        exact hfresh
      rw [hresp, hj0] at hrun
      have hcast := runRequest_finished_eq_castVote hash w.req init final.db response (k + 2)
        hfreshw hrun
      obtain ⟨proof, root, hexp, _⟩ := castVote_fresh hash false init w.req hfreshw
      rw [hexp] at hcast
      have hdb := (congrArg Prod.fst hcast).symm
      have hres := (congrArg Prod.snd hcast).symm
      simp only at hdb hres
      refine ⟨w, hwmem, ?_, ?_, ?_, ?_, ?_⟩
      · rw [hexp]
        exact hdb
      · rw [hdb, ← hwv, ← hwe]
        simp only
        rw [updateOne_filter_length (ballotFilter w.req.voterId w.req.electionId)
          (ballotFilter w.req.voterId w.req.electionId)
          (fun v => { v with merkleProof := proof }) (fun _ => rfl)]
        have hnil : init.votes.filter (ballotFilter w.req.voterId w.req.electionId) = [] := by
          rw [List.filter_eq_nil_iff]
          intro a ha hq
          have : init.votes.any (ballotFilter w.req.voterId w.req.electionId) = true :=
            List.any_eq_true.2 ⟨a, ha, hq⟩
          rw [hfreshw] at this
          exact Bool.false_ne_true this
        simp [List.filter_append, hnil, ballotFilter]
      · obtain ⟨l1, el, l2, hsplit, hl1, hel⟩ := exists_split_of_mem
          (fun (e : Election) => decide (e._id = electionId)) init.elections (by
            obtain ⟨el, hmem, hid⟩ := helection
            exact ⟨el, hmem, by simpa using hid⟩)
        refine ⟨l1, el, l2, root, hsplit, by simpa using hel, ?_⟩
        rw [hdb, hwe]
        simp only
        rw [hsplit, updateOne_split (fun (e : Election) => decide (e._id = electionId))
          (fun e => { e with totalVotes := e.totalVotes + 1 }) l1 el l2 hl1 hel,
          updateOne_split (fun (e : Election) => decide (e._id = electionId))
          (fun e => { e with merkleRoot := root }) l1
          { el with totalVotes := el.totalVotes + 1 } l2 hl1 hel]
      · obtain ⟨l1, c, l2, hsplit, hl1, hc⟩ := exists_split_of_mem
          (candidateFilter w.req.candidateId electionId) init.candidates (hcandidate w hwmem)
        refine ⟨l1, c, l2, hsplit, ?_, ?_⟩
        · simp only [candidateFilter, Bool.and_eq_true, decide_eq_true_eq] at hc
          exact hc.1
        · rw [hdb, hwe]
          simp only
          rw [hsplit, updateOne_split (candidateFilter w.req.candidateId electionId)
            (fun c => { c with voteCount := c.voteCount + 1 }) l1 c l2 hl1 hc]
      · refine ⟨j, proof, ?_, ?_⟩
        · rw [hj]
          congr 1
          cases w2 with
          | mk r2 p2 =>
            simp only at hj0 hresp
            rw [hj0, hresp, hres]
        · intro i p hne hp
          rcases hothers i p hne hp with hw | hr
          · obtain ⟨response2, hresp2⟩ := hdone p (List.getElem?_mem hp)
            rw [hresp2] at hw
            simp [Progress.isWaiting] at hw
          · exact hr

theorem System.run_append (hash : String → String) (allowRevote : Bool)
    (xs ys : List Nat) (sys : System) :
    System.run hash allowRevote (xs ++ ys) sys =
      System.run hash allowRevote ys (System.run hash allowRevote xs sys) := by
  simp [System.run, List.foldl_append]

/-- The race of the scenario up to the last write of a tally: the second request
saves its ballot first, and the `save` of the first request is refused by the
unique index. -/
theorem raceSchedule_writes (hash : String → String) :
    System.run hash false [0, 1, 1, 0, 1, 1, 1] ⟨emptyElection, raceRequests hash⟩ =
      { db :=
          { votes := [{ voteId := "vote-3", voterId := "V1", electionId := "E",
                        candidateId := "C2", boothId := "WEB-CLIENT", position := "President",
                        encryptedVote := "enc-3", voteHash := hash "v3", merkleProof := [],
                        isVerified := true }],
            candidates :=
              [{ candidateId := "C1", electionId := "E", isActive := true, voteCount := 0 },
               { candidateId := "C2", electionId := "E", isActive := true, voteCount := 1 }],
            elections := [{ _id := "E", electionId := "ELEC1", totalVotes := 1,
                            merkleRoot := none }],
            voters := [{ _id := "u1", voterId := "V1", hasVoted := true },
                       { _id := "u2", voterId := "V2", hasVoted := false }] },
        processes :=
          [⟨firstCast hash, .finished (.failed 500 "Failed to cast vote")⟩,
           ⟨revoteCast hash, .atFind "vote-3" false⟩] } := by
  simp [System.run, System.step, raceRequests, stepRequest, checkVotingStatus,
    emptyElection, firstCast, revoteCast, updateOne, ballotFilter, candidateFilter]

/-- The race of the scenario, to its end. -/
theorem raceSchedule_run (hash : String → String) :
    System.run hash false raceSchedule ⟨emptyElection, raceRequests hash⟩ =
      { db :=
          { votes := [{ voteId := "vote-3", voterId := "V1", electionId := "E",
                        candidateId := "C2", boothId := "WEB-CLIENT", position := "President",
                        encryptedVote := "enc-3", voteHash := hash "v3", merkleProof := [],
                        isVerified := true }],
            candidates :=
              [{ candidateId := "C1", electionId := "E", isActive := true, voteCount := 0 },
               { candidateId := "C2", electionId := "E", isActive := true, voteCount := 1 }],
            elections := [{ _id := "E", electionId := "ELEC1", totalVotes := 1,
                            merkleRoot := some (hash (hash "v3")) }],
            voters := [{ _id := "u1", voterId := "V1", hasVoted := true },
                       { _id := "u2", voterId := "V2", hasVoted := false }] },
        processes :=
          [⟨firstCast hash, .finished (.failed 500 "Failed to cast vote")⟩,
           ⟨revoteCast hash, .finished (.created "vote-3" [] false)⟩] } := by
  have h : raceSchedule = [0, 1, 1, 0, 1, 1, 1] ++ [1, 1, 1] := rfl
  rw [h, System.run_append, raceSchedule_writes]
  have hproof : MerkleTree.getProof hash (MerkleTree.new hash [hash "v3"]) (hash "v3") =
      .ok [] := by
    simp [MerkleTree.new, MerkleTree.getProof, MerkleTree.getProofLoop, MerkleTree.buildTree,
      MerkleTree.buildLevels, MerkleTree.nextLevel, List.indexOf_cons]
  have hroot : (MerkleTree.new hash [hash "v3"]).getRoot = some (hash (hash "v3")) := by
    simp [MerkleTree.new, MerkleTree.buildTree, MerkleTree.buildLevels, MerkleTree.getRoot]
  simp [System.run, System.step, stepRequest, revoteCast, updateOne, ballotFilter, hproof,
    hroot]

/-- C17 at two requests of the voter `V1` in the election of the scenario, for the
candidates `C1` and `C2`. -/
theorem one_ballot_after_race_witness :
    ((System.run modelHash false raceSchedule
      ⟨emptyElection, raceRequests modelHash⟩).db.votes.filter
        (ballotFilter "V1" "E")).length = 1 ∧
    (System.run modelHash false raceSchedule
      ⟨emptyElection, raceRequests modelHash⟩).db.elections.map (fun e => e.totalVotes) = [1] ∧
    (System.run modelHash false raceSchedule
      ⟨emptyElection, raceRequests modelHash⟩).db.candidates.map (fun c => c.voteCount) =
        [0, 1] := by
  obtain ⟨_, _, _, hballots, _⟩ := one_ballot_after_race modelHash emptyElection "V1" "E"
    (raceRequests modelHash) raceSchedule (by simp [raceRequests])
    (by simp [raceRequests, firstCast, revoteCast])
    (by simp [emptyElection])
    ⟨{ _id := "E", electionId := "ELEC1", totalVotes := 0, merkleRoot := none },
      by simp [emptyElection], rfl⟩
    (by simp [raceRequests, firstCast, revoteCast, emptyElection, candidateFilter])
    (by rw [raceSchedule_run]; simp)
  refine ⟨hballots, ?_, ?_⟩
  · rw [raceSchedule_run]
    rfl
  · rw [raceSchedule_run]
    rfl

/-! ## The Merkle ledger: the levels, appending, and proofs on full trees -/

namespace MerkleTree

/-- The nodes of the level above: node `j` combines the nodes `2 * j` and
`2 * j + 1`, and the node `2 * j` with itself when it is the last one. -/
theorem nextLevel_getElem? (hash : String → String) :
    ∀ (n : Nat) (l : List String) (j : Nat), l.length ≤ n → 2 * j < l.length →
      (nextLevel hash l)[j]? =
        some (hash ((l[2 * j]?).getD "" ++ (l[2 * j + 1]?).getD ((l[2 * j]?).getD "")))
  | _, [], j, _, hj => by simp at hj
  | _, [a], j, _, hj => by
    have : j = 0 := by simp at hj; omega
    subst this
    simp [nextLevel]
  | 0, _ :: _ :: _, _, h, _ => by simp at h
  | n + 1, a :: b :: rest, 0, _, _ => by simp [nextLevel]
  | n + 1, a :: b :: rest, j + 1, h, hj => by
    have ih := nextLevel_getElem? hash n rest j (by simp at h; omega) (by simp at hj; omega)
    have e1 : 2 * (j + 1) = (2 * j) + 1 + 1 := by omega
    have e2 : 2 * (j + 1) + 1 = (2 * j + 1) + 1 + 1 := by omega
    simp only [nextLevel, List.getElem?_cons_succ, e1, e2, ih]

/-- Consecutive levels of `buildLevels`: the first level is the list it starts from,
and every level after a level is built from it by `nextLevel`. -/
theorem buildLevels_levels (hash : String → String) :
    ∀ (n : Nat) (xs : List String), xs.length ≤ n →
      (buildLevels hash xs)[0]? = some xs ∧
      ∀ (i : Nat) (level next : List String), (buildLevels hash xs)[i]? = some level →
        (buildLevels hash xs)[i + 1]? = some next → next = nextLevel hash level
  | n, xs, h => by
    rw [buildLevels_eq]
    split
    · rename_i hlen
      have hn : (nextLevel hash xs).length ≤ n - 1 := by
        rw [nextLevel_length hash _ _ (Nat.le_refl _)]
        omega
      have ih := buildLevels_levels hash (n - 1) (nextLevel hash xs) hn
      refine ⟨by simp, ?_⟩
      intro i level next hi hnext
      cases i with
      | zero =>
        simp only [List.getElem?_cons_zero, Option.some.injEq] at hi
        simp only [Nat.zero_add, List.getElem?_cons_succ] at hnext
        rw [ih.1] at hnext
        rw [← hi]
        exact (Option.some.inj hnext).symm
      | succ i =>
        simp only [List.getElem?_cons_succ] at hi hnext
        exact ih.2 i level next hi hnext
    · refine ⟨by simp, ?_⟩
      intro i level next hi hnext
      simp at hnext
termination_by n => n
decreasing_by
  omega

end MerkleTree

namespace MerkleTree

/-- The last level of `buildLevels` over a non-empty list has one node. -/
theorem getLast_buildLevels_single (hash : String → String) :
    ∀ (n : Nat) (xs : List String), xs.length ≤ n → xs ≠ [] →
      ∃ root, (buildLevels hash xs).getLast? = some [root]
  | n, xs, h, hne => by
    rw [getLast_buildLevels]
    split
    · rename_i hlen
      have hl := nextLevel_length hash _ _ (Nat.le_refl xs.length)
      refine getLast_buildLevels_single hash (n - 1) (nextLevel hash xs) (by omega) ?_
      intro h0
      rw [h0] at hl
      simp at hl
      omega
    · rename_i hlen
      match xs, hne, hlen with
      | [a], _, _ => exact ⟨a, rfl⟩
      | _ :: _ :: _, _, hlen => simp at hlen
termination_by n => n
decreasing_by
  omega

/-- C23. For a non-empty list of leaf values, the first level of the tree is the
list of the digests of the leaf values in their order; a level of `n` nodes is
followed by a level of `(n + 1) / 2` nodes, whose node `j` is the digest of node
`2 * j` followed by node `2 * j + 1`, or by node `2 * j` again when node `2 * j` is
the last one; the last level has one node, which `getRoot` returns.  For the empty
list the tree is empty and `getRoot` returns `null`. -/
theorem buildTree_levels (hash : String → String) (L : List String) (hne : L ≠ []) :
    (new hash L).leaves = L.map hash ∧
    (new hash L).tree[0]? = some (L.map hash) ∧
    (∀ (i : Nat) (level next : List String), (new hash L).tree[i]? = some level →
      (new hash L).tree[i + 1]? = some next →
      next.length = (level.length + 1) / 2 ∧
      ∀ j, j < next.length →
        next[j]? = some (hash ((level[2 * j]?).getD "" ++
          (level[2 * j + 1]?).getD ((level[2 * j]?).getD "")))) ∧
    (∃ root, (new hash L).tree.getLast? = some [root] ∧ (new hash L).getRoot = some root) ∧
    (new hash []).tree = [] ∧ (new hash []).getRoot = none := by
  have hlen : (L.map hash).length ≠ 0 := by simpa using hne
  have htree : (new hash L).tree = buildLevels hash (L.map hash) := by
    simp only [new, buildTree, if_neg hlen]
  obtain ⟨h0, hstep⟩ := buildLevels_levels hash _ (L.map hash) (Nat.le_refl _)
  refine ⟨rfl, by rw [htree]; exact h0, ?_, ?_, by simp [new, buildTree], by
    simp [new, buildTree, getRoot]⟩
  · intro i level next hi hnext
    rw [htree] at hi hnext
    have hn := hstep i level next hi hnext
    have hl := nextLevel_length hash _ level (Nat.le_refl _)
    rw [hn]
    refine ⟨hl, ?_⟩
    intro j hj
    exact nextLevel_getElem? hash _ level j (Nat.le_refl _) (by omega)
  · obtain ⟨root, hroot⟩ := getLast_buildLevels_single hash _ (L.map hash) (Nat.le_refl _)
      (by simpa using hne)
    refine ⟨root, by rw [htree]; exact hroot, ?_⟩
    rw [getRoot_new hash L hne, hroot]
    rfl

/-- C23 at the three leaves `a`, `b`, `c`. -/
theorem buildTree_levels_witness :
    (new modelHash ["a", "b", "c"]).tree =
      [[modelHash "a", modelHash "b", modelHash "c"],
       [modelHash (modelHash "a" ++ modelHash "b"), modelHash (modelHash "c" ++ modelHash "c")],
       [modelHash (modelHash (modelHash "a" ++ modelHash "b") ++
          modelHash (modelHash "c" ++ modelHash "c"))]] ∧
    (new modelHash ["a", "b", "c"]).tree[0]? =
      some (["a", "b", "c"].map modelHash) :=
  ⟨by simp [new, buildTree, buildLevels, nextLevel],
    (buildTree_levels modelHash ["a", "b", "c"] (by simp)).2.1⟩

/-- C24. A tree built from a list of leaf values, after `addLeaf` of a value, has the
leaves, the levels and the root of the tree built from the list with the value
added at its end; the digest of the value is the last leaf, after the leaves of
the list in their order. -/
theorem addLeaf_eq_rebuild (hash : String → String) (L : List String) (x : String) :
    addLeaf hash (new hash L) x = new hash (L ++ [x]) ∧
    (addLeaf hash (new hash L) x).leaves = (new hash (L ++ [x])).leaves ∧
    (addLeaf hash (new hash L) x).tree = (new hash (L ++ [x])).tree ∧
    (addLeaf hash (new hash L) x).getRoot = (new hash (L ++ [x])).getRoot ∧
    (addLeaf hash (new hash L) x).leaves = (new hash L).leaves ++ [hash x] := by
  have h : addLeaf hash (new hash L) x = new hash (L ++ [x]) := by
    simp [addLeaf, new, List.map_append]
  refine ⟨h, by rw [h], by rw [h], by rw [h], ?_⟩
  simp [addLeaf, new]

/-- C29. The method `getProof` ends in the error `Leaf not found in tree` exactly
when the digest of the value is not among the leaves of the instance, as for every
value on an empty tree; otherwise it returns a proof, and it ends in no other
error.  It reads the instance and assigns neither `leaves` nor `tree`. -/
theorem getProof_error_iff (hash : String → String) (t : MerkleTree) (x : String) :
    (getProof hash t x = .error "Leaf not found in tree" ↔ hash x ∉ t.leaves) ∧
    (hash x ∈ t.leaves ↔ ∃ proof, getProof hash t x = .ok proof) ∧
    (∀ message, getProof hash t x = .error message → message = "Leaf not found in tree") ∧
    getProof hash (new hash []) x = .error "Leaf not found in tree" := by
  have hiff : List.indexOf (hash x) t.leaves = t.leaves.length ↔ hash x ∉ t.leaves := by
    constructor
    · intro h hmem
      have := List.indexOf_lt_length.2 hmem
      omega
    · intro h
      exact List.indexOf_eq_length.2 h
  refine ⟨?_, ?_, ?_, ?_⟩
  · unfold getProof
    simp only
    split
    · rename_i h
      simp [hiff.1 h]
    · rename_i h
      simp only [false_iff, not_not, reduceCtorEq]
      by_contra hmem
      exact h (hiff.2 hmem)
  · unfold getProof
    simp only
    split
    · rename_i h
      simp [hiff.1 h]
    · rename_i h
      have hmem : hash x ∈ t.leaves := by
        by_contra hmem
        exact h (hiff.2 hmem)
      simp [hmem]
  · intro message h
    unfold getProof at h
    simp only at h
    split at h
    · injection h with h
      exact h.symm
    · cases h
  · simp [getProof, new]

end MerkleTree

namespace MerkleTree

/-- On a level of `2 ^ k` nodes, the loop of `getProof` from the node at position
`i` pushes `k` steps, and the loop of `verifyProof` over these steps, started at
that node, ends at the root. -/
theorem getProofLoop_full (hash : String → String) :
    ∀ (k : Nat) (lv : List String) (i : Nat), lv.length = 2 ^ k → i < 2 ^ k →
      (getProofLoop (buildLevels hash lv).dropLast i).length = k ∧
      some ((getProofLoop (buildLevels hash lv).dropLast i).foldl
        (fun currentHash proofElement =>
          if proofElement.position = "left" then hash (proofElement.hash ++ currentHash)
          else hash (currentHash ++ proofElement.hash)) ((lv[i]?).getD "")) =
        (buildLevels hash lv).getLast?.bind List.head?
  | 0, lv, i, hlen, hi => by
    have hi0 : i = 0 := by simpa using hi
    subst hi0
    match lv, hlen with
    | [a], _ =>
      rw [buildLevels_eq]
      simp [getProofLoop]
  | k + 1, lv, i, hlen, hi => by
    have h2 : 2 ^ (k + 1) = 2 * 2 ^ k := by rw [Nat.pow_succ, Nat.mul_comm]
    have hpos : 0 < 2 ^ k := Nat.pow_pos (by decide)
    have hgt : 1 < lv.length := by omega
    have hnl : (nextLevel hash lv).length = 2 ^ k := by
      rw [nextLevel_length hash _ lv (Nat.le_refl _)]
      omega
    obtain ⟨ihlen, ihroot⟩ := getProofLoop_full hash k (nextLevel hash lv) (i / 2) hnl
      (by omega)
    have hnode := nextLevel_getElem? hash _ lv (i / 2) (Nat.le_refl _) (by omega)
    have hlast := getLast_buildLevels hash lv
    rw [if_pos hgt] at hlast
    rw [hlast, ← ihroot]
    rw [buildLevels_eq, if_pos hgt,
      List.dropLast_cons_of_ne_nil (buildLevels_ne_nil hash (nextLevel hash lv))]
    rcases Nat.mod_two_eq_zero_or_one i with hev | hodd
    · have hsib : i + 1 < lv.length := by omega
      have e1 : 2 * (i / 2) = i := by omega
      rw [e1] at hnode
      have hcur : (lv[i]?).getD "" = lv[i] := by
        rw [List.getElem?_eq_getElem (by omega)]
        rfl
      have hsibv : (lv[i + 1]?).getD ((lv[i]?).getD "") = lv[i + 1] := by
        rw [List.getElem?_eq_getElem hsib]
        rfl
      rw [hsibv, hcur] at hnode
      simp only [getProofLoop, hev, decide_True, if_true, dif_pos hsib, List.singleton_append,
        List.length_cons, ihlen, List.foldl_cons, List.get_eq_getElem, hnode, hcur,
        Option.getD_some, true_and]
      simp
    · have hsib : i - 1 < lv.length := by omega
      have e1 : 2 * (i / 2) = i - 1 := by omega
      have e2 : 2 * (i / 2) + 1 = i := by omega
      rw [e2, e1] at hnode
      have hcur : (lv[i]?).getD ((lv[i - 1]?).getD "") = lv[i] := by
        rw [List.getElem?_eq_getElem (by omega)]
        rfl
      have hcur2 : (lv[i]?).getD "" = lv[i] := by
        rw [List.getElem?_eq_getElem (by omega)]
        rfl
      have hsibv : (lv[i - 1]?).getD "" = lv[i - 1] := by
        rw [List.getElem?_eq_getElem hsib]
        rfl
      rw [hcur, hsibv] at hnode
      have hne : ¬ i % 2 = 0 := by omega
      simp only [getProofLoop, hne, decide_False, Bool.false_eq_true, if_false, dif_pos hsib,
        List.singleton_append, List.length_cons, ihlen, List.foldl_cons, List.get_eq_getElem,
        hnode, hcur2, Option.getD_some, if_true, true_and]

/-- C27. For a list of `2 ^ k` leaf values and a value of the list, `getProof`
returns a proof of `k` steps, the one for the first position at which the digest
of the value is a leaf, and `verifyProof` accepts the value with that proof
against the root of the tree. -/
theorem verifyProof_getProof_full (hash : String → String) (k : Nat) (L : List String)
    (x : String) (hlen : L.length = 2 ^ k) (hx : x ∈ L) :
    ∃ proof, getProof hash (new hash L) x = .ok proof ∧
      proof = getProofLoop (new hash L).tree.dropLast ((new hash L).leaves.indexOf (hash x)) ∧
      proof.length = k ∧
      verifyProof hash x proof (new hash L).getRoot = true := by
  have hpos : 0 < 2 ^ k := Nat.pow_pos (by decide)
  have hne : L ≠ [] := by
    intro h0
    rw [h0] at hlen
    simp at hlen
    omega
  have hmem : hash x ∈ L.map hash := List.mem_map_of_mem hash hx
  have hlt : List.indexOf (hash x) (L.map hash) < (L.map hash).length :=
    List.indexOf_lt_length.2 hmem
  have hlen2 : (L.map hash).length = 2 ^ k := by simpa using hlen
  have hlen0 : (L.map hash).length ≠ 0 := by omega
  have htree : (new hash L).tree = buildLevels hash (L.map hash) := by
    simp only [new, buildTree, if_neg hlen0]
  obtain ⟨hk, hroot⟩ := getProofLoop_full hash k (L.map hash)
    (List.indexOf (hash x) (L.map hash)) hlen2 (by omega)
  have hleaf : ((L.map hash)[List.indexOf (hash x) (L.map hash)]?).getD "" = hash x := by
    rw [List.getElem?_eq_getElem hlt, List.getElem_indexOf hlt]
    rfl
  rw [hleaf] at hroot
  refine ⟨getProofLoop (new hash L).tree.dropLast ((new hash L).leaves.indexOf (hash x)),
    ?_, rfl, ?_, ?_⟩
  · unfold getProof
    simp only [new]
    rw [if_neg (Nat.ne_of_lt hlt)]
  · rw [htree]
    exact hk
  · rw [getRoot_new hash L hne, htree]
    simp only [verifyProof, new, decide_eq_true_eq]
    exact hroot

/-- C27 at the four leaves `a`, `b`, `c`, `d` and the leaf `c`. -/
theorem verifyProof_getProof_full_witness :
    ∃ proof, getProof modelHash (new modelHash ["a", "b", "c", "d"]) "c" = .ok proof ∧
      proof.length = 2 ∧
      verifyProof modelHash "c" proof (new modelHash ["a", "b", "c", "d"]).getRoot = true := by
  obtain ⟨proof, h1, _, h2, h3⟩ := verifyProof_getProof_full modelHash 2 ["a", "b", "c", "d"] "c"
    (by decide) (by simp)
  exact ⟨proof, h1, h2, h3⟩

end MerkleTree

/-! ## The face service: the perceptual code and the distance -/

namespace FaceService

theorem codeBits_append (a b : String) : codeBits (a ++ b) = codeBits a ++ codeBits b := by
  simp [codeBits, String.data_append, List.flatMap_append]

/-- The hexadecimal digit written for four bits has these four bits. -/
theorem nibble_codeBits : ∀ b0 b1 b2 b3 : Bool,
    codeBits (numberToHex (parseBinary [b0, b1, b2, b3])) = [b0, b1, b2, b3] := by
  decide

theorem hex_loop_bits (bits : List Bool) : ∀ (js : List Nat) (acc : String),
    (∀ j ∈ js, 4 * j + 4 ≤ bits.length) →
    codeBits (js.foldl
      (fun hex j => hex ++ numberToHex (parseBinary ((bits.drop (4 * j)).take 4))) acc) =
      codeBits acc ++ js.flatMap (fun j => (bits.drop (4 * j)).take 4)
  | [], acc, _ => by simp
  | j :: js, acc, hjs => by
    obtain ⟨b0, b1, b2, b3, hn⟩ := nibble_of_length bits j (hjs j (by simp))
    rw [List.foldl_cons, hex_loop_bits bits js _ (fun i hi => hjs i (by simp [hi])),
      codeBits_append, hn, nibble_codeBits, List.flatMap_cons, hn, List.append_assoc]

/-- Cutting a list of `4 * n` bits into `n` groups of four and joining the groups
gives the list back. -/
theorem chunks_join : ∀ (n : Nat) (bits : List Bool), bits.length = 4 * n →
    (List.range n).flatMap (fun j => (bits.drop (4 * j)).take 4) = bits
  | 0, bits, h => by
    have : bits = [] := List.eq_nil_of_length_eq_zero (by omega)
    simp [this]
  | n + 1, bits, h => by
    have ih := chunks_join n (bits.take (4 * n)) (by simp [List.length_take]; omega)
    have hsame : (List.range n).flatMap (fun j => (bits.drop (4 * j)).take 4) =
        (List.range n).flatMap (fun j => ((bits.take (4 * n)).drop (4 * j)).take 4) := by
      apply List.flatMap_congr
      intro j hj
      rw [List.mem_range] at hj
      rw [List.drop_take, List.take_take]
      congr 1
      omega
    have hlast : (bits.drop (4 * n)).take 4 = bits.drop (4 * n) := by
      apply List.take_of_length_le
      simp only [List.length_drop]
      omega
    rw [List.range_succ, List.flatMap_append, hsame, ih]
    simp only [List.flatMap_cons, List.flatMap_nil, List.append_nil, hlast]
    exact List.take_append_drop _ _

theorem averageBits_eq (data : List Nat) :
    averageBits data =
      data.map (fun (d : Nat) => decide ((d : ℚ) > (data.sum : ℚ) / (data.length : ℚ))) := by
  simp only [averageBits, foldl_add_eq_sum, Nat.zero_add]

/-- C25. For 64 pixels, `computeAverageHash` returns a code of 16 hexadecimal
digits; the 64 bits of the code, the four bits of each digit taken with the most
significant one first, are in the order of the pixels, and bit `i` is set exactly
when pixel `i` is greater than the mean of the 64 pixels. -/
theorem computeAverageHash_bits (data : List Nat) (h : data.length = 64) :
    (computeAverageHash data).length = 16 ∧ IsHexCode (computeAverageHash data) ∧
    codeBits (computeAverageHash data) =
      data.map (fun (d : Nat) => decide ((d : ℚ) > (data.sum : ℚ) / 64)) ∧
    (∀ (i : Nat), (codeBits (computeAverageHash data))[i]? =
      (data[i]?).map (fun (d : Nat) => decide ((d : ℚ) > (data.sum : ℚ) / 64))) := by
  obtain ⟨hhex, hlen⟩ := computeAverageHash_hex data h
  have hb : (averageBits data).length = 4 * 16 := by simp [averageBits, h]
  have hbits : codeBits (computeAverageHash data) =
      data.map (fun (d : Nat) => decide ((d : ℚ) > (data.sum : ℚ) / 64)) := by
    have hloop := hex_loop_bits (averageBits data) (List.range 16) ""
      (by intro j hj; rw [List.mem_range] at hj; omega)
    have hempty : codeBits "" = [] := rfl
    unfold computeAverageHash
    simp only
    rw [hloop, hempty, List.nil_append, chunks_join 16 _ hb, averageBits_eq, h]
    norm_num
  refine ⟨hlen, hhex, hbits, ?_⟩
  intro i
  rw [hbits, List.getElem?_map]

/-- C25 at 32 light pixels followed by 32 dark ones: the code is `ffffffff00000000`. -/
theorem computeAverageHash_bits_witness :
    codeBits (computeAverageHash (List.replicate 32 200 ++ List.replicate 32 10)) =
      (List.replicate 32 200 ++ List.replicate 32 10).map
        (fun (d : Nat) => decide ((d : ℚ) >
          ((List.replicate 32 200 ++ List.replicate 32 10).sum : ℚ) / 64)) ∧
    computeAverageHash (List.replicate 32 200 ++ List.replicate 32 10) = "ffffffff00000000" :=
  ⟨(computeAverageHash_bits (List.replicate 32 200 ++ List.replicate 32 10) (by decide)).2.2.1,
    modelFaceEnv_code⟩

theorem bitDistance_comm : ∀ (x y : List Bool), bitDistance x y = bitDistance y x
  | [], [] => rfl
  | [], _ :: _ => rfl
  | _ :: _, [] => rfl
  | a :: x, b :: y => by
    simp only [bitDistance, bitDistance_comm x y, eq_comm]

theorem bitDistance_le : ∀ (x y : List Bool), bitDistance x y ≤ x.length
  | [], _ => by simp [bitDistance]
  | _ :: _, [] => by simp [bitDistance]
  | a :: x, b :: y => by
    have ih := bitDistance_le x y
    simp only [bitDistance, List.length_cons]
    split <;> omega

theorem bitDistance_self : ∀ (x : List Bool), bitDistance x x = 0
  | [] => rfl
  | a :: x => by simp [bitDistance, bitDistance_self x]

theorem flatMap_nibbleBits_length : ∀ (cs : List Char),
    (cs.flatMap (fun c => nibbleBits ((parseHexDigit c).getD 0))).length = 4 * cs.length
  | [] => rfl
  | c :: cs => by
    have ih := flatMap_nibbleBits_length cs
    rw [List.flatMap_cons, List.length_append, ih]
    simp only [nibbleBits, List.length_cons, List.length_nil]
    omega

theorem codeBits_length (a : String) : (codeBits a).length = 4 * a.length :=
  flatMap_nibbleBits_length a.data

/-- C26. For two non-empty hexadecimal strings of one length `n`, `hammingDistance`
returns the number of positions in which their `4 * n` bits differ: the same
number for the two orders of the arguments, at most `4 * n`, and 0 for a string
and itself.  For strings of different lengths, and when an argument is empty or
missing, it returns `Infinity`; and whenever it returns `Infinity` for the code of
the presented sample and the stored code, `verifyFace` in perceptual mode
rejects. -/
theorem hammingDistance_spec (a b : String) (ha : IsHexCode a) (hb : IsHexCode b)
    (hne : a ≠ "") (hlen : a.length = b.length) :
    hammingDistance (some a) (some b) = some (bitDistance (codeBits a) (codeBits b)) ∧
    (codeBits a).length = 4 * a.length ∧ (codeBits b).length = 4 * a.length ∧
    hammingDistance (some a) (some b) = hammingDistance (some b) (some a) ∧
    bitDistance (codeBits a) (codeBits b) ≤ 4 * a.length ∧
    hammingDistance (some a) (some a) = some 0 ∧
    (∀ c d : String, c.length ≠ d.length → hammingDistance (some c) (some d) = none) ∧
    (∀ c : Option String, hammingDistance none c = none ∧ hammingDistance c none = none ∧
      hammingDistance (some "") c = none ∧ hammingDistance c (some "") = none) ∧
    (∀ (env : Env) (faceData : String) (data : List Nat) (stored toleranceBits),
      env.faceMode ≠ "arcface" → env.pixels faceData = .ok data →
      hammingDistance (some (computeAverageHash data)) stored = none →
      verifyFace env faceData stored toleranceBits = .ok false) := by
  have hbne : b ≠ "" := by
    intro hb0
    apply hne
    rw [hb0] at hlen
    exact String.ext (List.eq_nil_of_length_eq_zero hlen)
  have hab := hammingDistance_eq_bitDistance a b ha hb hlen hne
  have hba := hammingDistance_eq_bitDistance b a hb ha hlen.symm hbne
  have haa := hammingDistance_eq_bitDistance a a ha ha rfl hne
  refine ⟨hab, codeBits_length a, by rw [codeBits_length, hlen], ?_, ?_, ?_, ?_, ?_, ?_⟩
  · rw [hab, hba, bitDistance_comm]
  · have := bitDistance_le (codeBits a) (codeBits b)
    rw [codeBits_length] at this
    exact this
  · rw [haa, bitDistance_self]
  · intro c d hcd
    simp [hammingDistance, hcd]
  · intro c
    cases c <;> simp [hammingDistance]
  · intro env faceData data stored toleranceBits hmode hpix hdist
    cases stored with
    | none => rfl
    | some s =>
      by_cases hs : s = ""
      · simp [verifyFace, hs]
      · rw [verifyFace_perceptual env faceData s data toleranceBits hmode hpix hs, hdist]
        rfl

/-- C26 at the codes `0f` and `f1`, which differ in 7 of their 8 bits. -/
theorem hammingDistance_spec_witness :
    hammingDistance (some "0f") (some "f1") = some 7 ∧
    hammingDistance (some "0f") (some "f1") = hammingDistance (some "f1") (some "0f") := by
  have h := hammingDistance_spec "0f" "f1" (by unfold IsHexCode; decide)
    (by unfold IsHexCode; decide) (by decide) (by decide)
  refine ⟨?_, h.2.2.2.1⟩
  rw [h.1]
  decide

end FaceService

/-! ## The cast handler: publication, candidate lookup and tallies -/

/-- The state and the response of the first cast of the scenario. -/
theorem castVote_firstCast (hash : String → String) :
    castVote hash false emptyElection (firstCast hash) =
      (afterFirstCast hash, .created "vote-1" [] false) := by
  have h : (castVote hash false emptyElection (firstCast hash)).2 = .created "vote-1" [] false := by
    simp [castVote, castPersist, checkVotingStatus, emptyElection, firstCast, updateOne,
      ballotFilter, candidateFilter, MerkleTree.new, MerkleTree.getProof,
      MerkleTree.getProofLoop, MerkleTree.buildTree, MerkleTree.buildLevels,
      MerkleTree.nextLevel, List.indexOf_cons, MerkleTree.getRoot]
  exact Prod.ext rfl h

/-- C21 (the claim fails). The first cast of the scenario, with a socket server set,
when the aggregation of the scope tallies throws: the ballot, the tallies, the
proof and the root are persisted, and the request is answered with status 500. -/
theorem publish_failure_fails_cast :
    (castVote modelHash false emptyElection (firstCast modelHash)).2 =
      .created "vote-1" [] false ∧
    castAndPublish modelHash false emptyElection (firstCast modelHash) true scenarioElection
      aggregateFails = (afterFirstCast modelHash, .failed 500 "Failed to cast vote") ∧
    (afterFirstCast modelHash).votes.length = 1 := by
  refine ⟨?_, ?_, ?_⟩
  · rw [castVote_firstCast]
  · simp only [castAndPublish, castVote_firstCast, publishAndRespond]
    rfl
  · rw [afterFirstCast_votes]
    rfl

/-- C21 (amended). After the ballot, the tallies, the proof and the root have been
persisted, the cast request is answered with its success response when no socket
server is set, in which case the publication is skipped, and when no step of the
publication throws; when a step of the publication throws, the request is
answered with status 500.  The persisted state stays in each case. -/
theorem publish_outcome (hash : String → String) (allowRevote : Bool) (db : Db)
    (req : CastRequest) (io : Bool) (election : Election) (faults : PublishFaults)
    (persisted : Db) (voteId : String) (merkleProof : List MerkleTree.ProofElement)
    (isRevote : Bool)
    (hcast : castVote hash allowRevote db req =
      (persisted, .created voteId merkleProof isRevote)) :
    (publishThrows io election faults = false →
      castAndPublish hash allowRevote db req io election faults =
        (persisted, .created voteId merkleProof isRevote)) ∧
    (publishThrows io election faults = true →
      castAndPublish hash allowRevote db req io election faults =
        (persisted, .failed 500 "Failed to cast vote")) ∧
    publishThrows false election faults = false ∧
    publishThrows io election noPublishFault = false ∧
    (io = true → (faults.emitElection = true ∨ faults.emitBooth = true ∨
      faults.aggregate = true) → publishThrows io election faults = true) := by
  refine ⟨?_, ?_, rfl, ?_, ?_⟩
  · intro h
    simp only [castAndPublish, hcast, publishAndRespond, h, Bool.false_eq_true, if_false]
  · intro h
    simp only [castAndPublish, hcast, publishAndRespond, h, if_true]
  · simp [publishThrows, noPublishFault]
  · intro hio hf
    rcases hf with h | h | h <;> simp [publishThrows, hio, h]

/-- C21 (amended) at the first cast of the scenario: the success response when
nothing throws. -/
theorem publish_outcome_witness :
    castAndPublish modelHash false emptyElection (firstCast modelHash) true scenarioElection
      noPublishFault = (afterFirstCast modelHash, .created "vote-1" [] false) :=
  (publish_outcome modelHash false emptyElection (firstCast modelHash) true scenarioElection
    noPublishFault (afterFirstCast modelHash) "vote-1" [] false
    (castVote_firstCast modelHash)).1 (by decide)

theorem updateOne_of_none {α : Type} (p : α → Bool) (f : α → α) :
    ∀ (l : List α), l.any p = false → updateOne p f l = l
  | [], _ => rfl
  | d :: ds, h => by
    simp only [List.any_cons, Bool.or_eq_false_iff] at h
    simp [updateOne, h.1, updateOne_of_none p f ds h.2]

/-- C22 (code defect). A voter without a ballot casts in the election of the
scenario and names the candidate `C1` by its database identifier: the candidate
lookup accepts the request through its second query, the cast succeeds, the
`totalVotes` of the election is 1 and the flag `hasVoted` of the voter is set,
and the `voteCount` of every candidate is as before: the tally update filters on
the field `candidateId` with the value of the request.  In general the candidates
are unchanged after the cast of a voter without a ballot whenever no candidate of
the election has the request value in its field `candidateId`. -/
theorem tally_missed_for_database_id :
    findCandidate modelObjectId idElection.candidates "64b7f0c2a1d2e3f4a5b6c7d9" "E" =
      some { candidateId := "C1", electionId := "E", isActive := true, voteCount := 0,
             _id := "64b7f0c2a1d2e3f4a5b6c7d9" } ∧
    candidateCheck modelObjectId idElection.candidates (idCast modelHash).candidateId
      (idCast modelHash).electionId = none ∧
    (castVote modelHash false idElection (idCast modelHash)).2 = .created "vote-1" [] false ∧
    (castVote modelHash false idElection (idCast modelHash)).1.candidates =
      idElection.candidates ∧
    electionTotal (castVote modelHash false idElection (idCast modelHash)).1 "E" = some 1 ∧
    (castVote modelHash false idElection (idCast modelHash)).1.voters.map
      (fun u => (u._id, u.hasVoted)) = [("u1", true), ("u2", false)] ∧
    (∀ (hash : String → String) (allowRevote : Bool) (db : Db) (req : CastRequest),
      db.votes.any (ballotFilter req.voterId req.electionId) = false →
      db.candidates.any (candidateFilter req.candidateId req.electionId) = false →
      (castVote hash allowRevote db req).1.candidates = db.candidates) := by
  have hcast : castVote modelHash false idElection (idCast modelHash) =
      ({ votes := [{ voteId := "vote-1", voterId := "V1", electionId := "E",
                     candidateId := "64b7f0c2a1d2e3f4a5b6c7d9", boothId := "WEB-CLIENT",
                     position := "President", encryptedVote := "enc-1",
                     voteHash := modelHash "v1", merkleProof := [], isVerified := true }],
         candidates := idElection.candidates,
         elections := [{ _id := "E", electionId := "ELEC1", totalVotes := 1,
                         merkleRoot := some (modelHash (modelHash "v1")) }],
         voters := [{ _id := "u1", voterId := "V1", hasVoted := true },
                    { _id := "u2", voterId := "V2", hasVoted := false }] },
       .created "vote-1" [] false) := by
    simp [castVote, castPersist, checkVotingStatus, idElection, idCast, emptyElection, firstCast,
      updateOne, ballotFilter, candidateFilter, MerkleTree.new, MerkleTree.getProof,
      MerkleTree.getProofLoop, MerkleTree.buildTree, MerkleTree.buildLevels,
      MerkleTree.nextLevel, List.indexOf_cons, MerkleTree.getRoot]
  refine ⟨by decide, by decide, ?_, ?_, ?_, ?_, ?_⟩
  · rw [hcast]
  · rw [hcast]
  · rw [hcast]
    rfl
  · rw [hcast]
    rfl
  · intro hash allowRevote db req hfresh hnone
    obtain ⟨proof, root, hexp, _⟩ := castVote_fresh hash allowRevote db req hfresh
    rw [hexp]
    exact updateOne_of_none _ _ _ hnone

theorem find_updateOne {α : Type} (p : α → Bool) (f : α → α) (hp : ∀ x, p (f x) = p x) :
    ∀ (l : List α), (updateOne p f l).find? p = (l.find? p).map f
  | [] => rfl
  | d :: ds => by
    by_cases hd : p d = true
    · simp [updateOne, hd, hp]
    · have hd2 : p d = false := by simpa using hd
      simp [updateOne, hd2, find_updateOne p f hp ds]

/-- The sum of the counts of an election after the update of the count of one of
its candidates by `delta`. -/
theorem candidateSum_updateOne (candidateId electionId : String) (f : Candidate → Candidate)
    (delta : Int)
    (hf : ∀ c, (f c).voteCount = c.voteCount + delta ∧ (f c).electionId = c.electionId) :
    ∀ (l : List Candidate), (∃ c ∈ l, candidateFilter candidateId electionId c = true) →
      (((updateOne (candidateFilter candidateId electionId) f l).filter
        (fun c => c.electionId = electionId)).map (fun c => c.voteCount)).sum =
      ((l.filter (fun c => c.electionId = electionId)).map (fun c => c.voteCount)).sum + delta
  | [], h => by
    obtain ⟨c, hc, _⟩ := h
    simp at hc
  | d :: ds, h => by
    by_cases hd : candidateFilter candidateId electionId d = true
    · have hde : d.electionId = electionId := by
        simp only [candidateFilter, Bool.and_eq_true, decide_eq_true_eq] at hd
        exact hd.2
      simp only [updateOne, hd, if_true, List.filter_cons, (hf d).2, hde, decide_True,
        List.map_cons, List.sum_cons, (hf d).1]
      omega
    · have hd2 : candidateFilter candidateId electionId d = false := by simpa using hd
      have hrest : ∃ c ∈ ds, candidateFilter candidateId electionId c = true := by
        obtain ⟨c, hc, hpc⟩ := h
        rcases List.mem_cons.1 hc with hcd | hcd
        · rw [hcd, hd2] at hpc
          exact absurd hpc (by simp)
        · exact ⟨c, hcd, hpc⟩
      have ih := candidateSum_updateOne candidateId electionId f delta hf ds hrest
      simp only [updateOne, hd2, Bool.false_eq_true, if_false, List.filter_cons]
      split
      · simp only [List.map_cons, List.sum_cons, ih]
        omega
      · exact ih

/-- C28. In a state in which the `totalVotes` of the election is the sum of the
`voteCount` of its candidates, a cast that succeeds, by a voter without a ballot
or as a re-vote, for a request whose `candidateId` is the `candidateId` of a
candidate of the election, and whose previous ballot, if there is one, names a
candidate of the election, leaves a state in which the `totalVotes` of the
election is the sum of the `voteCount` of its candidates. -/
theorem tally_conservation (hash : String → String) (allowRevote : Bool) (db : Db)
    (req : CastRequest) (voteId : String) (merkleProof : List MerkleTree.ProofElement)
    (isRevote : Bool)
    (hsuccess : (castVote hash allowRevote db req).2 = .created voteId merkleProof isRevote)
    (hcandidate : ∃ c ∈ db.candidates, candidateFilter req.candidateId req.electionId c = true)
    (hprevious : ∀ existing,
      db.votes.find? (ballotFilter req.voterId req.electionId) = some existing →
      ∃ c ∈ db.candidates, candidateFilter existing.candidateId req.electionId c = true)
    (hinv : electionTotal db req.electionId = some (candidateSum db req.electionId)) :
    electionTotal (castVote hash allowRevote db req).1 req.electionId =
      some (candidateSum (castVote hash allowRevote db req).1 req.electionId) := by
  unfold electionTotal candidateSum at hinv ⊢
  cases hfind : db.votes.find? (ballotFilter req.voterId req.electionId) with
  | none =>
    have hfresh : db.votes.any (ballotFilter req.voterId req.electionId) = false := by
      cases hany : db.votes.any (ballotFilter req.voterId req.electionId) with
      | false => rfl
      | true =>
        obtain ⟨x, hx⟩ := find_some_of_any _ _ hany
        rw [hfind] at hx
        cases hx
    obtain ⟨proof, root, hexp, _⟩ := castVote_fresh hash allowRevote db req hfresh
    rw [hexp]
    simp only
    rw [find_updateOne (fun (e : Election) => decide (e._id = req.electionId))
        (fun e => { e with merkleRoot := root }) (fun _ => rfl),
      find_updateOne (fun (e : Election) => decide (e._id = req.electionId))
        (fun e => { e with totalVotes := e.totalVotes + 1 }) (fun _ => rfl),
      candidateSum_updateOne req.candidateId req.electionId
        (fun c => { c with voteCount := c.voteCount + 1 }) 1 (fun _ => ⟨rfl, rfl⟩)
        db.candidates hcandidate]
    cases hel : db.elections.find? (fun (e : Election) => decide (e._id = req.electionId)) with
    | none => rw [hel] at hinv; simp at hinv
    | some el =>
      rw [hel] at hinv
      simp only [Option.map_some', Option.some.injEq] at hinv ⊢
      rw [hinv]
  | some existing =>
    cases allowRevote with
    | false =>
      simp [castVote, checkVotingStatus, hfind] at hsuccess
    | true =>
      obtain ⟨proof, root, hexp⟩ := castVote_revote hash db req existing hfind
      rw [hexp]
      simp only
      have hstill : ∃ c ∈ updateOne (candidateFilter existing.candidateId req.electionId)
          (fun c => { c with voteCount := c.voteCount - 1 }) db.candidates,
          candidateFilter req.candidateId req.electionId c = true := by
        have hany : db.candidates.any (candidateFilter req.candidateId req.electionId) = true :=
          List.any_eq_true.2 hcandidate
        rw [← updateOne_any (candidateFilter existing.candidateId req.electionId)
          (candidateFilter req.candidateId req.electionId)
          (fun c => { c with voteCount := c.voteCount - 1 }) (fun _ => rfl)] at hany
        exact List.any_eq_true.1 hany
      rw [find_updateOne (fun (e : Election) => decide (e._id = req.electionId))
          (fun e => { e with merkleRoot := root }) (fun _ => rfl),
        candidateSum_updateOne req.candidateId req.electionId
          (fun c => { c with voteCount := c.voteCount + 1 }) 1 (fun _ => ⟨rfl, rfl⟩) _ hstill,
        candidateSum_updateOne existing.candidateId req.electionId
          (fun c => { c with voteCount := c.voteCount - 1 }) (-1)
          (fun _ => ⟨Int.sub_eq_add_neg, rfl⟩) db.candidates (hprevious existing hfind)]
      cases hel : db.elections.find? (fun (e : Election) => decide (e._id = req.electionId)) with
      | none => rw [hel] at hinv; simp at hinv
      | some el =>
        rw [hel] at hinv
        simp only [Option.map_some', Option.some.injEq] at hinv ⊢
        rw [hinv]
        omega

/-- C28 at the first cast of the scenario: 0 = 0 + 0 before, 1 = 1 + 0 after. -/
theorem tally_conservation_witness :
    electionTotal emptyElection "E" = some (candidateSum emptyElection "E") ∧
    electionTotal (castVote modelHash false emptyElection (firstCast modelHash)).1 "E" =
      some (candidateSum (castVote modelHash false emptyElection (firstCast modelHash)).1 "E") :=
  ⟨by decide,
    tally_conservation modelHash false emptyElection (firstCast modelHash) "vote-1" [] false
      (by rw [castVote_firstCast])
      ⟨{ candidateId := "C1", electionId := "E", isActive := true, voteCount := 0 },
        by simp [emptyElection], by decide⟩
      (by intro existing h; simp [emptyElection] at h) (by decide)⟩

/-! ## The rate limiter -/

namespace RateLimit

theorem get_cons (first : Option String × Attempt) (rest : Attempts) (key : Option String) :
    get (first :: rest) key = if first.1 = key then some first.2 else get rest key := by
  unfold get
  rw [List.find?_cons]
  by_cases h : first.1 = key <;> simp [h]

theorem clean_cons (first : Option String × Attempt) (rest : Attempts) (windowStart : Int) :
    clean (first :: rest) windowStart =
      if first.2.timestamp < windowStart then clean rest windowStart
      else first :: clean rest windowStart := by
  unfold clean
  rw [List.filter_cons]
  by_cases h : first.2.timestamp < windowStart <;> simp [h]

theorem set_cons (first : Option String × Attempt) (rest : Attempts) (key : Option String)
    (value : Attempt) :
    set (first :: rest) key value =
      if first.1 = key then (key, value) :: rest else first :: set rest key value := rfl

/-- An entry that is not older than the window survives the cleaning. -/
theorem get_clean : ∀ (attempts : Attempts) (key : Option String) (entry : Attempt)
    (windowStart : Int), get attempts key = some entry → ¬ entry.timestamp < windowStart →
    get (clean attempts windowStart) key = some entry
  | [], _, _, _, h, _ => by simp [get] at h
  | first :: rest, key, entry, windowStart, h, hts => by
    rw [get_cons] at h
    rw [clean_cons]
    by_cases hk : first.1 = key
    · rw [if_pos hk] at h
      have hfirst : first.2 = entry := Option.some.inj h
      rw [if_neg (by rw [hfirst]; exact hts), get_cons, if_pos hk, hfirst]
    · rw [if_neg hk] at h
      have ih := get_clean rest key entry windowStart h hts
      split
      · exact ih
      · rw [get_cons, if_neg hk]
        exact ih

theorem get_set_self : ∀ (attempts : Attempts) (key : Option String) (value : Attempt),
    get (set attempts key value) key = some value
  | [], _, _ => by simp [set, get]
  | first :: rest, key, value => by
    rw [set_cons]
    split
    · rw [get_cons, if_pos rfl]
    · rename_i hk
      rw [get_cons, if_neg hk]
      exact get_set_self rest key value

theorem get_set_ne : ∀ (attempts : Attempts) (key other : Option String) (value : Attempt),
    other ≠ key → get (set attempts other value) key = get attempts key
  | [], key, other, value, h => by simp [set, get, h]
  | first :: rest, key, other, value, h => by
    rw [set_cons]
    split
    · rename_i ho
      have hk : ¬ first.1 = key := by rw [ho]; exact h
      rw [get_cons, get_cons, if_neg hk, if_neg h]
    · rw [get_cons, get_cons, get_set_ne rest key other value h]

/-- One request keeps the invariant, and raises the count of the key when it is a
request of the key that is passed on. -/
theorem tracks_step (windowMs : Int) (max : Nat) (key : Option String) (start : Int)
    (attempts : Attempts) (count : Nat) (request : Request)
    (hnow : request.now ≤ start + windowMs) (hkey : request.key = key → start ≤ request.now)
    (h : Tracks max key start attempts count) :
    Tracks max key start
      (sensitiveOperationLimit windowMs max attempts request.key request.now).1
      (count + (if request.key = key ∧
        (sensitiveOperationLimit windowMs max attempts request.key request.now).2 = .next
        then 1 else 0)) := by
  by_cases hpass : ((get (clean attempts (request.now - windowMs)) request.key).getD
      { count := 0, timestamp := request.now }).count ≥ max
  · -- the request is answered with status 429
    have hres : sensitiveOperationLimit windowMs max attempts request.key request.now =
        (clean attempts (request.now - windowMs), .tooMany (Int.ceil
          (((((get (clean attempts (request.now - windowMs)) request.key).getD
            { count := 0, timestamp := request.now }).timestamp + windowMs - request.now : Int)
              : ℚ) / 1000))) := by
      simp only [sensitiveOperationLimit, if_pos hpass]
    rw [hres]
    simp only [reduceCtorEq, and_false, if_false, Nat.add_zero]
    rcases h with h0 | ⟨entry, hget, hts, hle, hmax⟩
    · exact Or.inl h0
    · exact Or.inr ⟨entry, get_clean _ _ _ _ hget (by omega), hts, hle, hmax⟩
  · -- the request is passed on
    have hres : sensitiveOperationLimit windowMs max attempts request.key request.now =
        (set (clean attempts (request.now - windowMs)) request.key
          { count := ((get (clean attempts (request.now - windowMs)) request.key).getD
              { count := 0, timestamp := request.now }).count + 1,
            timestamp := request.now }, .next) := by
      simp only [sensitiveOperationLimit, if_neg hpass]
    rw [hres]
    by_cases hk : request.key = key
    · simp only [hk, true_and, if_true]
      right
      rw [hk] at hpass
      refine ⟨_, get_set_self _ _ _, hkey hk, ?_, ?_⟩
      · rcases h with h0 | ⟨entry, hget, hts, hle, hmax⟩
        · simp only [h0]
          omega
        · rw [get_clean _ _ _ _ hget (by omega)]
          simp only [Option.getD_some]
          omega
      · simp only
        omega
    · simp only [hk, false_and, if_false, Nat.add_zero]
      rcases h with h0 | ⟨entry, hget, hts, hle, hmax⟩
      · exact Or.inl h0
      · right
        refine ⟨entry, ?_, hts, hle, hmax⟩
        rw [get_set_ne _ _ _ _ hk]
        exact get_clean _ _ _ _ hget (by omega)

/-- Under the invariant, the requests of the key passed on so far and those passed
on in the rest of the sequence are at most `max` together. -/
theorem passed_le (windowMs : Int) (max : Nat) (key : Option String) (start : Int) :
    ∀ (requests : List Request) (attempts : Attempts) (count : Nat),
      (∀ r ∈ requests, r.now ≤ start + windowMs ∧ (r.key = key → start ≤ r.now)) →
      Tracks max key start attempts count → count ≤ max →
      count + passed key requests (run windowMs max attempts requests).2 ≤ max
  | [], _, _, _, _, hle => by simpa [passed] using hle
  | request :: rest, attempts, count, hreq, h, hle => by
    obtain ⟨hnow, hkey⟩ := hreq request (by simp)
    have hstep := tracks_step windowMs max key start attempts count request hnow hkey h
    have hle2 : count + (if request.key = key ∧
        (sensitiveOperationLimit windowMs max attempts request.key request.now).2 = .next
        then 1 else 0) ≤ max := by
      rcases hstep with h0 | ⟨entry, _, _, h1, h2⟩
      · omega
      · omega
    have ih := passed_le windowMs max key start rest _ _
      (fun r hr => hreq r (by simp [hr])) hstep hle2
    simp only [run, passed]
    omega

theorem run_length (windowMs : Int) (max : Nat) : ∀ (requests : List Request)
    (attempts : Attempts), (run windowMs max attempts requests).2.length = requests.length
  | [], _ => rfl
  | request :: rest, attempts => by
    simp only [run, List.length_cons, run_length windowMs max rest]

theorem passed_append (key : Option String) : ∀ (pre post : List Request)
    (outcomes : List Outcome), outcomes.length = pre.length + post.length →
    passed key (pre ++ post) outcomes =
      passed key pre (outcomes.take pre.length) + passed key post (outcomes.drop pre.length)
  | [], post, outcomes, _ => by simp [passed]
  | r :: pre, post, [], h => by simp at h; omega
  | r :: pre, post, o :: outcomes, h => by
    have ih := passed_append key pre post outcomes (by simp at h; omega)
    show passed key (r :: (pre ++ post)) (o :: outcomes) = _
    simp only [passed, List.length_cons, List.take_succ_cons, List.drop_succ_cons]
    rw [ih]
    omega

/-- When no request of the key was passed on, each of them got status 429. -/
theorem rejected_of_passed_zero (key : Option String) : ∀ (requests : List Request)
    (outcomes : List Outcome), outcomes.length = requests.length →
    passed key requests outcomes = 0 →
    ∀ (i : Nat) (r : Request), requests[i]? = some r → r.key = key →
      ∃ retryAfter, outcomes[i]? = some (.tooMany retryAfter)
  | [], _, _, _, i, r, hr, _ => by simp at hr
  | q :: requests, [], h, _, _, _, _, _ => by simp at h
  | q :: requests, o :: outcomes, h, hp, i, r, hr, hk => by
    simp only [passed] at hp
    cases i with
    | zero =>
      simp only [List.getElem?_cons_zero, Option.some.injEq] at hr
      rw [hr] at hp
      cases o with
      | next => simp [hk] at hp
      | tooMany retryAfter => exact ⟨retryAfter, by simp⟩
    | succ i =>
      simp only [List.getElem?_cons_succ] at hr ⊢
      exact rejected_of_passed_zero key requests outcomes (by simp at h; omega) (by omega)
        i r hr hk

/-- C30. A limiter with window `windowMs` and bound `max` handles a sequence of
requests, from any state of its map.  `start` is the time of the first request of
the key `key`: the requests of the key come at `start` or later, and all the
requests of the sequence, those of other keys too, come at most `windowMs` after
`start`.  Then at most `max` requests of the key are passed on to `next()`, and
once `max` of them have been passed on, every later request of the key gets status
429. -/
theorem rate_limit_bound (windowMs : Int) (max : Nat) (key : Option String) (start : Int)
    (attempts : Attempts) (requests : List Request)
    (hwindow : ∀ r ∈ requests, r.now ≤ start + windowMs)
    (hstart : ∀ r ∈ requests, r.key = key → start ≤ r.now) :
    passed key requests (run windowMs max attempts requests).2 ≤ max ∧
    (∀ (pre post : List Request), requests = pre ++ post →
      passed key pre ((run windowMs max attempts requests).2.take pre.length) = max →
      ∀ (i : Nat) (r : Request), post[i]? = some r → r.key = key →
        ∃ retryAfter, (run windowMs max attempts requests).2[pre.length + i]? =
          some (.tooMany retryAfter)) := by
  have hall := passed_le windowMs max key start requests attempts 0
    (fun r hr => ⟨hwindow r hr, hstart r hr⟩) (Or.inl rfl) (Nat.zero_le _)
  rw [Nat.zero_add] at hall
  refine ⟨hall, ?_⟩
  intro pre post hsplit hpre i r hr hk
  have hlen := run_length windowMs max requests attempts
  have hlen2 : (run windowMs max attempts requests).2.length = pre.length + post.length := by
    rw [hlen, hsplit, List.length_append]
  have happ := passed_append key pre post (run windowMs max attempts requests).2 hlen2
  rw [← hsplit] at happ
  have hzero : passed key post ((run windowMs max attempts requests).2.drop pre.length) = 0 := by
    omega
  obtain ⟨retryAfter, hout⟩ := rejected_of_passed_zero key post _
    (by rw [List.length_drop, hlen2]; omega) hzero i r hr hk
  refine ⟨retryAfter, ?_⟩
  rw [List.getElem?_drop] at hout
  exact hout

end RateLimit

namespace RateLimit

/-- C30 at a limiter with a window of 1000 ms and the bound 2: of the four requests
of the voter `V1` two are passed on. -/
theorem rate_limit_bound_witness :
    passed (some "10.0.0.1V1") limiterRequests (run 1000 2 [] limiterRequests).2 ≤ 2 ∧
    (run 1000 2 [] limiterRequests).2.map (fun o => decide (o = .next)) =
      [true, true, true, false, false] := by
  refine ⟨(rate_limit_bound 1000 2 (some "10.0.0.1V1") 0 [] limiterRequests
    (by decide) (by decide)).1, ?_⟩
  simp [run, sensitiveOperationLimit, limiterRequests, limiterKey, jsString, clean, get, set]

end RateLimit
